import Mathlib

/-!
# net_exporter: the netstat collector (`collector/netstat.go`)

A shallow embedding of the socket-table parser, the packed hexadecimal address
decoder, the ASN table loader and the ASN lookup of the collector, followed by the
properties proved about them.

Conventions of the embedding.

* A Go `string` is modelled by the list of its code points (`GoString`); the
  text is taken to be valid UTF-8.  `len` is the UTF-8 byte length.  For ASCII
  text, which is what the kernel tables contain, code points and bytes coincide.
* A byte is a natural number below 256; a `net.IP` is the list of its bytes.
* A Go function returning `(value, error)` where the value is the zero value
  whenever the error is non-nil is modelled by `Except`.
* Library functions (`strconv`, `strings`, `bufio`, `encoding/binary`, `net`) are
  modelled after their source, restricted to the arguments the collector passes.
  The IPv6 text form of package `net` (its parser and its formatter) and the CSV
  reader are taken by what they deliver: as function parameters and as the sequence
  of results of `Read`.
* The line scanner has the default buffer of `bufio.Scanner`: a line that does not
  fit in 64 KiB ends the scan with `bufio.ErrTooLong`.  The one string that need not
  be valid UTF-8 is the token made of a full buffer, which may end inside a
  character; the bytes of that character are modelled by U+FFFD each, which is how
  Go decodes them.
-/

namespace NetExporter

/-! ## Strings and errors -/

/-- A Go string, as the list of its code points. -/
abbrev GoString := List Char

/-- Go builtin `len` on a string: the number of bytes of its UTF-8 encoding. -/
def len (s : GoString) : Nat := (s.map Char.utf8Size).sum

/-- The two sentinel errors a `strconv.NumError` can carry. -/
inductive NumErr where
  | ErrSyntax
  | ErrRange
deriving DecidableEq, Repr

/-- The Go error values the collector can produce.
`errorString` is an error given by its message, the result of `errors.New` or of
`fmt.Errorf` without a wrapping verb (the payload is the message); `wrapError` is
`fmt.Errorf` with a trailing `%w` (the payload is the text before the verb and the
wrapped error); `numError` is
`*strconv.NumError` with its fields `Func`, `Num`, `Err`; `parseError` is
`*net.ParseError` with its fields `Type`, `Text`. -/
inductive GoError where
  | errorString (msg : GoString)
  | wrapError (msg : GoString) (err : GoError)
  | numError (func : String) (num : GoString) (err : NumErr)
  | parseError (type : String) (text : GoString)
deriving DecidableEq, Repr

deriving instance DecidableEq for Except

/-- The method `Error()` of the error values: the message.  The quoting of the
parsed text in the message of a `*strconv.NumError` (`strconv.Quote`) is a
parameter. -/
def GoError.Error (quote : GoString → GoString) : GoError → GoString
  | .errorString msg => msg
  | .wrapError msg err => msg ++ err.Error quote
  | .numError func num err =>
    "strconv.".toList ++ func.toList ++ ": parsing ".toList ++ quote num ++ ": ".toList ++
      (match err with
        | .ErrSyntax => "invalid syntax".toList
        | .ErrRange => "value out of range".toList)
  | .parseError type text => "invalid ".toList ++ type.toList ++ ": ".toList ++ text

/-! ## `strconv.ParseUint` -/

/-- The function `lower` of package `strconv`: `c | ('x' - 'X')`. -/
def lower (c : Char) : Nat := c.toNat ||| 0x20

/-- The digit `switch` in the loop of `strconv.ParseUint` (for an explicit
base, where `_` is not accepted): the value of the byte `c` as a digit, `none`
when it is not a digit or letter. -/
def digitVal (c : Char) : Option Nat :=
  if '0'.toNat ≤ c.toNat ∧ c.toNat ≤ '9'.toNat then some (c.toNat - '0'.toNat)
  else if 'a'.toNat ≤ lower c ∧ lower c ≤ 'z'.toNat then some (lower c - 'a'.toNat + 10)
  else none

/-- One iteration of the digit loop of `strconv.ParseUint`: `n` is the value
accumulated so far, `maxVal` is `1<<bitSize - 1`; the result is the new
accumulator or the sentinel error the loop stops with. -/
def parseUintStep (base maxVal : Nat) (n : Nat) (c : Char) : Except NumErr Nat :=
  match digitVal c with
  | none => .error .ErrSyntax
  | some d =>
    if d ≥ base then .error .ErrSyntax
    -- cutoff = maxUint64/base + 1
    else if n ≥ (2 ^ 64 - 1) / base + 1 then .error .ErrRange
    else
      let n0 := n * base
      let n1 := (n0 + d) % 2 ^ 64
      if n1 < n0 ∨ n1 > maxVal then .error .ErrRange
      else .ok n1

/-- The digit loop of `strconv.ParseUint`. -/
def parseUintLoop (base maxVal : Nat) : GoString → Nat → Except NumErr Nat
  | [], n => .ok n
  | c :: cs, n =>
    match parseUintStep base maxVal n c with
    | .error e => .error e
    | .ok n1 => parseUintLoop base maxVal cs n1

/-- Go `strconv.ParseUint(s, base, bitSize)` for an explicit base `2 ≤ base ≤ 36`
and `1 ≤ bitSize ≤ 64` (the collector calls it with base 16 and bit sizes 8, 16
and 32).  The value Go returns next to a non-nil error is not kept: no caller
observes it. -/
def ParseUint (s : GoString) (base bitSize : Nat) : Except GoError Nat :=
  if s = [] then .error (.numError "ParseUint" s .ErrSyntax)
  else
    match parseUintLoop base (2 ^ bitSize - 1) s 0 with
    | .error e => .error (.numError "ParseUint" s e)
    | .ok n => .ok n

/-! ## `strings.Split`, `strings.Index`, `strings.Fields` -/

/-- Go `strings.Split(s, sep)` for a separator of one ASCII character: the
substrings between the separators, always at least one. -/
def Split : GoString → Char → List GoString
  | [], _ => [[]]
  | c :: cs, sep =>
    if c = sep then [] :: Split cs sep
    else
      match Split cs sep with
      | [] => [[c]]
      | f :: fs => (c :: f) :: fs

/-- Go `strings.Index(s, substr)` for a substring of one ASCII character: the
position of its first occurrence, or `-1`. -/
def Index (s : GoString) (c : Char) : Int :=
  if c ∈ s then (s.indexOf c : Nat) else -1

/-- Go `unicode.IsSpace`. -/
def isSpace (c : Char) : Bool :=
  let n := c.toNat
  (9 ≤ n ∧ n ≤ 13) ∨ n = 0x20 ∨ n = 0x85 ∨ n = 0xA0 ∨ n = 0x1680 ∨
  (0x2000 ≤ n ∧ n ≤ 0x200a) ∨ n = 0x2028 ∨ n = 0x2029 ∨ n = 0x202f ∨
  n = 0x205f ∨ n = 0x3000

/-- The scan of `strings.Fields`: `cur` is the field being collected. -/
def fieldsAux : GoString → GoString → List GoString
  | [], cur => if cur = [] then [] else [cur]
  | c :: cs, cur =>
    if isSpace c then
      (if cur = [] then fieldsAux cs [] else cur :: fieldsAux cs [])
    else fieldsAux cs (cur ++ [c])

/-- Go `strings.Fields(s)`: the maximal runs of non-space characters of `s`. -/
def Fields (s : GoString) : List GoString := fieldsAux s []

/-! ## `binary.LittleEndian.PutUint32` and the address decoders -/

/-- A `net.IP`: the address bytes. -/
abbrev IP := List Nat

/-- The four bytes `binary.LittleEndian.PutUint32(b, v)` stores in `b[0..3]`. -/
def PutUint32 (v : Nat) : List Nat :=
  [v % 256, (v >>> 8) % 256, (v >>> 16) % 256, (v >>> 24) % 256]

/-- Source `parseIPv4`. -/
def parseIPv4 (s : GoString) : Except GoError IP :=
  match ParseUint s 16 32 with
  | .error err => .error err
  | .ok v => .ok (PutUint32 (v % 2 ^ 32))

/-- The loop of source `parseIPv6`: `ip` holds the groups written so far (the
bytes `ip[0:i]`), `fuel` bounds the number of iterations. -/
def parseIPv6Loop : Nat → GoString → IP → Except GoError IP
  | 0, _, ip => .ok ip
  | fuel + 1, s, ip =>
    if len s = 0 then .ok ip
    else
      let grp := s.take 8
      match ParseUint grp 16 32 with
      | .error err => .error err
      | .ok u => parseIPv6Loop fuel (s.drop 8) (ip ++ PutUint32 (u % 2 ^ 32))

/-- Source `parseIPv6`, for the argument `parseAddr` passes (`len(s) = 32`,
so the loop runs at most four times and fills the 16 bytes group by group). -/
def parseIPv6 (s : GoString) : Except GoError IP :=
  parseIPv6Loop s.length s []

/-- Source `parseAddr`: the decoded address and port, or the error. -/
def parseAddr (s : GoString) : Except GoError (IP × Nat) :=
  let fields := Split s ':'
  if fields.length < 2 then
    .error (.errorString ("netstat: not enough fields: ".toList ++ s))
  else
    let f0 := fields.getD 0 []
    let r : Except GoError IP :=
      if len f0 = 8 then parseIPv4 f0
      else if len f0 = 32 then parseIPv6 f0
      else .error (.errorString ("netstat: bad formatted string: ".toList ++ f0))
    match r with
    | .error err => .error err
    | .ok ip =>
      match ParseUint (fields.getD 1 []) 16 16 with
      | .error err => .error err
      | .ok v => .ok (ip, v % 2 ^ 16)

/-! ## The ASN records and `findASN` -/

/-- A `net.IPNet`: network number and mask, as byte lists. -/
structure IPNet where
  IP : IP
  Mask : List Nat
deriving DecidableEq, Repr

/-- Source `asnRecord`. -/
structure asnRecord where
  IPNet : IPNet
  Name : GoString
deriving DecidableEq, Repr

/-- Go `net.IP.To4`: the 4-byte form of an IPv4 address (also of an
IPv4-mapped 16-byte one), `none` for Go `nil`. -/
def To4 (ip : IP) : Option IP :=
  if ip.length = 4 then some ip
  else if ip.length = 16 ∧ (ip.take 10).all (fun b => b = 0) ∧
      ip.getD 10 0 = 0xff ∧ ip.getD 11 0 = 0xff then
    some ((ip.drop 12).take 4)
  else none

/-- Go `net.networkNumberAndMask`; the result `(nil, nil)` is the pair of empty
lists. -/
def networkNumberAndMask (n : IPNet) : IP × List Nat :=
  let ip? : Option IP :=
    match To4 n.IP with
    | some ip => some ip
    | none => if n.IP.length ≠ 16 then none else some n.IP
  match ip? with
  | none => ([], [])
  | some ip =>
    let m := n.Mask
    if m.length = 4 then
      (if ip.length ≠ 4 then ([], []) else (ip, m))
    else if m.length = 16 then
      (if ip.length = 4 then (ip, m.drop 12) else (ip, m))
    else ([], [])

/-- Go `(*net.IPNet).Contains`. -/
def IPNet.Contains (n : IPNet) (ip : List Nat) : Bool :=
  let (nn, m) := networkNumberAndMask n
  let ip := match To4 ip with
    | some x => x
    | none => ip
  let l := ip.length
  if l ≠ nn.length then false
  else (List.range l).all fun i => nn.getD i 0 &&& m.getD i 0 = ip.getD i 0 &&& m.getD i 0

/-- Source `findASN`: the first record of `l` whose network contains `ip`,
`none` for the `nil` result. -/
def findASN : List asnRecord → IP → Option asnRecord
  | [], _ => none
  | r :: l, ip => if r.IPNet.Contains ip then some r else findASN l ip

/-! ## The socket table -/

/-- Source `socketStates`. -/
def socketStates : List GoString :=
  [ "UNKNOWN".toList,
    "ESTABLISHED".toList,
    "SYN_SENT".toList,
    "SYN_RECV".toList,
    "FIN_WAIT1".toList,
    "FIN_WAIT2".toList,
    "TIME_WAIT".toList,
    "_close".toList,
    "CLOSE_WAIT".toList,
    "LAST_ACK".toList,
    "LISTEN".toList,
    "CLOSING".toList ]

/-- A Go map with string keys: the value stored under each key, if any.  A
`nil` map, like an empty one, has no key. -/
abbrev GoMap (β : Type) := GoString → Option β

/-- The map literal `map[string]T{}`. -/
def GoMap.empty {β : Type} : GoMap β := fun _ => none

/-- The assignment `m[k] = v`. -/
def GoMap.set {β : Type} (m : GoMap β) (k : GoString) (v : β) : GoMap β :=
  fun k' => if k' = k then some v else m k'

/-- The type `map[string]map[string]uint64` of the count table: owner name, then
state name, then count. -/
abbrev CountTable := GoMap (GoMap Nat)

/-- How a call ends: it returns its results, or it stops with a run-time panic. -/
inductive Outcome (α : Type) where
  | returns (v : α)
  | panics (msg : String)

/-- Go `dropCR` of package `bufio`: drop one trailing carriage return. -/
def dropCR (data : GoString) : GoString :=
  if data.getLast? = some '\r' then data.dropLast else data

/-- Go `bufio.MaxScanTokenSize`: the size up to which the buffer of a scanner
grows, 64 KiB. -/
def MaxScanTokenSize : Nat := 64 * 1024

/-- Go `bufio.ErrTooLong`. -/
def ErrTooLong : GoError := .errorString "bufio.Scanner: token too long".toList

/-- An `io.Reader`, by what it delivers: the text `data`, followed by the end of
input (`err = none`, Go `io.EOF`) or by the read error `err`.  `errWithData` tells
whether the `Read` that delivers the last bytes reports the end or the error
itself (a positive count together with a non-nil error) or leaves it to the next
`Read`, as files and `strings.Reader` do. -/
structure Reader where
  data : GoString
  err : Option GoError
  errWithData : Bool

/-- Go `strings.NewReader(s)`: the reader that delivers the text `s` and then, by
a `Read` of its own, the end of input. -/
def NewReader (s : GoString) : Reader := ⟨s, none, false⟩

/-- The calls of `Scan` on a `bufio.Scanner` with its default buffer and its
default split function `ScanLines`, up to the first call that returns false.
`cs` is the text the reader has still to deliver, `cur` the part of the current
line that is already in the buffer and `n` its length in bytes.  The first result
lists the tokens of the calls that return true: the lines, without their
end-of-line marker.  The second result tells how the call that returns false ends:
`none` when it meets the end of the input or the reader's error, and the content of
the buffer when it fails with `ErrTooLong`.

A newline is found when it is among the first `MaxScanTokenSize` bytes of its line;
the text left at the end of the input is a token when it is not empty.  When
`MaxScanTokenSize` bytes without a newline fill the buffer the scanner fails, unless
the reader reported its end together with the last of these bytes.  The buffer
then holds the first `MaxScanTokenSize` bytes of the line; when they end inside a
character the bytes of that character are read as U+FFFD each, as Go decodes them.
After the failure the next call of `Scan` hands the buffer to `ScanLines` as the
end of the input and returns true with `dropCR` of its content as token; every
later call returns false. -/
def scanLoop (errWithData : Bool) : GoString → GoString → Nat → List GoString × Option GoString
  | [], cur, _ => (if cur = [] then [] else [dropCR cur], none)
  | c :: cs, cur, n =>
    if c = '\n' then
      let rest := scanLoop errWithData cs [] 0
      (dropCR cur :: rest.1, rest.2)
    else if n + c.utf8Size < MaxScanTokenSize then
      scanLoop errWithData cs (cur ++ [c]) (n + c.utf8Size)
    else if n + c.utf8Size = MaxScanTokenSize then
      if cs = [] ∧ errWithData = true then ([dropCR (cur ++ [c])], none)
      else ([], some (cur ++ [c]))
    else ([], some (cur ++ List.replicate (MaxScanTokenSize - n) '\uFFFD'))

/-- The scanner `bufio.NewScanner(r)` by the results of its calls of `Scan`, see
`scanLoop`. -/
def Scan (r : Reader) : List GoString × Option GoString :=
  scanLoop r.errWithData r.data [] 0

/-- The verb `%v` applied to a `[]string`: the elements between brackets,
separated by one space. -/
def fmtStrings (l : List GoString) : GoString :=
  '[' :: (List.intercalate [' '] l ++ [']'])

/-- The update of the table at the end of the loop body of source
`parseSocketStats`:
`if netStats[asName] == nil { netStats[asName] = map[string]uint64{} }` followed
by `netStats[asName][state]++`, the count being a `uint64`. -/
def countUp (netStats : CountTable) (asName state : GoString) : CountTable :=
  let netStats :=
    if (netStats asName).isNone then netStats.set asName GoMap.empty
    else netStats
  let inner := (netStats asName).getD GoMap.empty
  netStats.set asName (inner.set state (((inner state).getD 0 + 1) % 2 ^ 64))

/-- The results of source `parseSocketStats`: the table (`none` for `nil`) and
the error (`none` for `nil`). -/
abbrev SocketStats := Option CountTable × Option GoError

/-- The `for scanner.Scan()` loop of source `parseSocketStats` over the
remaining lines and its final `return netStats, scanner.Err()`; `netStats` is the
table built so far, `scanErr` the value of `scanner.Err()`. -/
def parseSocketStatsLoop (asns : List asnRecord) (scanErr : Option GoError) :
    List GoString → CountTable → Outcome SocketStats
  | [], netStats => .returns (some netStats, scanErr)
  | line0 :: rest, netStats =>
    -- Skip comments
    let i := Index line0 '#'
    let line := if i ≥ 0 then line0.take i.toNat else line0
    let fields := Fields line
    if fields.length < 12 then
      .returns (none, some (.errorString
        ("netstat: not enough fields: ".toList ++ Nat.toDigits 10 fields.length ++
          ", ".toList ++ fmtStrings fields)))
    else
      match parseAddr (fields.getD 2 []) with
      | .error err =>
        .returns (none, some (.wrapError
          "can not parse remote ip and port ddress in the file: ".toList err))
      | .ok (remoteIP, _) =>
        match ParseUint (fields.getD 3 []) 16 8 with
        | .error err => .returns (none, some err)
        | .ok u =>
          match socketStates.get? u with
          | none => .panics "runtime error: index out of range"
          | some state =>
            let asName :=
              match findASN asns remoteIP with
              | some asn => asn.Name
              | none => "_other".toList
            parseSocketStatsLoop asns scanErr rest (countUp netStats asName state)

/-- Source `parseSocketStats`.  The result of the first call of `Scan` is
ignored, the tokens of the following calls are folded into the table until a call
returns false, and `scanner.Err()` is the reader's error (nil at the end of the
input) or `ErrTooLong`.  When the first call itself fails with `ErrTooLong`, the
loop receives the buffered start of the first line as its only token. -/
def parseSocketStats (r : Reader) (asns : List asnRecord) : Outcome SocketStats :=
  match Scan r with
  | (_ :: lines, none) => parseSocketStatsLoop asns r.err lines GoMap.empty
  | (_ :: lines, some _) => parseSocketStatsLoop asns (some ErrTooLong) lines GoMap.empty
  | ([], none) => parseSocketStatsLoop asns r.err [] GoMap.empty
  | ([], some buf) => parseSocketStatsLoop asns (some ErrTooLong) [dropCR buf] GoMap.empty

/-! ## `net.ParseCIDR` and `parseAsnRecords` -/

/-- The loop of Go `net.dtoi`: `n` is the number read so far, `i` the number of
characters consumed. -/
def dtoiLoop : GoString → Nat → Nat → Nat × Nat × Bool
  | [], n, i => (n, i, true)
  | c :: cs, n, i =>
    if '0'.toNat ≤ c.toNat ∧ c.toNat ≤ '9'.toNat then
      let n := n * 10 + (c.toNat - '0'.toNat)
      -- big = 0xFFFFFF
      if n ≥ 0xFFFFFF then (0xFFFFFF, i, false) else dtoiLoop cs n (i + 1)
    else (n, i, true)

/-- Go `net.dtoi`, decimal to integer: the number, the characters consumed and
the success flag. -/
def dtoi (s : GoString) : Nat × Nat × Bool :=
  match dtoiLoop s 0 0 with
  | (n, i, false) => (n, i, false)
  | (n, i, true) => if i = 0 then (0, 0, false) else (n, i, true)

/-- The IPv4-mapped IPv6 address `::ffff:a.b.c.d`, as 16 bytes (Go `net.IPv4`). -/
def v4InV6 (a b c d : Nat) : IP := [0, 0, 0, 0, 0, 0, 0, 0, 0, 0, 0xff, 0xff, a, b, c, d]

/-- The loop of Go `net.parseIPv4` (dotted decimal text): `k` octets are still to
be read, `first` tells the first iteration, `p` holds the octets read. -/
def netParseIPv4Loop : Nat → Bool → GoString → List Nat → Option (List Nat × GoString)
  | 0, _, s, p => some (p, s)
  | k + 1, first, s, p =>
    if len s = 0 then none -- Missing octets.
    else
      let s? : Option GoString :=
        if first then some s
        else
          match s with
          | '.' :: t => some t
          | _ => none
      match s? with
      | none => none
      | some s =>
        match dtoi s with
        | (n, c, ok) =>
          if !ok ∨ n > 0xFF then none
          else if c > 1 ∧ s.head? = some '0' then none -- leading zeroes
          else netParseIPv4Loop k false (s.drop c) (p ++ [n])

/-- Go `net.parseIPv4`: the address of a dotted decimal text, in the 16-byte form
`net.IPv4` builds, `none` for `nil`. -/
def netParseIPv4 (s : GoString) : Option IP :=
  match netParseIPv4Loop 4 true s [] with
  | some ([a, b, c, d], rest) => if len rest ≠ 0 then none else some (v4InV6 a b c d)
  | _ => none

/-- The loop of Go `net.CIDRMask` over the `l` bytes still to fill, `n` one bits
being left. -/
def CIDRMaskLoop : Nat → Nat → List Nat
  | 0, _ => []
  | l + 1, n =>
    if n ≥ 8 then 0xff :: CIDRMaskLoop l (n - 8)
    else (0xff - (0xff >>> n)) :: CIDRMaskLoop l 0

/-- Go `net.CIDRMask(ones, bits)`; the empty list stands for `nil`. -/
def CIDRMask (ones bits : Nat) : List Nat :=
  if bits ≠ 8 * 4 ∧ bits ≠ 8 * 16 then []
  else if ones > bits then []
  else CIDRMaskLoop (bits / 8) ones

/-- Go `net.IP.Mask`; the empty list stands for `nil`. -/
def Mask (ip : IP) (mask : List Nat) : IP :=
  let mask :=
    if mask.length = 16 ∧ ip.length = 4 ∧ (mask.take 12).all (fun b => b = 0xff) then
      mask.drop 12
    else mask
  let ip :=
    if mask.length = 4 ∧ ip.length = 16 ∧
        ip.take 12 = [0, 0, 0, 0, 0, 0, 0, 0, 0, 0, 0xff, 0xff] then
      ip.drop 12
    else ip
  if ip.length ≠ mask.length then []
  else List.zipWith (fun a b => a &&& b) ip mask

/-- Go `net.ParseCIDR` (as in go1.17): the address and the network of a text
`address/prefix-length`.  The parser of the IPv6 text form of an address,
`net.parseIPv6`, is the parameter `netParseIPv6` (16 bytes, `none` for `nil`); it
is consulted only when the address part is not dotted decimal IPv4. -/
def ParseCIDR (netParseIPv6 : GoString → Option IP) (s : GoString) :
    Except GoError (IP × IPNet) :=
  let i := Index s '/'
  if i < 0 then .error (.parseError "CIDR address" s)
  else
    let addr := s.take i.toNat
    let mask := s.drop (i.toNat + 1)
    let (iplen, ip?) :=
      match netParseIPv4 addr with
      | some ip => (4, some ip)
      | none => (16, netParseIPv6 addr)
    match dtoi mask with
    | (n, j, ok) =>
      match ip? with
      | none => .error (.parseError "CIDR address" s)
      | some ip =>
        if !ok ∨ j ≠ len mask ∨ n > 8 * iplen then .error (.parseError "CIDR address" s)
        else
          let m := CIDRMask n (8 * iplen)
          .ok (ip, ⟨Mask ip m, m⟩)

/-- A `csv.Reader` on the table source, by what its successive `Read` calls
return: the records returned with a nil error, then the first non-nil error,
`io.EOF` at the end of the input (`err = none`) or a read or parse error such as
`csv.ErrFieldCount` (`err = some e`). -/
structure CsvReader where
  records : List (List GoString)
  err : Option GoError

/-- The results of source `parseAsnRecords`: the record list (`none` for `nil`)
and the error (`none` for `nil`). -/
abbrev AsnRecords := Option (List asnRecord) × Option GoError

/-- The `for` loop of source `parseAsnRecords` over the records still to be read
and its final `return l, nil`; `l` is the list built so far. -/
def parseAsnRecordsLoop (netParseIPv6 : GoString → Option IP) :
    List (List GoString) → List asnRecord → Outcome AsnRecords
  | [], l => .returns (some l, none)
  | record :: rest, l =>
    match record.get? 2 with
    | none => .panics "runtime error: index out of range"
    | some cidr =>
      match ParseCIDR netParseIPv6 cidr with
      | .error err =>
        .returns (none, some (.wrapError
          ("can not parse ip value: ".toList ++ cidr ++ ": ".toList) err))
      | .ok (_, ipnet) =>
        match record.get? 4 with
        | none => .panics "runtime error: index out of range"
        | some name => parseAsnRecordsLoop netParseIPv6 rest (l ++ [⟨ipnet, name⟩])

/-- Source `parseAsnRecords`.  The loop ends at the first `Read` that returns a
non-nil error, whatever that error is, and the error is not looked at again. -/
def parseAsnRecords (netParseIPv6 : GoString → Option IP) (r : CsvReader) :
    Outcome AsnRecords :=
  parseAsnRecordsLoop netParseIPv6 r.records []

/-- Go `net.uitoa`: the decimal text of a number. -/
def uitoa (n : Nat) : GoString := Nat.toDigits 10 n

/-- Go `net.hexString`: two lower-case hexadecimal digits per byte. -/
def hexString (b : List Nat) : GoString :=
  b.flatMap fun v =>
    ["0123456789abcdef".toList.getD (v >>> 4) '0', "0123456789abcdef".toList.getD (v &&& 0xf) '0']

/-- Go `net.IP.String` (as in go1.17); the text of a 16-byte address that is not
IPv4-mapped is given by the parameter `formatIPv6`. -/
def IPString (formatIPv6 : IP → GoString) (ip : IP) : GoString :=
  if ip.length = 0 then "<nil>".toList
  else
    match To4 ip with
    | some p4 =>
      uitoa (p4.getD 0 0) ++ '.' :: uitoa (p4.getD 1 0) ++ '.' :: uitoa (p4.getD 2 0) ++
        '.' :: uitoa (p4.getD 3 0)
    | none =>
      if ip.length ≠ 16 then '?' :: hexString ip
      else formatIPv6 ip

/-- The inner loop of Go `net.simpleMaskLength` on the first byte that is not
`0xff`: the number of leading one bits and what is left of the byte. -/
def leadingOnes : Nat → Nat → Nat → Nat × Nat
  | 0, n, v => (n, v)
  | fuel + 1, n, v =>
    if v &&& 0x80 ≠ 0 then leadingOnes fuel (n + 1) ((v <<< 1) % 256)
    else (n, v)

/-- Go `net.simpleMaskLength`: the number of leading ones of a mask made of ones
followed by zeros, `none` (Go `-1`) for any other mask. -/
def simpleMaskLength : List Nat → Option Nat
  | [] => some 0
  | v :: rest =>
    if v = 0xff then (simpleMaskLength rest).map fun n => n + 8
    else
      match leadingOnes 8 0 v with
      | (n, v) =>
        if v ≠ 0 then none
        else if rest.all (fun b => b = 0) then some n
        else none

/-- Go `(*net.IPNet).String`: the network in CIDR notation. -/
def IPNetString (formatIPv6 : IP → GoString) (n : IPNet) : GoString :=
  match networkNumberAndMask n with
  | (nn, m) =>
    if nn = [] ∨ m = [] then "<nil>".toList
    else
      match simpleMaskLength m with
      | none => IPString formatIPv6 nn ++ '/' :: hexString m
      | some l => IPString formatIPv6 nn ++ '/' :: uitoa l

/-! ## Vocabulary of the properties -/

/-- The split of a text at its newlines: `cur` is the line being collected. -/
def rawLinesAux : GoString → GoString → List GoString
  | [], cur => if cur = [] then [] else [cur]
  | c :: cs, cur =>
    if c = '\n' then cur :: rawLinesAux cs []
    else rawLinesAux cs (cur ++ [c])

/-- The lines of a text as they stand between its newlines, a carriage return
before the newline included; the text after the last newline is a line when it is
not empty. -/
def rawLines (s : GoString) : List GoString := rawLinesAux s []

/-- The lines of a text, without their end-of-line marker (a newline, with the
carriage return before it if there is one). -/
def textLines (s : GoString) : List GoString := (rawLines s).map dropCR

/-- Every line of the text, its carriage return included, is shorter than the
buffer of a scanner (`MaxScanTokenSize` bytes). -/
def fitsScanner (s : GoString) : Prop := ∀ l ∈ rawLines s, len l < MaxScanTokenSize

instance (s : GoString) : Decidable (fitsScanner s) := by unfold fitsScanner; infer_instance

/-- The fields of a data line: the text before the first `#`, split at white
space (the first statements of the loop body of `parseSocketStats`). -/
def lineFields (line : GoString) : List GoString :=
  let i := Index line '#'
  Fields (if i ≥ 0 then line.take i.toNat else line)

/-- The socket record of a data line: the decoded remote address and the state
code.  `none` when the line is malformed: it has fewer than 12 fields, `parseAddr`
rejects field 2, or field 3 is not a hexadecimal number fitting 8 bits. -/
def lineRecord (line : GoString) : Option (IP × Nat) :=
  if (lineFields line).length < 12 then none
  else
    match parseAddr ((lineFields line).getD 2 []),
        ParseUint ((lineFields line).getD 3 []) 16 8 with
    | .ok (ip, _), .ok u => some (ip, u)
    | _, _ => none

/-- The owner name of an address: the name of the record `findASN` returns, or
`_other`. -/
def ownerOf (asns : List asnRecord) (ip : IP) : GoString :=
  match findASN asns ip with
  | some asn => asn.Name
  | none => "_other".toList

/-- The pair (owner, state name) a data line resolves to; `none` when the line is
malformed or its state code has no entry in the state-name table. -/
def lineCell (asns : List asnRecord) (line : GoString) : Option (GoString × GoString) :=
  match lineRecord line with
  | none => none
  | some (ip, u) =>
    match socketStates.get? u with
    | none => none
    | some state => some (ownerOf asns ip, state)

/-- A well-formed data line: it has a socket record and its state code is one of
the 12 codes of the state-name table. -/
def wellFormed (line : GoString) : Prop :=
  match lineRecord line with
  | none => False
  | some (_, u) => u < 12

instance (line : GoString) : Decidable (wellFormed line) := by
  unfold wellFormed
  split <;> infer_instance

/-- The count stored in the cell (owner, state) of a table, `none` when the table
has no such cell. -/
def cell (t : CountTable) (owner state : GoString) : Option Nat :=
  match t owner with
  | none => none
  | some inner => inner state

/-- The hexadecimal digits, in either case. -/
def isHexDigit (c : Char) : Prop := c ∈ "0123456789abcdefABCDEF".toList

instance (c : Char) : Decidable (isHexDigit c) := by unfold isHexDigit; infer_instance

/-- The value of a hexadecimal digit. -/
def hexDigitValue (c : Char) : Nat :=
  if c.toNat ≤ '9'.toNat then c.toNat - '0'.toNat
  else if c.toNat ≤ 'F'.toNat then c.toNat - 'A'.toNat + 10
  else c.toNat - 'a'.toNat + 10

/-- The number a string of hexadecimal digits denotes, most significant digit
first. -/
def hexValue (s : GoString) : Nat := s.foldl (fun v c => v * 16 + hexDigitValue c) 0

/-- A string of hexadecimal digits only. -/
def isHexString (s : GoString) : Prop := ∀ c ∈ s, isHexDigit c

instance (s : GoString) : Decidable (isHexString s) := by unfold isHexString; infer_instance

/-- A port field the decoder accepts: a non-empty string of hexadecimal digits
denoting a 16-bit value. -/
def validHexPort (p : GoString) : Prop := p ≠ [] ∧ isHexString p ∧ hexValue p < 2 ^ 16

instance (p : GoString) : Decidable (validHexPort p) := by unfold validHexPort; infer_instance

/-- The four little-endian bytes of a 32-bit value. -/
def leBytes (v : Nat) : List Nat := [v % 256, v / 2 ^ 8 % 256, v / 2 ^ 16 % 256, v / 2 ^ 24]

/-- The `k`-th group of 8 characters of an address field (`k` from 0). -/
def hexGroup (s : GoString) (k : Nat) : GoString := (s.drop (8 * k)).take 8

/-- The upper-case hexadecimal digit of a value below 16, as the kernel prints
it. -/
def hexDigitChar (d : Nat) : Char := "0123456789ABCDEF".toList.getD d '0'

/-- The `n` hexadecimal digits of `v`, most significant first (the kernel's
`%0nX`). -/
def toHex : Nat → Nat → GoString
  | 0, _ => []
  | n + 1, v => toHex n (v / 16) ++ [hexDigitChar (v % 16)]

/-- The 32-bit value whose little-endian bytes are `b0 b1 b2 b3`. -/
def le32 (b0 b1 b2 b3 : Nat) : Nat := b0 + b1 * 2 ^ 8 + b2 * 2 ^ 16 + b3 * 2 ^ 24

/-- The packed hexadecimal form of an address: each group of four bytes as the 8
hexadecimal digits of its little-endian 32-bit value. -/
def encodeIP : List Nat → GoString
  | b0 :: b1 :: b2 :: b3 :: rest => toHex 8 (le32 b0 b1 b2 b3) ++ encodeIP rest
  | _ => []

/-- The packed hexadecimal form of an address and port, as the kernel's socket
tables print it: the address, a colon, the port on 4 hexadecimal digits. -/
def encodeAddr (ip : List Nat) (port : Nat) : GoString := encodeIP ip ++ ':' :: toHex 4 port

/-- The table after one more data line is counted: the cell the line resolves to
is incremented. -/
def countLine (asns : List asnRecord) (t : CountTable) (line : GoString) : CountTable :=
  match lineCell asns line with
  | none => t
  | some (owner, state) => countUp t owner state

/-- The table after the data lines `ls` are counted, one after the other. -/
def countLines (asns : List asnRecord) (t : CountTable) (ls : List GoString) : CountTable :=
  ls.foldl (countLine asns) t

/-- A call that fails: it returns a nil table with an error, or it panics. -/
def Outcome.failed (o : Outcome SocketStats) : Prop :=
  (∃ err, o = .returns (none, some err)) ∨ (∃ msg, o = .panics msg)

/-- The header line of the kernel's socket tables. -/
def tableHeader : GoString :=
  ("  sl  local_address rem_address   st tx_queue rx_queue tr tm->when retrnsmt" ++
    "   uid  timeout inode").toList

/-- A data line towards 127.0.0.1:80 whose state code is `0C` (12). -/
def stateTwelveLine : GoString :=
  ("   0: 0100007F:0CEA 0100007F:0050 0C 00000000:00000000 00:00000000 " ++
    "00000000     0        0 12345 1 0000000000000000").toList

/-- A socket table whose only data line is `stateTwelveLine`. -/
def stateTwelveInput : GoString := tableHeader ++ '\n' :: (stateTwelveLine ++ ['\n'])

/-- A data line towards 127.0.0.1:80 in state `0A` (LISTEN). -/
def listenLine : GoString :=
  ("   1: 0100007F:0CEA 0100007F:0050 0A 00000000:00000000 00:00000000 " ++
    "00000000     0        0 12345 1 0000000000000000").toList

/-- A data line towards 10.0.1.3:80 in state `01` (ESTABLISHED). -/
def establishedLine : GoString :=
  ("   2: 0100007F:0CEA 0301000A:0050 01 00000000:00000000 00:00000000 " ++
    "00000000     0        0 12345 1 0000000000000000").toList

/-- A line of three fields. -/
def shortLine : GoString := "   3: 0100007F:0CEA 0301000A:0050".toList

/-- A data line of 12 fields whose remote address field has 7 digits. -/
def badAddrLine : GoString :=
  ("   4: 0100007F:0CEA 301000A:0050 01 00000000:00000000 00:00000000 " ++
    "00000000     0        0 12345 1 0000000000000000").toList

/-- The text made of the given lines, each ended by a newline. -/
def unlines : List GoString → GoString
  | [] => []
  | l :: ls => l ++ '\n' :: unlines ls

/-- Two overlapping ranges: 10.0.0.0/8 listed before 10.1.0.0/16. -/
def sampleAsns : List asnRecord :=
  [⟨⟨[10, 0, 0, 0], [255, 0, 0, 0]⟩, "first".toList⟩,
   ⟨⟨[10, 1, 0, 0], [255, 255, 0, 0]⟩, "second".toList⟩]

/-- A socket table of three well-formed data lines. -/
def sampleTable : Reader :=
  NewReader (unlines [tableHeader, listenLine, establishedLine, establishedLine])

/-- The lines of `sampleTable` with the first two data lines exchanged. -/
def sampleTableSwapped : Reader :=
  NewReader (unlines [tableHeader, establishedLine, listenLine, establishedLine])

/-- The lines of `sampleTableSwapped` without its second data line. -/
def sampleTableWithout : Reader :=
  NewReader (unlines [tableHeader, establishedLine, establishedLine])

/-- A socket table whose second data line has three fields. -/
def shortTable : Reader :=
  NewReader (unlines [tableHeader, listenLine, shortLine, establishedLine])

/-- A socket table whose third data line has a malformed remote address. -/
def badAddrTable : Reader :=
  NewReader (unlines [tableHeader, listenLine, establishedLine, badAddrLine, establishedLine])

/-- The part of `s` before its first `sep`, all of `s` when it has none. -/
def before : GoString → Char → GoString
  | [], _ => []
  | c :: cs, sep => if c = sep then [] else c :: before cs sep

/-- The part of `s` after its first `sep`, `none` when it has none. -/
def after : GoString → Char → Option GoString
  | [], _ => none
  | c :: cs, sep => if c = sep then some cs else after cs sep

/-- The first 11 fields of `listenLine`. -/
def elevenFieldLine : GoString :=
  ("   1: 0100007F:0CEA 0100007F:0050 0A 00000000:00000000 00:00000000 " ++
    "00000000     0        0 12345 1").toList

/-- The IPv4 range 127.0.0.0/8, owned by `loopback`. -/
def loopbackAsn : asnRecord := ⟨⟨[127, 0, 0, 0], [255, 0, 0, 0]⟩, "loopback".toList⟩

/-- A data line of the IPv6 socket table towards `::ffff:127.0.0.1`, port 80, in
state `01` (ESTABLISHED). -/
def mappedLine : GoString :=
  ("   0: 0000000000000000FFFF00000100007F:0CEA 0000000000000000FFFF00000100007F:0050 01 " ++
    "00000000:00000000 00:00000000 00000000     0        0 12345 1 0000000000000000").toList

/-- The record a row of the ASN table stands for: the network of the CIDR text in
field 2 and the name in field 4; `none` when the row has fewer than 5 fields or
`net.ParseCIDR` rejects field 2. -/
def rowRecord (netParseIPv6 : GoString → Option IP) (row : List GoString) : Option asnRecord :=
  if row.length < 5 then none
  else
    match ParseCIDR netParseIPv6 (row.getD 2 []) with
    | .error _ => none
    | .ok (_, ipnet) => some ⟨ipnet, row.getD 4 []⟩

/-- A well-formed row of the ASN table: at least 5 fields, a CIDR text that
`net.ParseCIDR` accepts in field 2. -/
def validRow (netParseIPv6 : GoString → Option IP) (row : List GoString) : Prop :=
  (rowRecord netParseIPv6 row).isSome = true

instance (netParseIPv6 : GoString → Option IP) (row : List GoString) :
    Decidable (validRow netParseIPv6 row) := by
  unfold validRow
  infer_instance

/-- An IPv6 text parser that accepts nothing, for tables of IPv4 rows. -/
def noIPv6 : GoString → Option IP := fun _ => none

/-- A table of four rows in the layout of the ASN database (first address, last
address, CIDR, AS number, AS name). -/
def sampleRows : List (List GoString) :=
  [["35623424", "35627519", "2.63.144.0/20", "201776", "Miranda-Media Ltd"],
   ["50331648", "50462719", "3.0.0.0/15", "16509", "Amazon.com Inc."],
   ["68305408", "68305919", "4.18.66.0/23", "3356", "Level 3 Parent LLC"],
   ["134744064", "134744319", "8.8.8.0/24", "15169", "Google LLC"]].map
    fun row => row.map String.toList

/-- A row whose CIDR field has host bits set. -/
def hostBitsRow : List GoString :=
  ["167838211", "167838211", "10.1.2.3/8", "64512", "Example Net"].map String.toList

/-- A row whose CIDR field is not a CIDR text. -/
def badCidrRow : List GoString :=
  ["167838211", "167838211", "10.1.2.3", "64512", "Example Net"].map String.toList

/-- The error of a `Read` on a row whose number of fields differs from the first
row's (`*csv.ParseError` wrapping `csv.ErrFieldCount`), given by its message. -/
def csvFieldCountError : GoError :=
  .errorString "record on line 2: wrong number of fields".toList

/-- The number a string of decimal digits denotes. -/
def decValue (s : GoString) : Nat := s.foldl (fun v c => v * 10 + (c.toNat - '0'.toNat)) 0

/-- A decimal digit. -/
def isDecDigit (c : Char) : Prop := '0'.toNat ≤ c.toNat ∧ c.toNat ≤ '9'.toNat

instance (c : Char) : Decidable (isDecDigit c) := by unfold isDecDigit; infer_instance

/-- The dotted decimal text `a.b.c.d` of four bytes. -/
def dotted (a b c d : Nat) : GoString :=
  uitoa a ++ '.' :: (uitoa b ++ '.' :: (uitoa c ++ '.' :: uitoa d))

/-- The CIDR text `a.b.c.d/n`, every number in decimal without leading zeros. -/
def cidrText (a b c d n : Nat) : GoString := dotted a b c d ++ '/' :: uitoa n

/-- The bytes `a b c d` masked to their first `n` bits. -/
def maskedBytes (a b c d n : Nat) : List Nat :=
  List.zipWith (fun x m => x &&& m) [a, b, c, d] (CIDRMask n 32)

/-- An IPv6 text formatter that prints nothing, for tables of IPv4 rows. -/
def noIPv6Text : IP → GoString := fun _ => []

/-- A line of 65536 characters `x`, one more than fits the buffer of a scanner
together with its newline. -/
def overlongHeader : GoString := List.replicate MaxScanTokenSize 'x'

/-- A well-formed data line longer than the buffer of a scanner: `listenLine`
followed by a comment of 65536 characters. -/
def overlongLine : GoString := listenLine ++ '#' :: overlongHeader

/-- A data line of 12 fields whose remote address field has 7 digits, none of
them a `3`. -/
def sevenDigitLine : GoString :=
  ("   4: 0100007F:0CEA 100007F:0050 01 00000000:00000000 00:00000000 " ++
    "00000000     0        0 12345 1 0000000000000000").toList

/-- A row whose CIDR field has no host bit set and a prefix length written with a
leading zero. -/
def leadingZeroRow : List GoString :=
  ["167772160", "184549375", "10.0.0.0/08", "64512", "Example Net"].map String.toList

/-! ## Lemmas on the library functions -/

theorem isHexDigit_cases {c : Char} (h : isHexDigit c) :
    digitVal c = some (hexDigitValue c) ∧ hexDigitValue c < 16 ∧ c.utf8Size = 1 ∧
      c ≠ ':' := by
  simp only [isHexDigit, String.toList, List.mem_cons, List.mem_singleton] at h
  rcases h with h | h | h | h | h | h | h | h | h | h | h | h | h | h | h | h | h | h | h | h |
    h | h | h <;> first | (subst h; decide) | simp at h

theorem hexValue_append_singleton (s : GoString) (c : Char) :
    hexValue (s ++ [c]) = hexValue s * 16 + hexDigitValue c := by
  simp [hexValue, List.foldl_append]

theorem foldl_hex_ge (s : GoString) (n : Nat) :
    n ≤ s.foldl (fun v c => v * 16 + hexDigitValue c) n := by
  induction s generalizing n with
  | nil => simp
  | cons c cs ih =>
    simp only [List.foldl_cons]
    exact le_trans (by omega) (ih (n * 16 + hexDigitValue c))

theorem parseUintStep_hex {c : Char} (hc : isHexDigit c) (n maxVal : Nat)
    (hm : maxVal < 2 ^ 64) (hle : n * 16 + hexDigitValue c ≤ maxVal) :
    parseUintStep 16 maxVal n c = .ok (n * 16 + hexDigitValue c) := by
  obtain ⟨hd, hlt, _, _⟩ := isHexDigit_cases hc
  have h1 : ¬ hexDigitValue c ≥ 16 := by omega
  have h2 : ¬ n ≥ (2 ^ 64 - 1) / 16 + 1 := by omega
  have h3 : (n * 16 + hexDigitValue c) % 2 ^ 64 = n * 16 + hexDigitValue c :=
    Nat.mod_eq_of_lt (by omega)
  have h4 : ¬ (n * 16 + hexDigitValue c < n * 16 ∨ n * 16 + hexDigitValue c > maxVal) := by omega
  simp only [parseUintStep, hd, h1, h2, h3, h4, if_false]

theorem parseUintLoop_hex (maxVal : Nat) (hm : maxVal < 2 ^ 64) (s : GoString) (n : Nat)
    (hs : isHexString s) (hle : s.foldl (fun v c => v * 16 + hexDigitValue c) n ≤ maxVal) :
    parseUintLoop 16 maxVal s n = .ok (s.foldl (fun v c => v * 16 + hexDigitValue c) n) := by
  induction s generalizing n with
  | nil => simp [parseUintLoop]
  | cons c cs ih =>
    have hc : isHexDigit c := hs c (List.mem_cons_self _ _)
    have hcs : isHexString cs := fun d hd => hs d (List.mem_cons_of_mem _ hd)
    simp only [List.foldl_cons] at hle ⊢
    have hstep := parseUintStep_hex hc n maxVal hm
      (le_trans (foldl_hex_ge cs _) hle)
    simp only [parseUintLoop, hstep]
    exact ih _ hcs hle

/-- On a non-empty string of hexadecimal digits whose value fits `bitSize` bits,
`ParseUint` in base 16 returns that value. -/
theorem ParseUint_hex (s : GoString) (bitSize : Nat) (hb : bitSize ≤ 64) (hne : s ≠ [])
    (hs : isHexString s) (hv : hexValue s < 2 ^ bitSize) :
    ParseUint s 16 bitSize = .ok (hexValue s) := by
  have hpow : 2 ^ bitSize ≤ 2 ^ 64 := Nat.pow_le_pow_right (by norm_num) hb
  have hpos : 0 < 2 ^ bitSize := Nat.pow_pos (by norm_num)
  have hloop := parseUintLoop_hex (2 ^ bitSize - 1) (by omega) s 0 hs
    (by unfold hexValue at hv; omega)
  simp only [ParseUint, hne, if_false, hloop]
  rfl

theorem hexValue_lt (s : GoString) (hs : isHexString s) : hexValue s < 16 ^ s.length := by
  induction s using List.reverseRecOn with
  | nil => simp [hexValue]
  | append_singleton s c ih =>
    have hc := (isHexDigit_cases (hs c (by simp))).2.1
    have := ih (fun d hd => hs d (by simp [hd]))
    rw [hexValue_append_singleton, List.length_append, List.length_singleton, pow_succ]
    omega

theorem len_hex (s : GoString) (hs : isHexString s) : len s = s.length := by
  induction s with
  | nil => rfl
  | cons c cs ih =>
    have hc := (isHexDigit_cases (hs c (List.mem_cons_self _ _))).2.2.1
    have := ih (fun d hd => hs d (List.mem_cons_of_mem _ hd))
    simp only [len, List.map_cons, List.sum_cons, List.length_cons] at this ⊢
    omega

theorem Split_no_sep (s : GoString) (sep : Char) (h : sep ∉ s) : Split s sep = [s] := by
  induction s with
  | nil => rfl
  | cons c cs ih =>
    have hc : c ≠ sep := fun e => h (by simp [e])
    have := ih (fun hm => h (List.mem_cons_of_mem _ hm))
    simp [Split, hc, this]

theorem Split_append_sep (a b : GoString) (sep : Char) (h : sep ∉ a) :
    Split (a ++ sep :: b) sep = a :: Split b sep := by
  induction a with
  | nil => simp [Split]
  | cons c cs ih =>
    have hc : c ≠ sep := fun e => h (by simp [e])
    have := ih (fun hm => h (List.mem_cons_of_mem _ hm))
    simp [Split, hc, this]

theorem isHexString_no_colon (s : GoString) (hs : isHexString s) : ':' ∉ s :=
  fun hm => (isHexDigit_cases (hs _ hm)).2.2.2 rfl

theorem Split_addr_port (a p : GoString) (ha : ':' ∉ a) (hp : ':' ∉ p) :
    Split (a ++ ':' :: p) ':' = [a, p] := by
  rw [Split_append_sep a p ':' ha, Split_no_sep p ':' hp]

theorem PutUint32_eq (v : Nat) (hv : v < 2 ^ 32) :
    PutUint32 (v % 2 ^ 32) = [v % 256, v / 2 ^ 8 % 256, v / 2 ^ 16 % 256, v / 2 ^ 24] := by
  have h24 : v / 2 ^ 24 % 256 = v / 2 ^ 24 := Nat.mod_eq_of_lt (by omega)
  simp only [PutUint32, Nat.mod_eq_of_lt hv, Nat.shiftRight_eq_div_pow, h24]

theorem parseIPv4_hex (s : GoString) (hlen : s.length = 8) (hs : isHexString s) :
    parseIPv4 s = .ok [hexValue s % 256, hexValue s / 2 ^ 8 % 256, hexValue s / 2 ^ 16 % 256,
      hexValue s / 2 ^ 24] := by
  have hv : hexValue s < 2 ^ 32 := by
    have := hexValue_lt s hs
    rw [hlen] at this
    exact this
  have hne : s ≠ [] := by
    intro h
    simp [h] at hlen
  simp only [parseIPv4, ParseUint_hex s 32 (by norm_num) hne hs hv, PutUint32_eq _ hv]

theorem ParseUint_port (p : GoString) (hp : validHexPort p) :
    ParseUint p 16 16 = .ok (hexValue p) :=
  ParseUint_hex p 16 (by norm_num) hp.1 hp.2.1 hp.2.2

theorem parseAddr_ipv4_key (a p : GoString) (hal : a.length = 8) (ha : isHexString a)
    (hp : validHexPort p) :
    parseAddr (a ++ ':' :: p) =
      .ok ([hexValue a % 256, hexValue a / 2 ^ 8 % 256, hexValue a / 2 ^ 16 % 256,
        hexValue a / 2 ^ 24], hexValue p) := by
  have hl : len a = 8 := by rw [len_hex a ha, hal]
  have hpv : hexValue p < 65536 := hp.2.2
  simp [parseAddr, Split_addr_port a p (isHexString_no_colon a ha)
    (isHexString_no_colon p hp.2.1), hl, parseIPv4_hex a hal ha, ParseUint_port p hp, hpv]

/-- C1: for a string `s` of exactly 8 hexadecimal digits and a valid hexadecimal
port `p`, `parseAddr (s ++ ":" ++ p)` succeeds with the four little-endian bytes of
the 32-bit value of `s` (and the value of `p` as port); in particular the address
field `0100007F` decodes to 127.0.0.1. -/
theorem parseAddr_ipv4_little_endian (s p : GoString) (hlen : s.length = 8)
    (hs : isHexString s) (hp : validHexPort p) :
    hexValue s < 2 ^ 32 ∧
    parseAddr (s ++ ':' :: p) =
      .ok ([hexValue s % 256, hexValue s / 2 ^ 8 % 256, hexValue s / 2 ^ 16 % 256,
        hexValue s / 2 ^ 24], hexValue p) ∧
    parseAddr ("0100007F".toList ++ ':' :: p) = .ok ([127, 0, 0, 1], hexValue p) := by
  have key := fun a hal ha => parseAddr_ipv4_key a p hal ha hp
  refine ⟨?_, key s hlen hs, ?_⟩
  · have := hexValue_lt s hs
    rw [hlen] at this
    exact this
  · have := key "0100007F".toList (by decide) (by decide)
    rw [this]
    have hv : hexValue "0100007F".toList = 16777343 := by decide
    rw [hv]
    norm_num

theorem parseAddr_ipv4_little_endian_witness :
    hexValue "0301000A".toList < 2 ^ 32 ∧
    parseAddr ("0301000A".toList ++ ':' :: "1F90".toList) =
      .ok ([hexValue "0301000A".toList % 256, hexValue "0301000A".toList / 2 ^ 8 % 256,
        hexValue "0301000A".toList / 2 ^ 16 % 256,
        hexValue "0301000A".toList / 2 ^ 24], hexValue "1F90".toList) ∧
    parseAddr ("0100007F".toList ++ ':' :: "1F90".toList) =
      .ok ([127, 0, 0, 1], hexValue "1F90".toList) :=
  parseAddr_ipv4_little_endian "0301000A".toList "1F90".toList (by decide) (by decide) (by decide)

theorem isHexString_take (s : GoString) (n : Nat) (hs : isHexString s) : isHexString (s.take n) :=
  fun c hc => hs c (List.mem_of_mem_take hc)

theorem isHexString_drop (s : GoString) (n : Nat) (hs : isHexString s) : isHexString (s.drop n) :=
  fun c hc => hs c (List.mem_of_mem_drop hc)

theorem parseIPv6Loop_step (fuel : Nat) (s : GoString) (ip : IP) (hlen : 8 ≤ s.length)
    (hs : isHexString s) :
    parseIPv6Loop (fuel + 1) s ip =
      parseIPv6Loop fuel (s.drop 8) (ip ++ leBytes (hexValue (s.take 8))) := by
  have ht : (s.take 8).length = 8 := by simp [List.length_take]; omega
  have hth := isHexString_take s 8 hs
  have hv : hexValue (s.take 8) < 2 ^ 32 := by
    have := hexValue_lt _ hth
    rw [ht] at this
    exact this
  have hne : s.take 8 ≠ [] := by
    intro h
    simp [h] at ht
  have hl : len s ≠ 0 := by rw [len_hex s hs]; omega
  simp only [parseIPv6Loop, hl, if_false, ParseUint_hex _ 32 (by norm_num) hne hth hv,
    PutUint32_eq _ hv, leBytes]

theorem parseIPv6_hex (s : GoString) (hlen : s.length = 32) (hs : isHexString s) :
    parseIPv6 s = .ok (leBytes (hexValue (hexGroup s 0)) ++ leBytes (hexValue (hexGroup s 1)) ++
      leBytes (hexValue (hexGroup s 2)) ++ leBytes (hexValue (hexGroup s 3))) := by
  have h1 := parseIPv6Loop_step 31 s [] (by omega) hs
  have h2 := parseIPv6Loop_step 30 (s.drop 8) ([] ++ leBytes (hexValue (s.take 8)))
    (by simp; omega) (isHexString_drop s 8 hs)
  have h3 := parseIPv6Loop_step 29 ((s.drop 8).drop 8)
    ([] ++ leBytes (hexValue (s.take 8)) ++ leBytes (hexValue ((s.drop 8).take 8)))
    (by simp; omega) (isHexString_drop _ 8 (isHexString_drop s 8 hs))
  have h4 := parseIPv6Loop_step 28 (((s.drop 8).drop 8).drop 8)
    ([] ++ leBytes (hexValue (s.take 8)) ++ leBytes (hexValue ((s.drop 8).take 8)) ++
      leBytes (hexValue (((s.drop 8).drop 8).take 8)))
    (by simp; omega) (isHexString_drop _ 8 (isHexString_drop _ 8 (isHexString_drop s 8 hs)))
  have hnil : (((s.drop 8).drop 8).drop 8).drop 8 = [] := by
    apply List.eq_nil_of_length_eq_zero
    simp
    omega
  rw [parseIPv6, hlen, h1, h2, h3, h4, hnil]
  simp [parseIPv6Loop, len, hexGroup]

/-- C2: for a string `s` of exactly 32 hexadecimal digits and a valid hexadecimal
port `p`, `parseAddr (s ++ ":" ++ p)` returns the 16-byte address made of the
little-endian bytes of the 32-bit values of the four 8-digit groups of `s`, the
groups in their left-to-right order. -/
theorem parseAddr_ipv6_groups (s p : GoString) (hlen : s.length = 32)
    (hs : isHexString s) (hp : validHexPort p) :
    (∀ k, k < 4 → hexValue (hexGroup s k) < 2 ^ 32) ∧
    parseAddr (s ++ ':' :: p) =
      .ok (leBytes (hexValue (hexGroup s 0)) ++ leBytes (hexValue (hexGroup s 1)) ++
        leBytes (hexValue (hexGroup s 2)) ++ leBytes (hexValue (hexGroup s 3)), hexValue p) ∧
    (leBytes (hexValue (hexGroup s 0)) ++ leBytes (hexValue (hexGroup s 1)) ++
        leBytes (hexValue (hexGroup s 2)) ++ leBytes (hexValue (hexGroup s 3))).length = 16 := by
  refine ⟨?_, ?_, by simp [leBytes]⟩
  · intro k hk
    have hg : isHexString (hexGroup s k) :=
      isHexString_take _ 8 (isHexString_drop s _ hs)
    have hl : (hexGroup s k).length = 8 := by
      simp [hexGroup, List.length_take, List.length_drop]
      omega
    have := hexValue_lt _ hg
    rw [hl] at this
    exact this
  · have hl : len s = 32 := by rw [len_hex s hs, hlen]
    have hpv : hexValue p < 65536 := hp.2.2
    simp [parseAddr, Split_addr_port s p (isHexString_no_colon s hs)
      (isHexString_no_colon p hp.2.1), hl, parseIPv6_hex s hlen hs, ParseUint_port p hp, hpv]

theorem parseAddr_ipv6_groups_witness :
    (∀ k, k < 4 → hexValue (hexGroup "B80D01200000000067452301EFCDAB89".toList k) < 2 ^ 32) ∧
    parseAddr ("B80D01200000000067452301EFCDAB89".toList ++ ':' :: "01BB".toList) =
      .ok (leBytes (hexValue (hexGroup "B80D01200000000067452301EFCDAB89".toList 0)) ++
        leBytes (hexValue (hexGroup "B80D01200000000067452301EFCDAB89".toList 1)) ++
        leBytes (hexValue (hexGroup "B80D01200000000067452301EFCDAB89".toList 2)) ++
        leBytes (hexValue (hexGroup "B80D01200000000067452301EFCDAB89".toList 3)),
        hexValue "01BB".toList) ∧
    (leBytes (hexValue (hexGroup "B80D01200000000067452301EFCDAB89".toList 0)) ++
        leBytes (hexValue (hexGroup "B80D01200000000067452301EFCDAB89".toList 1)) ++
        leBytes (hexValue (hexGroup "B80D01200000000067452301EFCDAB89".toList 2)) ++
        leBytes (hexValue (hexGroup "B80D01200000000067452301EFCDAB89".toList 3))).length = 16 :=
  parseAddr_ipv6_groups "B80D01200000000067452301EFCDAB89".toList "01BB".toList
    (by decide) (by decide) (by decide)

theorem hexDigitChar_spec (d : Nat) (hd : d < 16) :
    isHexDigit (hexDigitChar d) ∧ hexDigitValue (hexDigitChar d) = d := by
  interval_cases d <;> decide

theorem toHex_length (n v : Nat) : (toHex n v).length = n := by
  induction n generalizing v with
  | zero => rfl
  | succ n ih => simp [toHex, ih]

theorem toHex_isHexString (n v : Nat) : isHexString (toHex n v) := by
  induction n generalizing v with
  | zero => intro c hc; simp [toHex] at hc
  | succ n ih =>
    intro c hc
    simp only [toHex, List.mem_append, List.mem_singleton] at hc
    rcases hc with hc | hc
    · exact ih _ c hc
    · rw [hc]
      exact (hexDigitChar_spec _ (Nat.mod_lt _ (by norm_num))).1

theorem hexValue_toHex (n v : Nat) : hexValue (toHex n v) = v % 16 ^ n := by
  induction n generalizing v with
  | zero => simp [toHex, hexValue, Nat.mod_one]
  | succ n ih =>
    rw [toHex, hexValue_append_singleton, ih,
      (hexDigitChar_spec _ (Nat.mod_lt _ (by norm_num))).2, pow_succ, mul_comm (16 ^ n) 16,
      Nat.mod_mul]
    omega

theorem hexValue_toHex_of_lt (n v : Nat) (hv : v < 16 ^ n) : hexValue (toHex n v) = v := by
  rw [hexValue_toHex, Nat.mod_eq_of_lt hv]

theorem validHexPort_toHex (port : Nat) (hp : port < 65536) : validHexPort (toHex 4 port) := by
  refine ⟨?_, toHex_isHexString 4 port, ?_⟩
  · intro h
    have := toHex_length 4 port
    simp [h] at this
  · rw [hexValue_toHex_of_lt 4 port (by norm_num; exact hp)]
    norm_num
    exact hp

theorem leBytes_le32 (b0 b1 b2 b3 : Nat) (h0 : b0 < 256) (h1 : b1 < 256) (h2 : b2 < 256) :
    leBytes (le32 b0 b1 b2 b3) = [b0, b1, b2, b3] := by
  simp only [leBytes, le32]
  norm_num
  refine ⟨?_, ?_, ?_, ?_⟩ <;> omega

theorem le32_lt (b0 b1 b2 b3 : Nat) (h0 : b0 < 256) (h1 : b1 < 256) (h2 : b2 < 256)
    (h3 : b3 < 256) : le32 b0 b1 b2 b3 < 16 ^ 8 := by
  simp only [le32]
  norm_num
  omega

theorem encodeIP_isHexString (k : Nat) (ip : List Nat) (hk : ip.length = 4 * k) :
    isHexString (encodeIP ip) ∧ (encodeIP ip).length = 8 * k := by
  induction k generalizing ip with
  | zero =>
    have : ip = [] := List.eq_nil_of_length_eq_zero (by omega)
    subst this
    exact ⟨fun c hc => by simp [encodeIP] at hc, rfl⟩
  | succ k ih =>
    match ip, hk with
    | b0 :: b1 :: b2 :: b3 :: rest, hk =>
      have hr : rest.length = 4 * k := by simp at hk; omega
      obtain ⟨h1, h2⟩ := ih rest hr
      refine ⟨?_, ?_⟩
      · intro c hc
        simp only [encodeIP, List.mem_append] at hc
        rcases hc with hc | hc
        · exact toHex_isHexString _ _ c hc
        · exact h1 c hc
      · simp [encodeIP, toHex_length, h2]
        omega

theorem parseIPv6Loop_encodeIP (k : Nat) (fuel : Nat) (ip acc : List Nat)
    (hk : ip.length = 4 * k) (hf : k ≤ fuel) (hb : ∀ b ∈ ip, b < 256) :
    parseIPv6Loop fuel (encodeIP ip) acc = .ok (acc ++ ip) := by
  induction k generalizing ip acc fuel with
  | zero =>
    have : ip = [] := List.eq_nil_of_length_eq_zero (by omega)
    subst this
    cases fuel <;> simp [parseIPv6Loop, encodeIP, len]
  | succ k ih =>
    match ip, hk, hb with
    | b0 :: b1 :: b2 :: b3 :: rest, hk, hb =>
      have hr : rest.length = 4 * k := by simp at hk; omega
      obtain ⟨fuel, rfl⟩ : ∃ f, fuel = f + 1 := ⟨fuel - 1, by omega⟩
      have hhex := (encodeIP_isHexString (k + 1) _ hk).1
      have hlen := (encodeIP_isHexString (k + 1) _ hk).2
      have h0 : b0 < 256 := hb b0 (by simp)
      have h1 : b1 < 256 := hb b1 (by simp)
      have h2 : b2 < 256 := hb b2 (by simp)
      have h3 : b3 < 256 := hb b3 (by simp)
      rw [parseIPv6Loop_step fuel _ acc (by omega) hhex]
      simp only [encodeIP]
      rw [List.take_left' (toHex_length 8 _), List.drop_left' (toHex_length 8 _),
        hexValue_toHex_of_lt 8 _ (le32_lt b0 b1 b2 b3 h0 h1 h2 h3),
        leBytes_le32 b0 b1 b2 b3 h0 h1 h2,
        ih fuel rest _ hr (by omega) (fun b hm => hb b (by simp [hm]))]
      simp

/-- C3: round trip.  For every address of 4 or 16 bytes and every 16-bit port,
decoding by `parseAddr` the packed hexadecimal form (each 4-byte group as the 8
hexadecimal digits of its little-endian 32-bit value, a colon, the port on 4
hexadecimal digits) returns the original address bytes and port, with no error. -/
theorem parseAddr_encodeAddr_roundtrip (ip : List Nat) (port : Nat)
    (hlen : ip.length = 4 ∨ ip.length = 16) (hb : ∀ b ∈ ip, b < 256) (hp : port < 65536) :
    parseAddr (encodeAddr ip port) = .ok (ip, port) := by
  have hport := validHexPort_toHex port hp
  have hpv : hexValue (toHex 4 port) = port :=
    hexValue_toHex_of_lt 4 port (by norm_num; exact hp)
  rcases hlen with hlen | hlen
  · match ip, hlen, hb with
    | [b0, b1, b2, b3], _, hb =>
      have h0 : b0 < 256 := hb b0 (by simp)
      have h1 : b1 < 256 := hb b1 (by simp)
      have h2 : b2 < 256 := hb b2 (by simp)
      have h3 : b3 < 256 := hb b3 (by simp)
      have := (parseAddr_ipv4_key (toHex 8 (le32 b0 b1 b2 b3)) (toHex 4 port)
        (toHex_length 8 _) (toHex_isHexString 8 _) hport)
      rw [hexValue_toHex_of_lt 8 _ (le32_lt b0 b1 b2 b3 h0 h1 h2 h3), hpv] at this
      have hle := leBytes_le32 b0 b1 b2 b3 h0 h1 h2
      simp only [leBytes] at hle
      simp only [encodeAddr, encodeIP, List.append_nil, this, hle]
  · obtain ⟨hhex, hl⟩ := encodeIP_isHexString 4 ip (by omega)
    have hlen32 : len (encodeIP ip) = 32 := by rw [len_hex _ hhex, hl]
    have hloop := parseIPv6Loop_encodeIP 4 (encodeIP ip).length ip [] (by omega) (by omega) hb
    simp [encodeAddr, parseAddr, Split_addr_port _ _ (isHexString_no_colon _ hhex)
      (isHexString_no_colon _ hport.2.1), hlen32, parseIPv6, hloop, ParseUint_port _ hport, hpv,
      hp]

theorem parseAddr_encodeAddr_roundtrip_witness :
    parseAddr (encodeAddr [32, 1, 13, 184, 0, 0, 0, 0, 1, 35, 69, 103, 137, 171, 205, 239] 443) =
      .ok ([32, 1, 13, 184, 0, 0, 0, 0, 1, 35, 69, 103, 137, 171, 205, 239], 443) :=
  parseAddr_encodeAddr_roundtrip [32, 1, 13, 184, 0, 0, 0, 0, 1, 35, 69, 103, 137, 171, 205, 239]
    443 (by decide) (by decide) (by decide)

/-! ## The ASN lookup -/

theorem findASN_eq_none_iff (l : List asnRecord) (ip : IP) :
    findASN l ip = none ↔ ∀ r ∈ l, r.IPNet.Contains ip = false := by
  induction l with
  | nil => simp [findASN]
  | cons r l ih =>
    by_cases h : r.IPNet.Contains ip = true
    · simp [findASN, h]
    · simp [findASN, h, ih]

theorem findASN_eq_some_iff (l : List asnRecord) (ip : IP) (r : asnRecord) :
    findASN l ip = some r ↔
      ∃ i, ∃ h : i < l.length, l.get ⟨i, h⟩ = r ∧ r.IPNet.Contains ip = true ∧
        ∀ j, ∀ hj : j < l.length, j < i → (l.get ⟨j, hj⟩).IPNet.Contains ip = false := by
  induction l with
  | nil => simp [findASN]
  | cons a l ih =>
    cases h : a.IPNet.Contains ip with
    | true =>
      have hf : findASN (a :: l) ip = some a := by simp [findASN, h]
      rw [hf]
      constructor
      · intro e
        have e' : a = r := Option.some.inj e
        subst e'
        exact ⟨0, by simp, rfl, h, fun j _ hj => absurd hj (Nat.not_lt_zero j)⟩
      · rintro ⟨i, hi, hget, _, hmin⟩
        cases i with
        | zero =>
          have : a = r := hget
          rw [this]
        | succ i =>
          have := hmin 0 (by simp) (Nat.succ_pos i)
          change a.IPNet.Contains ip = false at this
          rw [h] at this
          exact absurd this (by decide)
    | false =>
      have hf : findASN (a :: l) ip = findASN l ip := by simp [findASN, h]
      rw [hf, ih]
      constructor
      · rintro ⟨i, hi, hget, hc, hmin⟩
        refine ⟨i + 1, by simp; omega, hget, hc, ?_⟩
        intro j hj hji
        cases j with
        | zero => exact h
        | succ j => exact hmin j (by simp at hj; omega) (by omega)
      · rintro ⟨i, hi, hget, hc, hmin⟩
        cases i with
        | zero =>
          have e : a = r := hget
          rw [e] at h
          rw [h] at hc
          exact absurd hc (by decide)
        | succ i =>
          refine ⟨i, by simp at hi; omega, hget, hc, ?_⟩
          intro j hj hji
          exact hmin (j + 1) (by simp; omega) (by omega)

/-- C5: `findASN` is first-match.  It returns the record `r` exactly when `r` is
the record at the smallest index whose network contains the address, and it
returns no record exactly when no network of the list contains the address; with
10.0.0.0/8 listed before the more specific 10.1.0.0/16, the address 10.1.2.3
resolves to the first one. -/
theorem findASN_first_match (l : List asnRecord) (ip : IP) :
    (∀ r, findASN l ip = some r ↔
      ∃ i, ∃ h : i < l.length, l.get ⟨i, h⟩ = r ∧ r.IPNet.Contains ip = true ∧
        ∀ j, ∀ hj : j < l.length, j < i → (l.get ⟨j, hj⟩).IPNet.Contains ip = false) ∧
    (findASN l ip = none ↔ ∀ r ∈ l, r.IPNet.Contains ip = false) ∧
    findASN [⟨⟨[10, 0, 0, 0], [255, 0, 0, 0]⟩, "first".toList⟩,
        ⟨⟨[10, 1, 0, 0], [255, 255, 0, 0]⟩, "second".toList⟩] [10, 1, 2, 3] =
      some ⟨⟨[10, 0, 0, 0], [255, 0, 0, 0]⟩, "first".toList⟩ :=
  ⟨fun r => findASN_eq_some_iff l ip r, findASN_eq_none_iff l ip, by decide⟩

/-! ## The count table -/

theorem countUp_apply (t : CountTable) (o s o' : GoString) :
    countUp t o s o' =
      if o' = o then
        some (((t o).getD GoMap.empty).set s
          (((((t o).getD GoMap.empty) s).getD 0 + 1) % 2 ^ 64))
      else t o' := by
  unfold countUp
  cases h : t o with
  | none =>
    by_cases ho : o' = o
    · simp [GoMap.set, ho, GoMap.empty]
    · simp [GoMap.set, ho]
  | some inner =>
    by_cases ho : o' = o
    · simp [GoMap.set, ho, h]
    · simp [GoMap.set, ho]

theorem cell_countUp (t : CountTable) (o s o' s' : GoString) :
    cell (countUp t o s) o' s' =
      if o' = o ∧ s' = s then some (((cell t o s).getD 0 + 1) % 2 ^ 64) else cell t o' s' := by
  unfold cell
  rw [countUp_apply]
  by_cases ho : o' = o
  · subst ho
    by_cases hs : s' = s
    · subst hs
      cases h : t o' <;> simp [GoMap.set, GoMap.empty]
    · cases h : t o' <;> simp [GoMap.set, GoMap.empty, hs]
  · simp [ho]

theorem countUp_comm (t : CountTable) (o₁ s₁ o₂ s₂ : GoString) :
    countUp (countUp t o₁ s₁) o₂ s₂ = countUp (countUp t o₂ s₂) o₁ s₁ := by
  funext o
  simp only [countUp_apply]
  by_cases h1 : o = o₁ <;> by_cases h2 : o = o₂
  · subst h1
    subst h2
    simp only [if_true, Option.getD_some, Option.some.injEq]
    funext s
    by_cases e1 : s = s₁ <;> by_cases e2 : s = s₂
    · subst e1
      subst e2
      rfl
    · subst e1
      simp [GoMap.set, e2]
    · subst e2
      simp [GoMap.set, e1]
    · simp [GoMap.set, e1, e2]
  · subst h1
    have h2' : ¬ o₂ = o := fun e => h2 e.symm
    simp [h2, h2']
  · subst h2
    have h1' : ¬ o₁ = o := fun e => h1 e.symm
    simp [h1, h1']
  · simp [h1, h2]

/-! ## The loop of `parseSocketStats` -/

theorem lineRecord_eq_some {line : GoString} {ip : IP} {u : Nat}
    (h : lineRecord line = some (ip, u)) :
    ¬ (lineFields line).length < 12 ∧
    (∃ port, parseAddr ((lineFields line).getD 2 []) = .ok (ip, port)) ∧
    ParseUint ((lineFields line).getD 3 []) 16 8 = .ok u := by
  unfold lineRecord at h
  split at h
  · exact absurd h (by simp)
  · rename_i hlen
    split at h
    · rename_i ip' port u' ha hu
      simp only [Option.some.injEq, Prod.mk.injEq] at h
      obtain ⟨rfl, rfl⟩ := h
      exact ⟨hlen, ⟨port, ha⟩, hu⟩
    · exact absurd h (by simp)

theorem lineRecord_eq_none {line : GoString} (h : lineRecord line = none) :
    (lineFields line).length < 12 ∨
    (∃ err, parseAddr ((lineFields line).getD 2 []) = .error err) ∨
    (∃ err, ParseUint ((lineFields line).getD 3 []) 16 8 = .error err) := by
  unfold lineRecord at h
  split at h
  · rename_i hlen
    exact Or.inl hlen
  · cases ha : parseAddr ((lineFields line).getD 2 []) with
    | error err => exact Or.inr (Or.inl ⟨err, rfl⟩)
    | ok v =>
      cases hu : ParseUint ((lineFields line).getD 3 []) 16 8 with
      | error err => exact Or.inr (Or.inr ⟨err, rfl⟩)
      | ok u =>
        obtain ⟨ip, port⟩ := v
        rw [ha, hu] at h
        exact absurd h (by simp)

theorem loop_cons (asns : List asnRecord) (scanErr : Option GoError) (line : GoString)
    (rest : List GoString)
    (t : CountTable) :
    parseSocketStatsLoop asns scanErr (line :: rest) t =
      if (lineFields line).length < 12 then
        .returns (none, some (.errorString
          ("netstat: not enough fields: ".toList ++ Nat.toDigits 10 (lineFields line).length ++
            ", ".toList ++ fmtStrings (lineFields line))))
      else
        match parseAddr ((lineFields line).getD 2 []) with
        | .error err =>
          .returns (none, some (.wrapError
            "can not parse remote ip and port ddress in the file: ".toList err))
        | .ok (remoteIP, _) =>
          match ParseUint ((lineFields line).getD 3 []) 16 8 with
          | .error err => .returns (none, some err)
          | .ok u =>
            match socketStates.get? u with
            | none => .panics "runtime error: index out of range"
            | some state =>
              parseSocketStatsLoop asns scanErr rest (countUp t (ownerOf asns remoteIP) state) := by
  rfl

theorem loop_cons_of_lineCell (asns : List asnRecord) (scanErr : Option GoError)
    (line : GoString) (rest : List GoString)
    (t : CountTable) (o s : GoString) (h : lineCell asns line = some (o, s)) :
    parseSocketStatsLoop asns scanErr (line :: rest) t =
      parseSocketStatsLoop asns scanErr rest (countUp t o s) := by
  unfold lineCell at h
  split at h
  · exact absurd h (by simp)
  · rename_i ip u hr
    obtain ⟨hlen, ⟨port, ha⟩, hu⟩ := lineRecord_eq_some hr
    split at h
    · exact absurd h (by simp)
    · rename_i state hst
      simp only [Option.some.injEq, Prod.mk.injEq] at h
      obtain ⟨rfl, rfl⟩ := h
      rw [loop_cons asns scanErr]
      simp only [hlen, if_false, ha, hu, hst]

theorem loop_cons_of_malformed (asns : List asnRecord) (scanErr : Option GoError) (line : GoString)
    (rest : List GoString) (t : CountTable) (h : lineRecord line = none) :
    ∃ err, parseSocketStatsLoop asns scanErr (line :: rest) t = .returns (none, some err) := by
  rw [loop_cons asns scanErr]
  by_cases hlen : (lineFields line).length < 12
  · exact ⟨_, by simp only [hlen, if_true]; rfl⟩
  · rcases lineRecord_eq_none h with h1 | ⟨err, h2⟩ | ⟨err, h3⟩
    · exact absurd h1 hlen
    · exact ⟨_, by simp only [hlen, if_false, h2]; rfl⟩
    · cases ha : parseAddr ((lineFields line).getD 2 []) with
      | error err' => exact ⟨_, by simp only [hlen, if_false]; rfl⟩
      | ok v => exact ⟨_, by simp only [hlen, if_false, h3]; rfl⟩

theorem loop_cons_of_bad_state (asns : List asnRecord) (scanErr : Option GoError) (line : GoString)
    (rest : List GoString) (t : CountTable) (ip : IP) (u : Nat)
    (h : lineRecord line = some (ip, u)) (hu : 12 ≤ u) :
    parseSocketStatsLoop asns scanErr (line :: rest) t =
      .panics "runtime error: index out of range" := by
  obtain ⟨hlen, ⟨port, ha⟩, hp⟩ := lineRecord_eq_some h
  have hst : socketStates.get? u = none := by
    apply List.get?_eq_none.mpr
    simpa [socketStates] using hu
  rw [loop_cons asns scanErr]
  simp only [hlen, if_false, ha, hp, hst]

theorem wellFormed_lineCell (asns : List asnRecord) (line : GoString) (h : wellFormed line) :
    ∃ ip u state, lineRecord line = some (ip, u) ∧ u < 12 ∧
      socketStates.get? u = some state ∧
      lineCell asns line = some (ownerOf asns ip, state) := by
  unfold wellFormed at h
  split at h
  · exact absurd h id
  · rename_i ip u hr
    have hlt : u < socketStates.length := by simpa [socketStates] using h
    refine ⟨ip, u, socketStates.get ⟨u, hlt⟩, hr, h, List.get?_eq_get hlt, ?_⟩
    simp only [lineCell, hr, List.get?_eq_get hlt]

theorem loop_append_wellFormed (asns : List asnRecord) (scanErr : Option GoError)
    (pre rest : List GoString)
    (t : CountTable) (hpre : ∀ l ∈ pre, wellFormed l) :
    parseSocketStatsLoop asns scanErr (pre ++ rest) t =
      parseSocketStatsLoop asns scanErr rest (countLines asns t pre) := by
  induction pre generalizing t with
  | nil => rfl
  | cons l pre ih =>
    obtain ⟨ip, u, state, _, _, _, hc⟩ := wellFormed_lineCell asns l (hpre l (by simp))
    have hstep : countLine asns t l = countUp t (ownerOf asns ip) state := by
      simp only [countLine, hc]
    rw [List.cons_append, loop_cons_of_lineCell asns scanErr l _ t _ _ hc,
      ih _ (fun x hx => hpre x (by simp [hx]))]
    simp only [countLines, List.foldl_cons, hstep]

theorem loop_wellFormed (asns : List asnRecord) (scanErr : Option GoError)
    (ls : List GoString) (t : CountTable)
    (hwf : ∀ l ∈ ls, wellFormed l) :
    parseSocketStatsLoop asns scanErr ls t = .returns (some (countLines asns t ls), scanErr) := by
  have := loop_append_wellFormed asns scanErr ls [] t hwf
  rw [List.append_nil] at this
  rw [this]
  rfl

/-! ## The scanner -/

theorem len_nil : len [] = 0 := rfl

theorem len_cons (c : Char) (s : GoString) : len (c :: s) = c.utf8Size + len s := by
  simp [len]

theorem len_append (a b : GoString) : len (a ++ b) = len a + len b := by
  simp [len]

theorem len_replicate_ascii (k : Nat) (c : Char) (hc : c.utf8Size = 1) :
    len (List.replicate k c) = k := by
  induction k with
  | zero => rfl
  | succ k ih => rw [List.replicate_succ, len_cons, ih, hc]; omega

theorem scanLoop_nil (flag : Bool) (cur : GoString) (n : Nat) :
    scanLoop flag [] cur n = (if cur = [] then [] else [dropCR cur], none) := rfl

theorem scanLoop_newline (flag : Bool) (cs cur : GoString) (n : Nat) :
    scanLoop flag ('\n' :: cs) cur n =
      (dropCR cur :: (scanLoop flag cs [] 0).1, (scanLoop flag cs [] 0).2) := by
  simp [scanLoop]

theorem scanLoop_char (flag : Bool) (c : Char) (cs cur : GoString) (n : Nat) (hc : c ≠ '\n')
    (hn : n + c.utf8Size < MaxScanTokenSize) :
    scanLoop flag (c :: cs) cur n = scanLoop flag cs (cur ++ [c]) (n + c.utf8Size) := by
  simp [scanLoop, hc, hn]

theorem scanLoop_advance (flag : Bool) (p rest : GoString) (cur : GoString) (n : Nat)
    (hp : '\n' ∉ p) (hn : n + len p < MaxScanTokenSize) :
    scanLoop flag (p ++ rest) cur n = scanLoop flag rest (cur ++ p) (n + len p) := by
  induction p generalizing cur n with
  | nil => simp [len_nil]
  | cons c p ih =>
    rw [len_cons] at hn
    have hc : c ≠ '\n' := fun h => hp (by simp [h])
    have hp' : '\n' ∉ p := fun h => hp (by simp [h])
    rw [List.cons_append, scanLoop_char flag c _ cur n hc (by omega), ih _ _ hp' (by omega),
      len_cons]
    simp [Nat.add_assoc]

theorem scanLoop_line (flag : Bool) (l rest : GoString) (cur : GoString) (n : Nat)
    (hl : '\n' ∉ l) (hn : n + len l < MaxScanTokenSize) :
    scanLoop flag (l ++ '\n' :: rest) cur n =
      (dropCR (cur ++ l) :: (scanLoop flag rest [] 0).1, (scanLoop flag rest [] 0).2) := by
  rw [scanLoop_advance flag l _ cur n hl hn, scanLoop_newline]

theorem scanLoop_last (flag : Bool) (l : GoString) (cur : GoString) (n : Nat)
    (hl : '\n' ∉ l) (hn : n + len l < MaxScanTokenSize) :
    scanLoop flag l cur n = (if cur ++ l = [] then [] else [dropCR (cur ++ l)], none) := by
  have := scanLoop_advance flag l [] cur n hl hn
  rw [List.append_nil] at this
  rw [this, scanLoop_nil]

theorem scanLoop_tooLong (flag : Bool) (l rest : GoString) (cur : GoString) (n : Nat)
    (hl : '\n' ∉ l) (hn : n < MaxScanTokenSize) (hlong : MaxScanTokenSize ≤ n + len l) :
    ∃ buf, scanLoop flag (l ++ '\n' :: rest) cur n = ([], some buf) := by
  induction l generalizing cur n with
  | nil => rw [len_nil] at hlong; omega
  | cons c l ih =>
    have hc : c ≠ '\n' := fun h => hl (by simp [h])
    have hl' : '\n' ∉ l := fun h => hl (by simp [h])
    rw [len_cons] at hlong
    by_cases h1 : n + c.utf8Size < MaxScanTokenSize
    · rw [List.cons_append, scanLoop_char flag c _ cur n hc h1]
      exact ih _ _ hl' h1 (by omega)
    · by_cases h2 : n + c.utf8Size = MaxScanTokenSize
      · exact ⟨cur ++ [c], by simp [scanLoop, hc, h1, h2]⟩
      · exact ⟨cur ++ List.replicate (MaxScanTokenSize - n) '\uFFFD',
          by simp only [List.cons_append, scanLoop, hc, h1, h2, if_false]⟩

theorem scanLoop_tooLong_replicate (flag : Bool) (k : Nat) (x : Char) (hx : x ≠ '\n')
    (hx1 : x.utf8Size = 1) (rest : GoString) (cur : GoString) (n : Nat)
    (hn : n < MaxScanTokenSize) (hlong : MaxScanTokenSize ≤ n + k) :
    scanLoop flag (List.replicate k x ++ '\n' :: rest) cur n =
      ([], some (cur ++ List.replicate (MaxScanTokenSize - n) x)) := by
  induction k generalizing cur n with
  | zero => omega
  | succ k ih =>
    by_cases h1 : n + 1 < MaxScanTokenSize
    · rw [List.replicate_succ, List.cons_append, scanLoop_char flag x _ cur n hx (by omega), hx1,
        ih _ _ h1 (by omega)]
      have e : MaxScanTokenSize - n = (MaxScanTokenSize - (n + 1)) + 1 := by omega
      rw [e, List.replicate_succ]
      simp
    · have h2 : n + 1 = MaxScanTokenSize := by omega
      have e : MaxScanTokenSize - n = 1 := by omega
      rw [e]
      simp [List.replicate_succ, scanLoop, hx, hx1, h2]

theorem rawLinesAux_head_ge (data cur : GoString) (h : cur ≠ [] ∨ data ≠ []) :
    ∃ l ∈ rawLinesAux data cur, len cur ≤ len l := by
  induction data generalizing cur with
  | nil =>
    have hc : cur ≠ [] := by
      rcases h with h | h
      · exact h
      · exact absurd rfl h
    exact ⟨cur, by simp [rawLinesAux, hc], le_refl _⟩
  | cons c cs ih =>
    by_cases hc : c = '\n'
    · exact ⟨cur, by simp [rawLinesAux, hc], le_refl _⟩
    · obtain ⟨l, hl, hle⟩ := ih (cur ++ [c]) (Or.inl (by simp))
      refine ⟨l, by simpa [rawLinesAux, hc] using hl, ?_⟩
      rw [len_append] at hle
      omega

theorem scanLoop_of_fits (flag : Bool) (data cur : GoString) (n : Nat) (hn : n = len cur)
    (hfit : ∀ l ∈ rawLinesAux data cur, len l < MaxScanTokenSize) :
    scanLoop flag data cur n = ((rawLinesAux data cur).map dropCR, none) := by
  induction data generalizing cur n with
  | nil =>
    rw [scanLoop_nil]
    by_cases hc : cur = [] <;> simp [rawLinesAux, hc]
  | cons c cs ih =>
    by_cases hc : c = '\n'
    · subst hc
      have hrest : ∀ l ∈ rawLinesAux cs [], len l < MaxScanTokenSize := by
        intro l hl
        exact hfit l (by simp [rawLinesAux, hl])
      rw [scanLoop_newline, ih [] 0 rfl hrest]
      simp [rawLinesAux]
    · have hrest : ∀ l ∈ rawLinesAux cs (cur ++ [c]), len l < MaxScanTokenSize := by
        intro l hl
        exact hfit l (by simpa [rawLinesAux, hc] using hl)
      obtain ⟨l, hl, hle⟩ := rawLinesAux_head_ge cs (cur ++ [c]) (Or.inl (by simp))
      have hlt := hrest l hl
      rw [len_append, len_cons, len_nil] at hle
      rw [scanLoop_char flag c cs cur n hc (by omega),
        ih (cur ++ [c]) (n + c.utf8Size) (by rw [len_append, len_cons, len_nil]; omega) hrest]
      simp [rawLinesAux, hc]

theorem Scan_of_fits (r : Reader) (hfit : fitsScanner r.data) :
    Scan r = (textLines r.data, none) :=
  scanLoop_of_fits r.errWithData r.data [] 0 rfl hfit

theorem parseSocketStats_of_lines (r : Reader) (asns : List asnRecord) (hdr : GoString)
    (ls : List GoString) (hlines : textLines r.data = hdr :: ls) (hfit : fitsScanner r.data) :
    parseSocketStats r asns = parseSocketStatsLoop asns r.err ls GoMap.empty := by
  simp only [parseSocketStats, Scan_of_fits r hfit, hlines]

theorem parseSocketStats_of_no_line (r : Reader) (asns : List asnRecord)
    (hlines : textLines r.data = []) :
    parseSocketStats r asns = .returns (some GoMap.empty, r.err) := by
  have hfit : fitsScanner r.data := by
    intro l hl
    have : rawLines r.data = [] := by
      simpa [textLines] using hlines
    rw [this] at hl
    simp at hl
  simp only [parseSocketStats, Scan_of_fits r hfit, hlines]
  rfl

theorem scanLoop_append_line (flag : Bool) (a x : GoString) (cur : GoString) (n : Nat) :
    scanLoop flag (a ++ '\n' :: x) cur n =
      match scanLoop flag (a ++ ['\n']) cur n with
      | (ls, some buf) => (ls, some buf)
      | (ls, none) => (ls ++ (scanLoop flag x [] 0).1, (scanLoop flag x [] 0).2) := by
  induction a generalizing cur n with
  | nil =>
    simp only [List.nil_append, scanLoop_newline, scanLoop_nil]
    simp
  | cons c a ih =>
    by_cases hc : c = '\n'
    · subst hc
      rw [List.cons_append, List.cons_append, scanLoop_newline, scanLoop_newline, ih [] 0]
      rcases h : scanLoop flag (a ++ ['\n']) [] 0 with ⟨ls, _ | buf⟩ <;> simp
    · by_cases h1 : n + c.utf8Size < MaxScanTokenSize
      · rw [List.cons_append, List.cons_append, scanLoop_char flag c _ cur n hc h1,
          scanLoop_char flag c _ cur n hc h1]
        exact ih _ _
      · by_cases h2 : n + c.utf8Size = MaxScanTokenSize
        · simp [scanLoop, hc, h1, h2]
        · simp [scanLoop, hc, h1, h2]

/-- For every input whose lines fit the scanner's buffer and in which a data line
with at least 12 fields, a decodable remote address and an 8-bit state code above 11
comes after well-formed lines only, `parseSocketStats` does not return: the lookup
in the state-name table panics. -/
theorem parseSocketStats_state_out_of_range (r : Reader) (asns : List asnRecord)
    (hdr : GoString) (pre : List GoString) (line : GoString) (post : List GoString)
    (ip : IP) (u : Nat) (hlines : textLines r.data = hdr :: (pre ++ line :: post))
    (hfit : fitsScanner r.data)
    (hpre : ∀ l ∈ pre, wellFormed l) (hrec : lineRecord line = some (ip, u)) (hu : 11 < u) :
    parseSocketStats r asns = .panics "runtime error: index out of range" := by
  rw [parseSocketStats_of_lines r asns hdr _ hlines hfit,
    loop_append_wellFormed asns _ pre _ _ hpre,
    loop_cons_of_bad_state asns _ line post _ ip u hrec hu]

/-- C4: on a socket table whose only data line has 12 fields and more, the
decodable remote address `0100007F:0050` and the state field `0C` (12),
`parseSocketStats` does not return a parse error: indexing the 12-entry state-name
table panics. -/
theorem parseSocketStats_state_twelve_panics :
    lineRecord stateTwelveLine = some ([127, 0, 0, 1], 12) ∧
    parseSocketStats (NewReader stateTwelveInput) [] =
      .panics "runtime error: index out of range" ∧
    ∀ asns, ¬ ∃ res, parseSocketStats (NewReader stateTwelveInput) asns = .returns res := by
  have hrec : lineRecord stateTwelveLine = some ([127, 0, 0, 1], 12) := by decide
  have hp : ∀ asns, parseSocketStats (NewReader stateTwelveInput) asns =
      .panics "runtime error: index out of range" := fun asns =>
    parseSocketStats_state_out_of_range (NewReader stateTwelveInput) asns tableHeader []
      stateTwelveLine [] [127, 0, 0, 1] 12 (by decide) (by decide) (by simp) hrec (by decide)
  refine ⟨hrec, hp [], ?_⟩
  rintro asns ⟨res, hres⟩
  rw [hp asns] at hres
  exact Outcome.noConfusion hres

theorem cell_countLines (asns : List asnRecord) (ls : List GoString) (t : CountTable)
    (hwf : ∀ l ∈ ls, wellFormed l) (o s : GoString) :
    cell (countLines asns t ls) o s =
      if ls.countP (fun l => lineCell asns l = some (o, s)) = 0 then cell t o s
      else some (((cell t o s).getD 0 + ls.countP (fun l => lineCell asns l = some (o, s)))
        % 2 ^ 64) := by
  induction ls generalizing t with
  | nil => simp [countLines]
  | cons l ls ih =>
    obtain ⟨ip, u, state, _, _, _, hc⟩ := wellFormed_lineCell asns l (hwf l (by simp))
    have hstep : countLine asns t l = countUp t (ownerOf asns ip) state := by
      simp only [countLine, hc]
    have ih' := ih (countUp t (ownerOf asns ip) state) (fun x hx => hwf x (by simp [hx]))
    simp only [countLines, List.foldl_cons, hstep] at ih' ⊢
    rw [ih', cell_countUp, List.countP_cons, hc]
    by_cases hos : o = ownerOf asns ip ∧ s = state
    · obtain ⟨rfl, rfl⟩ := hos
      simp only [and_self, if_true, decide_True, Option.getD_some]
      generalize List.countP _ ls = n
      generalize (cell t (ownerOf asns ip) s).getD 0 = c
      by_cases h0 : n = 0
      · subst h0
        simp
      · have : ¬ (n + 1 = 0) := by omega
        simp only [h0, this, if_false, Option.some.injEq]
        norm_num
        omega
    · have hne : ¬ ((ownerOf asns ip, state) = (o, s)) := by
        intro e
        simp only [Prod.mk.injEq] at e
        exact hos ⟨e.1.symm, e.2.symm⟩
      simp [hos, hne]

theorem countP_le_length_lines (asns : List asnRecord) (ls : List GoString) (o s : GoString) :
    ls.countP (fun l => lineCell asns l = some (o, s)) ≤ ls.length :=
  List.countP_le_length _

/-- C6, as amended: for an input made of a header line and well-formed data lines
(fewer than 2^64 of them, the range of the `uint64` counts), every line shorter than
the 65536 bytes of the scanner's buffer, `parseSocketStats` returns a table, and no
error of its own (the second result is the reader's error, nil for an input
read to its end); the table has the cell (owner, state) if and only if some data line
resolves to that pair, and the count of the cell is the number of data lines
resolving to it.  In particular, lines all resolving to one pair give that cell,
with the number of lines as count, and no other cell. -/
theorem parseSocketStats_counts (r : Reader) (asns : List asnRecord) (hdr : GoString)
    (ls : List GoString) (hlines : textLines r.data = hdr :: ls) (hfit : fitsScanner r.data)
    (hwf : ∀ l ∈ ls, wellFormed l) (hn : ls.length < 2 ^ 64) :
    ∃ t, parseSocketStats r asns = .returns (some t, r.err) ∧
      (∀ o s, (cell t o s).isSome ↔ ∃ l ∈ ls, lineCell asns l = some (o, s)) ∧
      (∀ o s n, cell t o s = some n →
        n = ls.countP (fun l => lineCell asns l = some (o, s))) ∧
      (∀ o₀ s₀, ls ≠ [] → (∀ l ∈ ls, lineCell asns l = some (o₀, s₀)) →
        ∀ o s, cell t o s = if o = o₀ ∧ s = s₀ then some ls.length else none) := by
  have hcell : ∀ o s, cell (countLines asns GoMap.empty ls) o s =
      if ls.countP (fun l => lineCell asns l = some (o, s)) = 0 then none
      else some (ls.countP (fun l => lineCell asns l = some (o, s))) := by
    intro o s
    have hle := countP_le_length_lines asns ls o s
    rw [cell_countLines asns ls GoMap.empty hwf o s]
    have h0 : cell GoMap.empty o s = none := rfl
    rw [h0]
    by_cases hz : ls.countP (fun l => lineCell asns l = some (o, s)) = 0
    · simp [hz]
    · simp only [hz, if_false, Option.getD_none, Nat.zero_add, Option.some.injEq]
      exact Nat.mod_eq_of_lt (by omega)
  refine ⟨countLines asns GoMap.empty ls, ?_, ?_, ?_, ?_⟩
  · rw [parseSocketStats_of_lines r asns hdr ls hlines hfit, loop_wellFormed asns _ ls _ hwf]
  · intro o s
    rw [hcell]
    by_cases hz : ls.countP (fun l => lineCell asns l = some (o, s)) = 0
    · simp only [hz, if_true, Option.isSome_none, Bool.false_eq_true, false_iff]
      rintro ⟨l, hl, hc⟩
      have := (List.countP_pos_iff (p := fun l => decide (lineCell asns l = some (o, s)))
        (l := ls)).mpr ⟨l, hl, by simpa using hc⟩
      omega
    · simp only [hz, if_false, Option.isSome_some, true_iff]
      obtain ⟨l, hl, hc⟩ := List.countP_pos_iff.mp (Nat.pos_of_ne_zero hz)
      exact ⟨l, hl, by simpa using hc⟩
  · intro o s n hc
    rw [hcell] at hc
    by_cases hz : ls.countP (fun l => lineCell asns l = some (o, s)) = 0
    · simp [hz] at hc
    · simp only [hz, if_false, Option.some.injEq] at hc
      exact hc.symm
  · intro o₀ s₀ hne hall o s
    rw [hcell]
    by_cases hos : o = o₀ ∧ s = s₀
    · obtain ⟨rfl, rfl⟩ := hos
      have hall' : ∀ l ∈ ls, (fun l => decide (lineCell asns l = some (o, s))) l = true := by
        intro l hl
        simpa using hall l hl
      have hcnt := List.countP_eq_length.mpr hall'
      have hpos : ls.length ≠ 0 := fun h => hne (List.eq_nil_of_length_eq_zero h)
      simp only [hcnt, hpos, if_false, and_self, if_true]
    · have hz : ls.countP (fun l => lineCell asns l = some (o, s)) = 0 := by
        apply List.countP_eq_zero.mpr
        intro l hl
        have := hall l hl
        simp only [this, Option.some.injEq, Prod.mk.injEq, decide_eq_true_eq]
        intro e
        exact hos ⟨e.1.symm, e.2.symm⟩
      simp only [hz, if_true, hos, if_false]

theorem parseSocketStats_counts_witness :
    ∃ t, parseSocketStats sampleTable sampleAsns = .returns (some t, none) ∧
      (∀ o s, (cell t o s).isSome ↔
        ∃ l ∈ [listenLine, establishedLine, establishedLine],
          lineCell sampleAsns l = some (o, s)) ∧
      (∀ o s n, cell t o s = some n →
        n = [listenLine, establishedLine, establishedLine].countP
          (fun l => lineCell sampleAsns l = some (o, s))) ∧
      (∀ o₀ s₀, [listenLine, establishedLine, establishedLine] ≠ [] →
        (∀ l ∈ [listenLine, establishedLine, establishedLine],
          lineCell sampleAsns l = some (o₀, s₀)) →
        ∀ o s, cell t o s =
          if o = o₀ ∧ s = s₀ then
            some [listenLine, establishedLine, establishedLine].length
          else none) :=
  parseSocketStats_counts sampleTable sampleAsns tableHeader
    [listenLine, establishedLine, establishedLine] (by decide) (by decide) (by decide)
    (by decide)

theorem cell_countLines_empty (asns : List asnRecord) (ls : List GoString)
    (hwf : ∀ l ∈ ls, wellFormed l) (hn : ls.length < 2 ^ 64) (o s : GoString) :
    cell (countLines asns GoMap.empty ls) o s =
      if ls.countP (fun l => lineCell asns l = some (o, s)) = 0 then none
      else some (ls.countP (fun l => lineCell asns l = some (o, s))) := by
  have hle := countP_le_length_lines asns ls o s
  rw [cell_countLines asns ls GoMap.empty hwf o s]
  have h0 : cell GoMap.empty o s = none := rfl
  rw [h0]
  by_cases hz : ls.countP (fun l => lineCell asns l = some (o, s)) = 0
  · simp [hz]
  · simp only [hz, if_false, Option.getD_none, Nat.zero_add, Option.some.injEq]
    exact Nat.mod_eq_of_lt (by omega)

theorem ownerOf_unmatched (asns : List asnRecord) (ip : IP)
    (hno : ∀ a ∈ asns, a.IPNet.Contains ip = false) : ownerOf asns ip = "_other".toList := by
  simp only [ownerOf, (findASN_eq_none_iff asns ip).mpr hno]

/-- C7, as amended: in an input of well-formed lines, all shorter than the 65536
bytes of the scanner's buffer, a data line whose remote address lies in no network
of the ASN list (in particular any line when the list is empty) is counted under
the owner `_other` and under no other owner, and the call returns no error of its
own (the second result is the reader's error, nil for an input read to its end):
compared with the table of the input without that line, the cell (`_other`, state of
the line) is one higher and every other cell is the same. -/
theorem parseSocketStats_unmatched_other (r r₀ : Reader) (asns : List asnRecord)
    (hdr : GoString) (pre : List GoString) (line : GoString) (post : List GoString)
    (ip : IP) (u : Nat)
    (hlines : textLines r.data = hdr :: (pre ++ line :: post))
    (hlines₀ : textLines r₀.data = hdr :: (pre ++ post))
    (hfit : fitsScanner r.data) (hfit₀ : fitsScanner r₀.data)
    (hwf : ∀ l ∈ pre ++ line :: post, wellFormed l)
    (hn : (pre ++ line :: post).length < 2 ^ 64)
    (hrec : lineRecord line = some (ip, u))
    (hno : ∀ a ∈ asns, a.IPNet.Contains ip = false) :
    ∃ t t₀ state, socketStates.get? u = some state ∧
      lineCell asns line = some ("_other".toList, state) ∧
      parseSocketStats r₀ asns = .returns (some t₀, r₀.err) ∧
      parseSocketStats r asns = .returns (some t, r.err) ∧
      ∀ o s, cell t o s =
        if o = "_other".toList ∧ s = state then some ((cell t₀ o s).getD 0 + 1)
        else cell t₀ o s := by
  have hwf₀ : ∀ l ∈ pre ++ post, wellFormed l := by
    intro l hl
    apply hwf l
    simp only [List.mem_append, List.mem_cons] at hl ⊢
    tauto
  have hn₀ : (pre ++ post).length < 2 ^ 64 := by
    simp only [List.length_append, List.length_cons] at hn ⊢
    omega
  obtain ⟨ip', u', state, hrec', _, hst, hc⟩ :=
    wellFormed_lineCell asns line (hwf line (by simp))
  rw [hrec] at hrec'
  simp only [Option.some.injEq, Prod.mk.injEq] at hrec'
  obtain ⟨rfl, rfl⟩ := hrec'
  rw [ownerOf_unmatched asns ip hno] at hc
  refine ⟨countLines asns GoMap.empty (pre ++ line :: post),
    countLines asns GoMap.empty (pre ++ post), state, hst, hc, ?_, ?_, ?_⟩
  · rw [parseSocketStats_of_lines r₀ asns hdr _ hlines₀ hfit₀, loop_wellFormed asns _ _ _ hwf₀]
  · rw [parseSocketStats_of_lines r asns hdr _ hlines hfit, loop_wellFormed asns _ _ _ hwf]
  · intro o s
    rw [cell_countLines_empty asns _ hwf hn, cell_countLines_empty asns _ hwf₀ hn₀,
      List.countP_append, List.countP_cons, List.countP_append, hc]
    generalize List.countP _ pre = a
    generalize List.countP _ post = b
    by_cases hos : o = "_other".toList ∧ s = state
    · have e : ("_other".toList, state) = (o, s) := by rw [hos.1, hos.2]
      have h1 : ¬ (a + (b + 1) = 0) := by omega
      simp only [e, decide_True, if_true, h1, if_false, hos, and_self]
      by_cases hab : a + b = 0
      · have ha : a = 0 := by omega
        have hb : b = 0 := by omega
        simp [ha, hb]
      · simp only [hab, if_false, Option.getD_some, Option.some.injEq]
        omega
    · have hne : ¬ (("_other".toList, state) = (o, s)) := by
        intro e
        simp only [Prod.mk.injEq] at e
        exact hos ⟨e.1.symm, e.2.symm⟩
      have hd : decide (some ("_other".toList, state) = some (o, s)) = false := by
        apply decide_eq_false
        intro e
        exact hne (Option.some.inj e)
      simp only [hd, hos, if_false, Bool.false_eq_true, Nat.add_zero]

theorem parseSocketStats_unmatched_other_witness :
    ∃ t t₀ state, socketStates.get? 10 = some state ∧
      lineCell sampleAsns listenLine = some ("_other".toList, state) ∧
      parseSocketStats sampleTableWithout sampleAsns = .returns (some t₀, none) ∧
      parseSocketStats sampleTableSwapped sampleAsns = .returns (some t, none) ∧
      ∀ o s, cell t o s =
        if o = "_other".toList ∧ s = state then some ((cell t₀ o s).getD 0 + 1)
        else cell t₀ o s :=
  parseSocketStats_unmatched_other sampleTableSwapped sampleTableWithout sampleAsns tableHeader
    [establishedLine] listenLine [establishedLine] [127, 0, 0, 1] 10
    (by decide) (by decide) (by decide) (by decide) (by decide) (by decide) (by decide)
    (by decide)

theorem countLine_comm (asns : List asnRecord) (t : CountTable) (a b : GoString) :
    countLine asns (countLine asns t a) b = countLine asns (countLine asns t b) a := by
  unfold countLine
  cases ha : lineCell asns a with
  | none => cases hb : lineCell asns b <;> rfl
  | some ca =>
    cases hb : lineCell asns b with
    | none => rfl
    | some cb =>
      obtain ⟨o₁, s₁⟩ := ca
      obtain ⟨o₂, s₂⟩ := cb
      exact countUp_comm t o₁ s₁ o₂ s₂

theorem countLines_perm (asns : List asnRecord) (t : CountTable) (ls ls' : List GoString)
    (hperm : ls.Perm ls') : countLines asns t ls = countLines asns t ls' :=
  List.Perm.foldl_eq' hperm (fun x _ y _ z => countLine_comm asns z x y) t

/-- C8, as amended: order independence.  For a header line and a list of
well-formed data lines, every line shorter than the 65536 bytes of the scanner's
buffer, `parseSocketStats` returns the same count table for the lines in the given
order and in any permuted order, over the same ASN list; for inputs read to their
end the two results are equal. -/
theorem parseSocketStats_perm (r r' : Reader) (asns : List asnRecord) (hdr : GoString)
    (ls ls' : List GoString) (hlines : textLines r.data = hdr :: ls)
    (hlines' : textLines r'.data = hdr :: ls') (hfit : fitsScanner r.data)
    (hfit' : fitsScanner r'.data) (hperm : ls.Perm ls')
    (hwf : ∀ l ∈ ls, wellFormed l) :
    (∃ t, parseSocketStats r asns = .returns (some t, r.err) ∧
      parseSocketStats r' asns = .returns (some t, r'.err)) ∧
    (r.err = none → r'.err = none → parseSocketStats r asns = parseSocketStats r' asns) := by
  have hwf' : ∀ l ∈ ls', wellFormed l := fun l hl => hwf l (hperm.symm.subset hl)
  rw [parseSocketStats_of_lines r asns hdr ls hlines hfit,
    parseSocketStats_of_lines r' asns hdr ls' hlines' hfit',
    loop_wellFormed asns _ ls _ hwf, loop_wellFormed asns _ ls' _ hwf',
    countLines_perm asns _ ls ls' hperm]
  refine ⟨⟨_, rfl, rfl⟩, ?_⟩
  intro h h'
  rw [h, h']

theorem parseSocketStats_perm_witness :
    (∃ t, parseSocketStats sampleTable sampleAsns = .returns (some t, none) ∧
      parseSocketStats sampleTableSwapped sampleAsns = .returns (some t, none)) ∧
    parseSocketStats sampleTable sampleAsns = parseSocketStats sampleTableSwapped sampleAsns :=
  ⟨(parseSocketStats_perm sampleTable sampleTableSwapped sampleAsns tableHeader
      [listenLine, establishedLine, establishedLine]
      [establishedLine, listenLine, establishedLine]
      (by decide) (by decide) (by decide) (by decide) (List.Perm.swap _ _ _) (by decide)).1,
   (parseSocketStats_perm sampleTable sampleTableSwapped sampleAsns tableHeader
      [listenLine, establishedLine, establishedLine]
      [establishedLine, listenLine, establishedLine]
      (by decide) (by decide) (by decide) (by decide) (List.Perm.swap _ _ _) (by decide)).2
      rfl rfl⟩

theorem wellFormed_of_lineRecord {line : GoString} {ip : IP} {u : Nat}
    (h : lineRecord line = some (ip, u)) (hu : u < 12) : wellFormed line := by
  simp only [wellFormed, h]
  exact hu

theorem loop_failed_of_malformed (asns : List asnRecord) (scanErr : Option GoError)
    (ls : List GoString) (t : CountTable)
    (h : ∃ l ∈ ls, lineRecord l = none) : (parseSocketStatsLoop asns scanErr ls t).failed := by
  induction ls generalizing t with
  | nil =>
    obtain ⟨l, hl, _⟩ := h
    simp at hl
  | cons a ls ih =>
    cases hr : lineRecord a with
    | none => exact Or.inl (loop_cons_of_malformed asns scanErr a ls t hr)
    | some rec =>
      obtain ⟨ip, u⟩ := rec
      by_cases hu : u < 12
      · obtain ⟨_, _, state, _, _, _, hc⟩ :=
          wellFormed_lineCell asns a (wellFormed_of_lineRecord hr hu)
        rw [loop_cons_of_lineCell asns scanErr a ls t _ _ hc]
        apply ih
        obtain ⟨l, hl, hbad⟩ := h
        rcases List.mem_cons.mp hl with e | hl'
        · rw [e, hr] at hbad
          exact absurd hbad (by simp)
        · exact ⟨l, hl', hbad⟩
      · exact Or.inr ⟨_, loop_cons_of_bad_state asns scanErr a ls t ip u hr (by omega)⟩

theorem lineRecord_of_short {line : GoString} (h : (lineFields line).length < 12) :
    lineRecord line = none := by
  simp only [lineRecord, h, if_true]

/-- C9, as amended: in an input whose lines are all shorter than the 65536 bytes of
the scanner's buffer, a data line of fewer than 12 fields (after comment stripping)
that comes after well-formed data lines only, so that it is the first line the
loop rejects, is not skipped: `parseSocketStats` returns a nil table and the error
`netstat: not enough fields: n, [fields]`, whose message contains the decimal field
count `n` of that line, whatever follows. -/
theorem parseSocketStats_too_few_fields (quote : GoString → GoString) (r : Reader)
    (asns : List asnRecord) (hdr : GoString) (pre : List GoString) (bad : GoString)
    (post : List GoString)
    (hlines : textLines r.data = hdr :: (pre ++ bad :: post)) (hfit : fitsScanner r.data)
    (hbad : (lineFields bad).length < 12) (hpre : ∀ l ∈ pre, wellFormed l) :
    (∀ l ∈ pre, ¬ (lineFields l).length < 12) ∧
    ∃ err, parseSocketStats r asns = .returns (none, some err) ∧
      err = .errorString ("netstat: not enough fields: ".toList ++
        Nat.toDigits 10 (lineFields bad).length ++ ", ".toList ++ fmtStrings (lineFields bad)) ∧
      Nat.toDigits 10 (lineFields bad).length <:+: err.Error quote := by
  refine ⟨?_, _, ?_, rfl, "netstat: not enough fields: ".toList,
    ", ".toList ++ fmtStrings (lineFields bad), by simp only [GoError.Error, List.append_assoc]⟩
  · intro l hl
    obtain ⟨ip, u, _, hr, _⟩ := wellFormed_lineCell asns l (hpre l hl)
    exact (lineRecord_eq_some hr).1
  · rw [parseSocketStats_of_lines r asns hdr _ hlines hfit,
      loop_append_wellFormed asns _ pre _ _ hpre, loop_cons]
    simp only [hbad, if_true]

theorem parseSocketStats_too_few_fields_witness :
    (∀ l ∈ [listenLine], ¬ (lineFields l).length < 12) ∧
    ∃ err, parseSocketStats shortTable sampleAsns = .returns (none, some err) ∧
      err = .errorString ("netstat: not enough fields: ".toList ++
        Nat.toDigits 10 (lineFields shortLine).length ++
        ", ".toList ++ fmtStrings (lineFields shortLine)) ∧
      Nat.toDigits 10 (lineFields shortLine).length <:+: err.Error id :=
  parseSocketStats_too_few_fields id shortTable sampleAsns tableHeader
    [listenLine] shortLine [establishedLine] (by decide) (by decide) (by decide) (by decide)

/-- C10, as amended: fail-fast, no partial result.  An input whose lines are all
shorter than the 65536 bytes of the scanner's buffer and which has a malformed data
line (too few fields, a remote address `parseAddr` rejects, or a state field that is
not an 8-bit hexadecimal number) never yields a table, whatever the other lines are;
when the lines before the malformed one are well-formed, `parseSocketStats` returns
an error together with a nil table, whatever follows. -/
theorem parseSocketStats_fail_fast (r : Reader) (asns : List asnRecord)
    (hdr : GoString) (pre : List GoString) (bad : GoString) (post : List GoString)
    (hlines : textLines r.data = hdr :: (pre ++ bad :: post)) (hfit : fitsScanner r.data)
    (hbad : lineRecord bad = none) :
    (∀ t err, parseSocketStats r asns ≠ .returns (some t, err)) ∧
    ((∀ l ∈ pre, wellFormed l) →
      ∃ err, parseSocketStats r asns = .returns (none, some err)) := by
  refine ⟨?_, ?_⟩
  · intro t err heq
    have hf : (parseSocketStats r asns).failed := by
      rw [parseSocketStats_of_lines r asns hdr _ hlines hfit]
      exact loop_failed_of_malformed asns _ _ _ ⟨bad, by simp, hbad⟩
    rw [heq] at hf
    rcases hf with ⟨e, he⟩ | ⟨m, hm⟩
    · injection he with he
      injection he with he1 _
      exact Option.noConfusion he1
    · exact Outcome.noConfusion hm
  · intro hpre
    rw [parseSocketStats_of_lines r asns hdr _ hlines hfit,
      loop_append_wellFormed asns _ pre _ _ hpre]
    exact loop_cons_of_malformed asns _ bad post _ hbad

theorem parseSocketStats_fail_fast_witness :
    (∀ t err, parseSocketStats badAddrTable sampleAsns ≠ .returns (some t, err)) ∧
    ∃ err, parseSocketStats badAddrTable sampleAsns = .returns (none, some err) :=
  ⟨(parseSocketStats_fail_fast badAddrTable sampleAsns tableHeader
      [listenLine, establishedLine] badAddrLine [establishedLine] (by decide) (by decide)
      (by decide)).1,
   (parseSocketStats_fail_fast badAddrTable sampleAsns tableHeader
      [listenLine, establishedLine] badAddrLine [establishedLine] (by decide) (by decide)
      (by decide)).2 (by decide)⟩

/-! ## The converse direction: what `ParseUint` and `parseAddr` accept -/

theorem lower_ge_of_ge (c : Char) (h : 128 ≤ c.toNat) : 128 ≤ lower c := by
  obtain ⟨i, hi, hb⟩ := Nat.ge_two_pow_implies_high_bit_true (x := c.toNat) (n := 7)
    (by norm_num; exact h)
  have hor : (c.toNat ||| 0x20).testBit i = true := by
    rw [Nat.testBit_or, hb]
    rfl
  have hge := Nat.testBit_implies_ge hor
  have hpow : 2 ^ 7 ≤ 2 ^ i := Nat.pow_le_pow_right (by norm_num) hi
  unfold lower
  omega

theorem digitVal_ascii_table :
    ∀ n, n < 128 → (digitVal (Char.ofNat n)).all (fun d =>
      decide (d < 16 → isHexDigit (Char.ofNat n) ∧ d = hexDigitValue (Char.ofNat n))) =
        true := by
  decide

theorem digitVal_lt_sixteen {c : Char} {d : Nat} (h : digitVal c = some d) (hd : d < 16) :
    isHexDigit c ∧ d = hexDigitValue c := by
  by_cases hc : c.toNat < 128
  · have := digitVal_ascii_table c.toNat hc
    rw [Char.ofNat_toNat, h] at this
    simp only [Option.all_some, decide_eq_true_eq] at this
    exact this hd
  · exfalso
    have hl := lower_ge_of_ge c (by omega)
    unfold digitVal at h
    have h1 : ¬ ('0'.toNat ≤ c.toNat ∧ c.toNat ≤ '9'.toNat) := by
      have : '9'.toNat = 57 := rfl
      omega
    have h2 : ¬ ('a'.toNat ≤ lower c ∧ lower c ≤ 'z'.toNat) := by
      have : 'z'.toNat = 122 := rfl
      omega
    simp only [h1, h2, if_false] at h
    exact Option.noConfusion h

theorem parseUintStep_ok {maxVal n n1 : Nat} {c : Char}
    (h : parseUintStep 16 maxVal n c = .ok n1) :
    isHexDigit c ∧ n1 = n * 16 + hexDigitValue c ∧ n1 ≤ maxVal := by
  unfold parseUintStep at h
  cases hd : digitVal c with
  | none => simp [hd] at h
  | some d =>
    simp only [hd] at h
    split at h
    · exact Except.noConfusion h
    · rename_i hlt
      split at h
      · exact Except.noConfusion h
      · rename_i hcut
        split at h
        · exact Except.noConfusion h
        · rename_i hrange
          obtain ⟨hhex, hval⟩ := digitVal_lt_sixteen hd (by omega)
          have hmod : (n * 16 + d) % 2 ^ 64 = n * 16 + d := Nat.mod_eq_of_lt (by omega)
          simp only [hmod] at hrange h
          have e : n * 16 + d = n1 := by injection h
          refine ⟨hhex, ?_, ?_⟩ <;> omega

theorem parseUintLoop_ok (maxVal : Nat) (s : GoString) (n v : Nat)
    (h : parseUintLoop 16 maxVal s n = .ok v) :
    isHexString s ∧ v = s.foldl (fun v c => v * 16 + hexDigitValue c) n ∧
      (s ≠ [] → v ≤ maxVal) := by
  induction s generalizing n with
  | nil =>
    simp only [parseUintLoop] at h
    have e : n = v := by injection h
    exact ⟨fun c hc => by simp at hc, by simp [e], fun hne => absurd rfl hne⟩
  | cons c cs ih =>
    simp only [parseUintLoop] at h
    cases hstep : parseUintStep 16 maxVal n c with
    | error e => simp [hstep] at h
    | ok n1 =>
      simp only [hstep] at h
      obtain ⟨hc, hn1, hle⟩ := parseUintStep_ok hstep
      obtain ⟨hcs, hv, hb⟩ := ih n1 h
      refine ⟨?_, ?_, ?_⟩
      · intro d hd
        rcases List.mem_cons.mp hd with e | hd'
        · rw [e]; exact hc
        · exact hcs d hd'
      · simp only [List.foldl_cons, ← hn1, hv]
      · intro _
        by_cases hnil : cs = []
        · subst hnil
          simp only [List.foldl_nil] at hv
          omega
        · exact hb hnil

/-- `ParseUint` in base 16 succeeds exactly on the non-empty strings of
hexadecimal digits whose value fits `bitSize` bits, and returns that value. -/
theorem ParseUint_ok_iff (s : GoString) (bitSize : Nat) (hb : bitSize ≤ 64) (v : Nat) :
    ParseUint s 16 bitSize = .ok v ↔
      s ≠ [] ∧ isHexString s ∧ hexValue s < 2 ^ bitSize ∧ v = hexValue s := by
  constructor
  · intro h
    unfold ParseUint at h
    split at h
    · exact Except.noConfusion h
    · rename_i hne
      cases hl : parseUintLoop 16 (2 ^ bitSize - 1) s 0 with
      | error e => simp [hl] at h
      | ok n =>
        simp only [hl] at h
        have e : n = v := by injection h
        obtain ⟨hs, hv, hle⟩ := parseUintLoop_ok _ s 0 n hl
        have hpos : 0 < 2 ^ bitSize := Nat.pow_pos (by norm_num)
        have := hle hne
        refine ⟨hne, hs, ?_, ?_⟩
        · unfold hexValue; omega
        · unfold hexValue; omega
  · rintro ⟨hne, hs, hv, rfl⟩
    exact ParseUint_hex s bitSize hb hne hs hv

theorem ParseUint_error_of_not_hex (s : GoString) (bitSize : Nat) (hb : bitSize ≤ 64)
    (h : ¬ isHexString s) : ∃ err, ParseUint s 16 bitSize = .error err := by
  cases hp : ParseUint s 16 bitSize with
  | error err => exact ⟨err, rfl⟩
  | ok v => exact absurd ((ParseUint_ok_iff s bitSize hb v).mp hp).2.1 h

theorem len_eq_zero_iff (s : GoString) : len s = 0 ↔ s = [] := by
  cases s with
  | nil => simp [len]
  | cons c cs =>
    have := Char.utf8Size_pos c
    simp only [len, List.map_cons, List.sum_cons]
    constructor
    · intro h; omega
    · intro h; exact absurd h (by simp)

theorem Split_eq (s : GoString) (sep : Char) :
    Split s sep = before s sep ::
      (match after s sep with
        | none => []
        | some rest => Split rest sep) := by
  induction s with
  | nil => rfl
  | cons c cs ih =>
    by_cases hc : c = sep
    · subst hc
      simp [Split, before, after]
    · simp only [Split, hc, if_false, ih, before, after]

theorem after_eq_none_iff (s : GoString) (sep : Char) : after s sep = none ↔ sep ∉ s := by
  induction s with
  | nil => simp [after]
  | cons c cs ih =>
    by_cases hc : c = sep
    · subst hc
      simp [after]
    · have hc' : ¬ sep = c := fun e => hc e.symm
      simp [after, hc, hc', ih]

theorem before_append_after (s : GoString) (sep : Char) (rest : GoString)
    (h : after s sep = some rest) : s = before s sep ++ sep :: rest ∧ sep ∉ before s sep := by
  induction s with
  | nil => simp [after] at h
  | cons c cs ih =>
    by_cases hc : c = sep
    · subst hc
      simp only [after, if_true, Option.some.injEq] at h
      simp [before, h]
    · simp only [after, hc, if_false] at h
      obtain ⟨h1, h2⟩ := ih h
      have hc' : ¬ sep = c := fun e => hc e.symm
      simp only [before, hc, if_false, List.cons_append, List.mem_cons, hc', false_or]
      exact ⟨by rw [← h1], h2⟩

theorem before_of_not_mem (s : GoString) (sep : Char) (h : sep ∉ s) : before s sep = s := by
  induction s with
  | nil => rfl
  | cons c cs ih =>
    have hc : c ≠ sep := fun e => h (by simp [e])
    simp [before, hc, ih (fun hm => h (List.mem_cons_of_mem _ hm))]

theorem before_append_sep (a b : GoString) (sep : Char) (h : sep ∉ a) :
    before (a ++ sep :: b) sep = a := by
  induction a with
  | nil => simp [before]
  | cons c cs ih =>
    have hc : c ≠ sep := fun e => h (by simp [e])
    simp [before, hc, ih (fun hm => h (List.mem_cons_of_mem _ hm))]

theorem parseIPv6Loop_ok (fuel : Nat) (s : GoString) (ip r : IP) (hf : s.length ≤ fuel)
    (h : parseIPv6Loop fuel s ip = .ok r) : isHexString s := by
  induction fuel generalizing s ip with
  | zero =>
    have : s = [] := List.eq_nil_of_length_eq_zero (by omega)
    subst this
    intro c hc
    simp at hc
  | succ fuel ih =>
    unfold parseIPv6Loop at h
    split at h
    · rename_i h0
      rw [(len_eq_zero_iff s).mp h0]
      intro c hc
      simp at hc
    · rename_i h0
      have hne : s ≠ [] := fun e => h0 ((len_eq_zero_iff s).mpr e)
      cases hp : ParseUint (s.take 8) 16 32 with
      | error e => simp [hp] at h
      | ok u =>
        simp only [hp] at h
        have htake := ((ParseUint_ok_iff _ 32 (by norm_num) u).mp hp).2.1
        have hlen : 0 < s.length := List.length_pos.mpr hne
        have hdrop := ih (s.drop 8) _ (by simp only [List.length_drop]; omega) h
        intro c hc
        rw [← List.take_append_drop 8 s] at hc
        rcases List.mem_append.mp hc with h1 | h2
        · exact htake c h1
        · exact hdrop c h2

theorem parseIPv4_ok {s : GoString} {r : IP} (h : parseIPv4 s = .ok r) : isHexString s := by
  unfold parseIPv4 at h
  cases hp : ParseUint s 16 32 with
  | error e => simp [hp] at h
  | ok v => exact ((ParseUint_ok_iff _ 32 (by norm_num) v).mp hp).2.1

/-- The shape of `parseAddr` in terms of the part before the first colon and
the part between the first and the second colon. -/
theorem parseAddr_eq (s : GoString) :
    parseAddr s =
      match after s ':' with
      | none => .error (.errorString ("netstat: not enough fields: ".toList ++ s))
      | some rest =>
        match (if len (before s ':') = 8 then parseIPv4 (before s ':')
          else if len (before s ':') = 32 then parseIPv6 (before s ':')
          else .error (.errorString
            ("netstat: bad formatted string: ".toList ++ before s ':'))) with
        | .error err => .error err
        | .ok ip =>
          match ParseUint (before rest ':') 16 16 with
          | .error err => .error err
          | .ok v => .ok (ip, v % 2 ^ 16) := by
  cases ha : after s ':' with
  | none =>
    have hno := (after_eq_none_iff s ':').mp ha
    simp [parseAddr, Split_no_sep s ':' hno]
  | some rest =>
    have hs : Split s ':' = before s ':' :: before rest ':' ::
        (match after rest ':' with
          | none => []
          | some r => Split r ':') := by
      rw [Split_eq s ':', ha]
      simp only
      rw [Split_eq rest ':']
    generalize (match after rest ':' with
      | none => []
      | some r => Split r ':') = tl at hs
    unfold parseAddr
    rw [hs]
    have h2 : ¬ ((before s ':' :: before rest ':' :: tl).length < 2) := by
      simp only [List.length_cons]
      omega
    simp only [h2, if_false]
    rfl
theorem after_append_sep (a b : GoString) (sep : Char) (h : sep ∉ a) :
    after (a ++ sep :: b) sep = some b := by
  induction a with
  | nil => simp [after]
  | cons c cs ih =>
    have hc : c ≠ sep := fun e => h (by simp [e])
    simp [after, hc, ih (fun hm => h (List.mem_cons_of_mem _ hm))]

theorem parseAddr_ok_address {s : GoString} {r : IP × Nat} (h : parseAddr s = .ok r) :
    ':' ∈ s ∧ isHexString (before s ':') ∧
      (len (before s ':') = 8 ∨ len (before s ':') = 32) := by
  rw [parseAddr_eq] at h
  cases ha : after s ':' with
  | none => simp [ha] at h
  | some rest =>
    simp only [ha] at h
    have hcolon : ':' ∈ s := by
      by_contra hno
      rw [(after_eq_none_iff s ':').mpr hno] at ha
      exact Option.noConfusion ha
    refine ⟨hcolon, ?_⟩
    by_cases h8 : len (before s ':') = 8
    · simp only [h8, if_true] at h
      cases hp : parseIPv4 (before s ':') with
      | error e => simp [hp] at h
      | ok ip => exact ⟨parseIPv4_ok hp, Or.inl h8⟩
    · by_cases h32 : len (before s ':') = 32
      · simp only [h8, h32, if_true, if_false] at h
        cases hp : parseIPv6 (before s ':') with
        | error e => simp [hp] at h
        | ok ip => exact ⟨parseIPv6Loop_ok _ _ _ _ (le_refl _) hp, Or.inr h32⟩
      · simp [h8, h32] at h

/-- C11: `parseAddr` returns an error, and no address, for every string without a
colon, for every string whose part before the first colon has a length (in bytes,
or in characters) other than 8 and 32, and for every string whose part before the
first colon contains a character that is not a hexadecimal digit. -/
theorem parseAddr_rejects_malformed_address (s : GoString) :
    (':' ∉ s → ∃ err, parseAddr s = .error err) ∧
    (len (before s ':') ≠ 8 → len (before s ':') ≠ 32 →
      ∃ err, parseAddr s = .error err) ∧
    ((before s ':').length ≠ 8 → (before s ':').length ≠ 32 →
      ∃ err, parseAddr s = .error err) ∧
    (¬ isHexString (before s ':') → ∃ err, parseAddr s = .error err) := by
  have key : (∀ r, parseAddr s ≠ .ok r) → ∃ err, parseAddr s = .error err := by
    intro h
    cases hp : parseAddr s with
    | error err => exact ⟨err, rfl⟩
    | ok r => exact absurd hp (h r)
  refine ⟨fun h => key ?_, fun h8 h32 => key ?_, fun h8 h32 => key ?_, fun h => key ?_⟩
  · intro r hr
    exact h (parseAddr_ok_address hr).1
  · intro r hr
    rcases (parseAddr_ok_address hr).2.2 with e | e
    · exact h8 e
    · exact h32 e
  · intro r hr
    obtain ⟨_, hhex, hl⟩ := parseAddr_ok_address hr
    rw [len_hex _ hhex] at hl
    rcases hl with e | e
    · exact h8 e
    · exact h32 e
  · intro r hr
    exact h (parseAddr_ok_address hr).2.1

theorem parseAddr_valid_address (a p : GoString) (ha : isHexString a)
    (hlen : a.length = 8 ∨ a.length = 32) :
    ∃ ip, parseAddr (a ++ ':' :: p) =
      match ParseUint (before p ':') 16 16 with
      | .error err => .error err
      | .ok v => .ok (ip, v % 2 ^ 16) := by
  have hno := isHexString_no_colon a ha
  have hl := len_hex a ha
  rw [parseAddr_eq, after_append_sep a p ':' hno, before_append_sep a p ':' hno]
  rcases hlen with h8 | h32
  · refine ⟨[hexValue a % 256, hexValue a / 2 ^ 8 % 256, hexValue a / 2 ^ 16 % 256,
      hexValue a / 2 ^ 24], ?_⟩
    simp only [hl, h8, if_true, parseIPv4_hex a h8 ha]
  · refine ⟨leBytes (hexValue (hexGroup a 0)) ++ leBytes (hexValue (hexGroup a 1)) ++
      leBytes (hexValue (hexGroup a 2)) ++ leBytes (hexValue (hexGroup a 3)), ?_⟩
    have hne : ¬ ((32 : Nat) = 8) := by decide
    simp only [hl, h32, hne, if_true, if_false, parseIPv6_hex a h32 ha]

/-- C12, as amended: after a valid address part `a`, `parseAddr (a ++ ":" ++ p)`
succeeds exactly when the part of `p` before its first colon (all of `p` when it
has none) is a non-empty string of hexadecimal digits of value at most 65535, and
the returned port is that value; so for `p` without a colon it succeeds exactly
when `p` is such a string, and an empty, non-hexadecimal or too large port is an
error. -/
theorem parseAddr_port_iff (a p : GoString) (ha : isHexString a)
    (hlen : a.length = 8 ∨ a.length = 32) :
    ((∃ r, parseAddr (a ++ ':' :: p) = .ok r) ↔ validHexPort (before p ':')) ∧
    (∀ ip port, parseAddr (a ++ ':' :: p) = .ok (ip, port) →
      port = hexValue (before p ':')) ∧
    (¬ validHexPort (before p ':') → ∃ err, parseAddr (a ++ ':' :: p) = .error err) ∧
    (':' ∉ p → ((∃ r, parseAddr (a ++ ':' :: p) = .ok r) ↔ validHexPort p)) := by
  obtain ⟨ip0, heq⟩ := parseAddr_valid_address a p ha hlen
  have hiff : (∃ r, parseAddr (a ++ ':' :: p) = .ok r) ↔ validHexPort (before p ':') := by
    rw [heq]
    constructor
    · rintro ⟨r, hr⟩
      cases hu : ParseUint (before p ':') 16 16 with
      | error e => simp [hu] at hr
      | ok v =>
        obtain ⟨h1, h2, h3, _⟩ := (ParseUint_ok_iff _ 16 (by norm_num) v).mp hu
        exact ⟨h1, h2, h3⟩
    · intro hv
      rw [ParseUint_port _ hv]
      exact ⟨_, rfl⟩
  refine ⟨hiff, ?_, ?_, ?_⟩
  · intro ip port hr
    rw [heq] at hr
    cases hu : ParseUint (before p ':') 16 16 with
    | error e => simp [hu] at hr
    | ok v =>
      obtain ⟨_, _, h3, h4⟩ := (ParseUint_ok_iff _ 16 (by norm_num) v).mp hu
      simp only [hu, Except.ok.injEq, Prod.mk.injEq] at hr
      rw [← hr.2, h4, Nat.mod_eq_of_lt h3]
  · intro hnv
    cases hp : parseAddr (a ++ ':' :: p) with
    | error err => exact ⟨err, rfl⟩
    | ok r => exact absurd (hiff.mp ⟨r, hp⟩) hnv
  · intro hno
    rw [hiff, before_of_not_mem p ':' hno]

theorem parseAddr_port_iff_witness :
    ((∃ r, parseAddr ("0100007F".toList ++ ':' :: "1F90:zz".toList) = .ok r) ↔
      validHexPort (before "1F90:zz".toList ':')) ∧
    (∀ ip port, parseAddr ("0100007F".toList ++ ':' :: "1F90:zz".toList) = .ok (ip, port) →
      port = hexValue (before "1F90:zz".toList ':')) ∧
    (¬ validHexPort (before "1F90:zz".toList ':') →
      ∃ err, parseAddr ("0100007F".toList ++ ':' :: "1F90:zz".toList) = .error err) ∧
    (':' ∉ "1F90:zz".toList →
      ((∃ r, parseAddr ("0100007F".toList ++ ':' :: "1F90:zz".toList) = .ok r) ↔
        validHexPort "1F90:zz".toList)) :=
  parseAddr_port_iff "0100007F".toList "1F90:zz".toList (by decide) (by decide)

/-- C12 as stated fails: after the valid address part `0100007F`, the port string
`0050:zz` is not a string of hexadecimal digits, and `parseAddr` succeeds on
`0100007F:0050:zz` with port 80. -/
theorem parseAddr_port_colon_counterexample :
    ¬ ∀ a p : GoString, isHexString a → (a.length = 8 ∨ a.length = 32) →
      ((∃ r, parseAddr (a ++ ':' :: p) = .ok r) ↔ validHexPort p) := by
  intro h
  have hp : parseAddr ("0100007F".toList ++ ':' :: "0050:zz".toList) =
      .ok ([127, 0, 0, 1], 80) := by decide
  have hv := (h "0100007F".toList "0050:zz".toList (by decide) (by decide)).mp ⟨_, hp⟩
  exact absurd hv (by decide)

/-- C20: `parseAddr` ignores everything after a second colon.  For an address part
`a` and a port part `p` without colon and any text `rest`, `parseAddr` returns the
same result (address and port, or error) on `a:p:rest` as on `a:p`; in particular
`a:p:rest` is accepted whenever `a:p` is. -/
theorem parseAddr_ignores_after_second_colon (a p rest : GoString) (ha : ':' ∉ a)
    (hp : ':' ∉ p) :
    parseAddr (a ++ ':' :: (p ++ ':' :: rest)) = parseAddr (a ++ ':' :: p) ∧
    (∀ r, parseAddr (a ++ ':' :: p) = .ok r →
      parseAddr (a ++ ':' :: (p ++ ':' :: rest)) = .ok r) := by
  have heq : parseAddr (a ++ ':' :: (p ++ ':' :: rest)) = parseAddr (a ++ ':' :: p) := by
    rw [parseAddr_eq, parseAddr_eq (a ++ ':' :: p), after_append_sep a _ ':' ha,
      after_append_sep a p ':' ha, before_append_sep a _ ':' ha, before_append_sep a p ':' ha]
    simp only [before_append_sep p rest ':' hp, before_of_not_mem p ':' hp]
  exact ⟨heq, fun r hr => by rw [heq, hr]⟩

theorem parseAddr_ignores_after_second_colon_witness :
    parseAddr ("0100007F".toList ++ ':' :: ("1F90".toList ++ ':' :: "zz:1".toList)) =
      parseAddr ("0100007F".toList ++ ':' :: "1F90".toList) ∧
    (∀ r, parseAddr ("0100007F".toList ++ ':' :: "1F90".toList) = .ok r →
      parseAddr ("0100007F".toList ++ ':' :: ("1F90".toList ++ ':' :: "zz:1".toList)) = .ok r) :=
  parseAddr_ignores_after_second_colon "0100007F".toList "1F90".toList "zz:1".toList
    (by decide) (by decide)

theorem cell_countLines_insert (asns : List asnRecord) (pre post : List GoString)
    (line : GoString) (o₁ s₁ : GoString)
    (hwf : ∀ l ∈ pre ++ line :: post, wellFormed l)
    (hn : (pre ++ line :: post).length < 2 ^ 64)
    (hc : lineCell asns line = some (o₁, s₁)) (o s : GoString) :
    cell (countLines asns GoMap.empty (pre ++ line :: post)) o s =
      if o = o₁ ∧ s = s₁ then
        some ((cell (countLines asns GoMap.empty (pre ++ post)) o s).getD 0 + 1)
      else cell (countLines asns GoMap.empty (pre ++ post)) o s := by
  have hwf₀ : ∀ l ∈ pre ++ post, wellFormed l := by
    intro l hl
    apply hwf l
    simp only [List.mem_append, List.mem_cons] at hl ⊢
    tauto
  have hn₀ : (pre ++ post).length < 2 ^ 64 := by
    simp only [List.length_append, List.length_cons] at hn ⊢
    omega
  rw [cell_countLines_empty asns _ hwf hn, cell_countLines_empty asns _ hwf₀ hn₀,
    List.countP_append, List.countP_cons, List.countP_append, hc]
  generalize List.countP _ pre = a
  generalize List.countP _ post = b
  by_cases hos : o = o₁ ∧ s = s₁
  · have e : (o₁, s₁) = (o, s) := by rw [hos.1, hos.2]
    have h1 : ¬ (a + (b + 1) = 0) := by omega
    simp only [e, decide_True, if_true, h1, if_false, hos, and_self]
    by_cases hab : a + b = 0
    · have ha : a = 0 := by omega
      have hb : b = 0 := by omega
      simp [ha, hb]
    · simp only [hab, if_false, Option.getD_some, Option.some.injEq]
      omega
  · have hne : ¬ ((o₁, s₁) = (o, s)) := by
      intro e
      simp only [Prod.mk.injEq] at e
      exact hos ⟨e.1.symm, e.2.symm⟩
    have hd : decide (some (o₁, s₁) = some (o, s)) = false := by
      apply decide_eq_false
      intro e
      exact hne (Option.some.inj e)
    simp only [hd, hos, if_false, Bool.false_eq_true, Nat.add_zero]

/-- C13, as amended: in an input of well-formed lines, all shorter than the 65536
bytes of the scanner's buffer, a data line with a socket record whose
state field is the hexadecimal text of a value `k` from 0 to 11 is counted under
the `k`-th name (from 0) of the table UNKNOWN, ESTABLISHED, SYN_SENT, SYN_RECV,
FIN_WAIT1, FIN_WAIT2, TIME_WAIT, _close, CLOSE_WAIT, LAST_ACK, LISTEN, CLOSING:
compared with the table of the input without that line, the cell (owner of the
line, `k`-th name) is one higher and every other cell is the same.  The field `0A`
(10) is counted as LISTEN and `01` (1) as ESTABLISHED. -/
theorem parseSocketStats_state_name (r r₀ : Reader) (asns : List asnRecord)
    (hdr : GoString) (pre : List GoString) (line : GoString) (post : List GoString)
    (ip : IP) (k : Nat)
    (hlines : textLines r.data = hdr :: (pre ++ line :: post))
    (hlines₀ : textLines r₀.data = hdr :: (pre ++ post))
    (hfit : fitsScanner r.data) (hfit₀ : fitsScanner r₀.data)
    (hwf : ∀ l ∈ pre ++ post, wellFormed l)
    (hn : (pre ++ line :: post).length < 2 ^ 64)
    (hrec : lineRecord line = some (ip, k)) (hk : k ≤ 11) :
    ∃ t t₀ name,
      isHexString ((lineFields line).getD 3 []) ∧ hexValue ((lineFields line).getD 3 []) = k ∧
      ["UNKNOWN".toList, "ESTABLISHED".toList, "SYN_SENT".toList, "SYN_RECV".toList,
        "FIN_WAIT1".toList, "FIN_WAIT2".toList, "TIME_WAIT".toList, "_close".toList,
        "CLOSE_WAIT".toList, "LAST_ACK".toList, "LISTEN".toList, "CLOSING".toList].get? k =
          some name ∧
      (k = 10 → name = "LISTEN".toList) ∧ (k = 1 → name = "ESTABLISHED".toList) ∧
      lineCell asns line = some (ownerOf asns ip, name) ∧
      parseSocketStats r₀ asns = .returns (some t₀, r₀.err) ∧
      parseSocketStats r asns = .returns (some t, r.err) ∧
      ∀ o s, cell t o s =
        if o = ownerOf asns ip ∧ s = name then some ((cell t₀ o s).getD 0 + 1)
        else cell t₀ o s := by
  have hwl : wellFormed line := wellFormed_of_lineRecord hrec (by omega)
  have hwf' : ∀ l ∈ pre ++ line :: post, wellFormed l := by
    intro l hl
    simp only [List.mem_append, List.mem_cons] at hl
    rcases hl with h | h | h
    · exact hwf l (by simp [h])
    · rw [h]; exact hwl
    · exact hwf l (by simp [h])
  obtain ⟨ip', u', name, hrec', _, hst, hc⟩ := wellFormed_lineCell asns line hwl
  rw [hrec] at hrec'
  simp only [Option.some.injEq, Prod.mk.injEq] at hrec'
  obtain ⟨rfl, rfl⟩ := hrec'
  obtain ⟨_, _, hu⟩ := lineRecord_eq_some hrec
  obtain ⟨_, hhex, _, hval⟩ := (ParseUint_ok_iff _ 8 (by norm_num) k).mp hu
  refine ⟨countLines asns GoMap.empty (pre ++ line :: post),
    countLines asns GoMap.empty (pre ++ post), name, hhex, hval.symm, hst, ?_, ?_, hc, ?_, ?_,
    cell_countLines_insert asns pre post line _ _ hwf' hn hc⟩
  · intro e
    subst e
    exact (Option.some.inj hst).symm
  · intro e
    subst e
    exact (Option.some.inj hst).symm
  · rw [parseSocketStats_of_lines r₀ asns hdr _ hlines₀ hfit₀, loop_wellFormed asns _ _ _ hwf]
  · rw [parseSocketStats_of_lines r asns hdr _ hlines hfit, loop_wellFormed asns _ _ _ hwf']

theorem parseSocketStats_state_name_witness :
    ∃ t t₀ name,
      isHexString ((lineFields listenLine).getD 3 []) ∧
      hexValue ((lineFields listenLine).getD 3 []) = 10 ∧
      ["UNKNOWN".toList, "ESTABLISHED".toList, "SYN_SENT".toList, "SYN_RECV".toList,
        "FIN_WAIT1".toList, "FIN_WAIT2".toList, "TIME_WAIT".toList, "_close".toList,
        "CLOSE_WAIT".toList, "LAST_ACK".toList, "LISTEN".toList, "CLOSING".toList].get? 10 =
          some name ∧
      (10 = 10 → name = "LISTEN".toList) ∧ (10 = 1 → name = "ESTABLISHED".toList) ∧
      lineCell sampleAsns listenLine = some (ownerOf sampleAsns [127, 0, 0, 1], name) ∧
      parseSocketStats sampleTableWithout sampleAsns = .returns (some t₀, none) ∧
      parseSocketStats sampleTableSwapped sampleAsns = .returns (some t, none) ∧
      ∀ o s, cell t o s =
        if o = ownerOf sampleAsns [127, 0, 0, 1] ∧ s = name then
          some ((cell t₀ o s).getD 0 + 1)
        else cell t₀ o s :=
  parseSocketStats_state_name sampleTableSwapped sampleTableWithout sampleAsns tableHeader
    [establishedLine] listenLine [establishedLine] [127, 0, 0, 1] 10
    (by decide) (by decide) (by decide) (by decide) (by decide) (by decide) (by decide)
    (by decide)

theorem take_indexOf_eq_before (s : GoString) (sep : Char) :
    s.take (s.indexOf sep) = before s sep := by
  induction s with
  | nil => rfl
  | cons c cs ih =>
    by_cases hc : c = sep
    · subst hc
      simp [before, List.indexOf_cons]
    · simp [before, List.indexOf_cons, hc, ih]

theorem lineFields_eq (line : GoString) : lineFields line = Fields (before line '#') := by
  unfold lineFields Index
  by_cases h : '#' ∈ line
  · have hnn : ((List.indexOf '#' line : Nat) : Int) ≥ 0 := Int.ofNat_nonneg _
    simp only [h, if_true, hnn, Int.toNat_ofNat, take_indexOf_eq_before]
  · have hneg : ¬ ((-1 : Int) ≥ 0) := by decide
    simp only [h, if_false, hneg, before_of_not_mem line '#' h]

theorem loop_congr (asns : List asnRecord) (scanErr : Option GoError) (ls ls' : List GoString)
    (t : CountTable) (h : ls.map lineFields = ls'.map lineFields) :
    parseSocketStatsLoop asns scanErr ls t = parseSocketStatsLoop asns scanErr ls' t := by
  induction ls generalizing ls' t with
  | nil =>
    cases ls' with
    | nil => rfl
    | cons a l => simp at h
  | cons a l ih =>
    cases ls' with
    | nil => simp at h
    | cons a' l' =>
      simp only [List.map_cons, List.cons.injEq] at h
      rw [loop_cons, loop_cons, h.1]
      split
      · rfl
      · split
        · rfl
        · split
          · rfl
          · split
            · rfl
            · exact ih l' _ h.2

theorem parseSocketStats_first_line (h rest : GoString) (err : Option GoError) (flag : Bool)
    (asns : List asnRecord) (hh : '\n' ∉ h) (hlen : len h < MaxScanTokenSize) :
    parseSocketStats ⟨h ++ '\n' :: rest, err, flag⟩ asns =
      parseSocketStatsLoop asns
        (match (scanLoop flag rest [] 0).2 with
          | none => err
          | some _ => some ErrTooLong)
        (scanLoop flag rest [] 0).1 GoMap.empty := by
  have hs : Scan ⟨h ++ '\n' :: rest, err, flag⟩ =
      (dropCR h :: (scanLoop flag rest [] 0).1, (scanLoop flag rest [] 0).2) := by
    have := scanLoop_line flag h rest [] 0 hh (by omega)
    rw [List.nil_append] at this
    exact this
  unfold parseSocketStats
  rw [hs]
  cases (scanLoop flag rest [] 0).2 <;> rfl

/-- C18, as amended: the header is skipped unconditionally.  Two inputs that
differ in their first line only give the same result (table or error), whatever
the first lines are, provided both are shorter than the 65536 bytes of the scanner's
buffer, and whatever text follows; an empty input, and an input that consists of
such a first line only (ended by a newline or not), gives an empty table and no
error of the parser (the second result is the reader's error, nil for an input
read to its end). -/
theorem parseSocketStats_header_skipped (h h' rest : GoString) (err : Option GoError)
    (flag : Bool) (asns : List asnRecord) (hh : '\n' ∉ h) (hh' : '\n' ∉ h')
    (hlen : len h < MaxScanTokenSize) (hlen' : len h' < MaxScanTokenSize) :
    parseSocketStats ⟨h ++ '\n' :: rest, err, flag⟩ asns =
      parseSocketStats ⟨h' ++ '\n' :: rest, err, flag⟩ asns ∧
    parseSocketStats ⟨h ++ ['\n'], err, flag⟩ asns = .returns (some GoMap.empty, err) ∧
    parseSocketStats ⟨h, err, flag⟩ asns = .returns (some GoMap.empty, err) ∧
    parseSocketStats ⟨[], err, flag⟩ asns = .returns (some GoMap.empty, err) := by
  refine ⟨?_, ?_, ?_, rfl⟩
  · rw [parseSocketStats_first_line h rest err flag asns hh hlen,
      parseSocketStats_first_line h' rest err flag asns hh' hlen']
  · rw [parseSocketStats_first_line h [] err flag asns hh hlen]
    rfl
  · have hs : Scan ⟨h, err, flag⟩ = (if h = [] then [] else [dropCR h], none) := by
      have := scanLoop_last flag h [] 0 hh (by omega)
      rw [List.nil_append] at this
      exact this
    unfold parseSocketStats
    rw [hs]
    by_cases he : h = [] <;> simp only [he, if_true, if_false] <;> rfl

theorem parseSocketStats_header_skipped_witness :
    parseSocketStats ⟨tableHeader ++ '\n' :: unlines [listenLine, establishedLine], none, false⟩
        sampleAsns =
      parseSocketStats ⟨shortLine ++ '\n' :: unlines [listenLine, establishedLine], none, false⟩
        sampleAsns ∧
    parseSocketStats ⟨tableHeader ++ ['\n'], none, false⟩ sampleAsns =
      .returns (some GoMap.empty, none) ∧
    parseSocketStats ⟨tableHeader, none, false⟩ sampleAsns = .returns (some GoMap.empty, none) ∧
    parseSocketStats ⟨[], none, false⟩ sampleAsns = .returns (some GoMap.empty, none) :=
  parseSocketStats_header_skipped tableHeader shortLine (unlines [listenLine, establishedLine])
    none false sampleAsns (by decide) (by decide) (by decide) (by decide)

theorem fieldsAux_append_cr (s cur : GoString) :
    fieldsAux (s ++ ['\r']) cur = fieldsAux s cur := by
  induction s generalizing cur with
  | nil =>
    have h : isSpace '\r' = true := by decide
    simp [fieldsAux, h]
  | cons c s ih =>
    have e : (c :: s) ++ ['\r'] = c :: (s ++ ['\r']) := rfl
    rw [e]
    simp only [fieldsAux, ih]

theorem dropCR_eq (s : GoString) : dropCR s = s ∨ s = dropCR s ++ ['\r'] := by
  unfold dropCR
  by_cases h : s.getLast? = some '\r'
  · right
    simp only [h, if_true]
    have hne : s ≠ [] := by
      intro e
      rw [e] at h
      simp at h
    have := List.dropLast_append_getLast hne
    rw [List.getLast?_eq_getLast _ hne] at h
    rw [Option.some.inj h] at this
    exact this.symm
  · left
    simp only [h, if_false]

theorem Fields_dropCR (s : GoString) : Fields (dropCR s) = Fields s := by
  rcases dropCR_eq s with h | h
  · rw [h]
  · conv_rhs => rw [h]
    exact (fieldsAux_append_cr _ _).symm

theorem dropCR_append_cons (a : GoString) (x : Char) (c : GoString) (hx : x ≠ '\r') :
    ∃ c', dropCR (a ++ x :: c) = a ++ x :: c' := by
  rcases dropCR_eq (a ++ x :: c) with h | h
  · exact ⟨c, h⟩
  · rcases List.eq_nil_or_concat c with hc | ⟨c₀, y, hc⟩
    · subst hc
      have h' : (a ++ [x]) = dropCR (a ++ [x]) ++ ['\r'] := h
      have := congrArg List.getLast? h'
      simp at this
      exact absurd this hx
    · subst hc
      have e : a ++ x :: c₀.concat y = (a ++ x :: c₀) ++ [y] := by simp
      rw [e] at h ⊢
      have h1 := List.append_inj_left' h (by simp)
      exact ⟨c₀, h1.symm⟩

theorem lineFields_dropCR_comment (L c : GoString) (hL : '#' ∉ L) :
    lineFields (dropCR (L ++ '#' :: c)) = Fields L := by
  obtain ⟨c', hc'⟩ := dropCR_append_cons L '#' c (by decide)
  rw [hc', lineFields_eq, before_append_sep L c' '#' hL]

theorem lineFields_dropCR (L : GoString) (hL : '#' ∉ L) :
    lineFields (dropCR L) = Fields L := by
  have hsub : '#' ∉ dropCR L := by
    intro h
    apply hL
    unfold dropCR at h
    split at h
    · exact List.mem_of_mem_dropLast h
    · exact h
  rw [lineFields_eq, before_of_not_mem _ '#' hsub, Fields_dropCR]

theorem parseSocketStats_congr (r r' : Reader) (asns : List asnRecord)
    (toks toks' : List GoString) (e : Option GoString) (hs : Scan r = (toks, e))
    (hs' : Scan r' = (toks', e)) (herr : r.err = r'.err)
    (hfields : toks.map lineFields = toks'.map lineFields) :
    parseSocketStats r asns = parseSocketStats r' asns := by
  unfold parseSocketStats
  rw [hs, hs', herr]
  cases toks with
  | nil =>
    cases toks' with
    | nil => rfl
    | cons a l => simp at hfields
  | cons a l =>
    cases toks' with
    | nil => simp at hfields
    | cons a' l' =>
      simp only [List.map_cons, List.cons.injEq] at hfields
      cases e with
      | none => exact loop_congr asns _ l l' _ hfields.2
      | some buf => exact loop_congr asns _ l l' _ hfields.2

theorem Scan_replace_line (flag : Bool) (err : Option GoError) (a b l l' : GoString)
    (hl : '\n' ∉ l) (hl' : '\n' ∉ l') (hlen : len l < MaxScanTokenSize)
    (hlen' : len l' < MaxScanTokenSize) :
    ∃ pre post e,
      Scan ⟨a ++ '\n' :: (l ++ '\n' :: b), err, flag⟩ = (pre ++ post, e) ∧
      Scan ⟨a ++ '\n' :: (l' ++ '\n' :: b), err, flag⟩ = (pre ++ post, e) ∨
      Scan ⟨a ++ '\n' :: (l ++ '\n' :: b), err, flag⟩ = (pre ++ dropCR l :: post, e) ∧
      Scan ⟨a ++ '\n' :: (l' ++ '\n' :: b), err, flag⟩ = (pre ++ dropCR l' :: post, e) := by
  unfold Scan
  simp only
  rw [scanLoop_append_line flag a (l ++ '\n' :: b), scanLoop_append_line flag a (l' ++ '\n' :: b)]
  have h1 := scanLoop_line flag l b [] 0 hl (by omega)
  have h2 := scanLoop_line flag l' b [] 0 hl' (by omega)
  rw [List.nil_append] at h1 h2
  rcases hp : scanLoop flag (a ++ ['\n']) [] 0 with ⟨ls, _ | buf⟩
  · exact ⟨ls, (scanLoop flag b [] 0).1, (scanLoop flag b [] 0).2, Or.inr (by simp [h1, h2])⟩
  · exact ⟨ls, [], some buf, Or.inl (by simp)⟩

theorem Scan_replace_last (flag : Bool) (err : Option GoError) (a l l' : GoString)
    (hl : '\n' ∉ l) (hl' : '\n' ∉ l') (hne : l ≠ []) (hne' : l' ≠ [])
    (hlen : len l < MaxScanTokenSize) (hlen' : len l' < MaxScanTokenSize) :
    ∃ pre post e,
      Scan ⟨a ++ '\n' :: l, err, flag⟩ = (pre ++ post, e) ∧
      Scan ⟨a ++ '\n' :: l', err, flag⟩ = (pre ++ post, e) ∨
      Scan ⟨a ++ '\n' :: l, err, flag⟩ = (pre ++ dropCR l :: post, e) ∧
      Scan ⟨a ++ '\n' :: l', err, flag⟩ = (pre ++ dropCR l' :: post, e) := by
  unfold Scan
  simp only
  rw [scanLoop_append_line flag a l, scanLoop_append_line flag a l']
  have h1 := scanLoop_last flag l [] 0 hl (by omega)
  have h2 := scanLoop_last flag l' [] 0 hl' (by omega)
  rw [List.nil_append] at h1 h2
  simp only [hne, hne', if_false] at h1 h2
  rcases hp : scanLoop flag (a ++ ['\n']) [] 0 with ⟨ls, _ | buf⟩
  · exact ⟨ls, [], none, Or.inr (by simp [h1, h2])⟩
  · exact ⟨ls, [], some buf, Or.inl (by simp)⟩

theorem parseSocketStats_replace (r r' : Reader) (asns : List asnRecord) (l l' : GoString)
    (herr : r.err = r'.err) (hf : lineFields (dropCR l) = lineFields (dropCR l'))
    (h : ∃ pre post e,
      Scan r = (pre ++ post, e) ∧ Scan r' = (pre ++ post, e) ∨
      Scan r = (pre ++ dropCR l :: post, e) ∧ Scan r' = (pre ++ dropCR l' :: post, e)) :
    parseSocketStats r asns = parseSocketStats r' asns := by
  obtain ⟨pre, post, e, ⟨h1, h2⟩ | ⟨h1, h2⟩⟩ := h
  · exact parseSocketStats_congr r r' asns _ _ e h1 h2 herr rfl
  · exact parseSocketStats_congr r r' asns _ _ e h1 h2 herr
      (by simp only [List.map_append, List.map_cons, hf])

/-- C19, as amended: inline comment stripping.  For a data line `L` without `#`
and any text `c` without line break such that `L ++ "#" ++ c` is shorter than the
65536 bytes of the scanner's buffer, the fields of `L ++ "#" ++ c` are the fields of
`L`, and replacing `L` by `L ++ "#" ++ c` in the input, whatever stands before and
after the line, does not change the result of `parseSocketStats` (for `L` ended by
a newline, and for a non-empty `L` at the end of the input).  Fields come from the
text before the first `#` only: when that text has fewer than 12 fields the line
is rejected as having too few fields, whatever stands after the `#`. -/
theorem parseSocketStats_comment_stripped (L c : GoString) (hL : '#' ∉ L) (hLn : '\n' ∉ L)
    (hc : '\n' ∉ c) (hfit : len (L ++ '#' :: c) < MaxScanTokenSize) :
    lineFields (L ++ '#' :: c) = Fields L ∧ lineFields L = Fields L ∧
    (∀ (a b : GoString) (err : Option GoError) (flag : Bool) (asns : List asnRecord),
      parseSocketStats ⟨a ++ '\n' :: (L ++ '\n' :: b), err, flag⟩ asns =
        parseSocketStats ⟨a ++ '\n' :: ((L ++ '#' :: c) ++ '\n' :: b), err, flag⟩ asns) ∧
    (∀ (a : GoString) (err : Option GoError) (flag : Bool) (asns : List asnRecord), L ≠ [] →
      parseSocketStats ⟨a ++ '\n' :: L, err, flag⟩ asns =
        parseSocketStats ⟨a ++ '\n' :: (L ++ '#' :: c), err, flag⟩ asns) ∧
    ((Fields L).length < 12 →
      lineRecord (L ++ '#' :: c) = none ∧
      ∀ (r : Reader) (asns : List asnRecord) (hdr : GoString) (pre post : List GoString),
        textLines r.data = hdr :: (pre ++ (L ++ '#' :: c) :: post) →
        fitsScanner r.data →
        (∀ l ∈ pre, wellFormed l) →
        parseSocketStats r asns = .returns (none, some (.errorString
          ("netstat: not enough fields: ".toList ++ Nat.toDigits 10 (Fields L).length ++
            ", ".toList ++ fmtStrings (Fields L))))) := by
  have h1 : lineFields (L ++ '#' :: c) = Fields L := by
    rw [lineFields_eq, before_append_sep L c '#' hL]
  have h2 : lineFields L = Fields L := by
    rw [lineFields_eq, before_of_not_mem L '#' hL]
  have hLc : '\n' ∉ L ++ '#' :: c := by
    simp only [List.mem_append, List.mem_cons, not_or]
    exact ⟨hLn, by decide, hc⟩
  have hlenL : len L < MaxScanTokenSize := by
    rw [len_append] at hfit
    omega
  have hf : lineFields (dropCR L) = lineFields (dropCR (L ++ '#' :: c)) := by
    rw [lineFields_dropCR L hL, lineFields_dropCR_comment L c hL]
  refine ⟨h1, h2, ?_, ?_, ?_⟩
  · intro a b err flag asns
    exact parseSocketStats_replace _ _ asns L (L ++ '#' :: c) rfl hf
      (Scan_replace_line flag err a b L (L ++ '#' :: c) hLn hLc hlenL hfit)
  · intro a err flag asns hne
    exact parseSocketStats_replace _ _ asns L (L ++ '#' :: c) rfl hf
      (Scan_replace_last flag err a L (L ++ '#' :: c) hLn hLc hne (by simp) hlenL hfit)
  · intro hshort
    have hshort' : (lineFields (L ++ '#' :: c)).length < 12 := by rw [h1]; exact hshort
    refine ⟨lineRecord_of_short hshort', ?_⟩
    intro r asns hdr pre post hs hfitr hpre
    rw [parseSocketStats_of_lines r asns hdr _ hs hfitr,
      loop_append_wellFormed asns _ pre _ _ hpre, loop_cons]
    simp only [h1, hshort, if_true]

theorem parseSocketStats_comment_stripped_witness :
    lineFields (elevenFieldLine ++ '#' :: " 0000000000000000".toList) = Fields elevenFieldLine ∧
    lineFields elevenFieldLine = Fields elevenFieldLine ∧
    (∀ (a b : GoString) (err : Option GoError) (flag : Bool) (asns : List asnRecord),
      parseSocketStats ⟨a ++ '\n' :: (elevenFieldLine ++ '\n' :: b), err, flag⟩ asns =
        parseSocketStats
          ⟨a ++ '\n' :: ((elevenFieldLine ++ '#' :: " 0000000000000000".toList) ++ '\n' :: b),
            err, flag⟩ asns) ∧
    (∀ (a : GoString) (err : Option GoError) (flag : Bool) (asns : List asnRecord),
      elevenFieldLine ≠ [] →
      parseSocketStats ⟨a ++ '\n' :: elevenFieldLine, err, flag⟩ asns =
        parseSocketStats
          ⟨a ++ '\n' :: (elevenFieldLine ++ '#' :: " 0000000000000000".toList), err, flag⟩
          asns) ∧
    ((Fields elevenFieldLine).length < 12 →
      lineRecord (elevenFieldLine ++ '#' :: " 0000000000000000".toList) = none ∧
      ∀ (r : Reader) (asns : List asnRecord) (hdr : GoString) (pre post : List GoString),
        textLines r.data =
          hdr :: (pre ++ (elevenFieldLine ++ '#' :: " 0000000000000000".toList) :: post) →
        fitsScanner r.data →
        (∀ l ∈ pre, wellFormed l) →
        parseSocketStats r asns = .returns (none, some (.errorString
          ("netstat: not enough fields: ".toList ++
            Nat.toDigits 10 (Fields elevenFieldLine).length ++
            ", ".toList ++ fmtStrings (Fields elevenFieldLine))))) :=
  parseSocketStats_comment_stripped elevenFieldLine " 0000000000000000".toList (by decide)
    (by decide) (by decide) (by decide)

theorem To4_v4InV6 (a b c d : Nat) : To4 (v4InV6 a b c d) = some [a, b, c, d] := by
  simp [To4, v4InV6]

theorem To4_four (a b c d : Nat) : To4 [a, b, c, d] = some [a, b, c, d] := by
  simp [To4]

theorem Contains_v4InV6 (n : IPNet) (a b c d : Nat) :
    n.Contains (v4InV6 a b c d) = n.Contains [a, b, c, d] := by
  simp only [IPNet.Contains, To4_v4InV6, To4_four]

theorem findASN_v4InV6 (l : List asnRecord) (a b c d : Nat) :
    findASN l (v4InV6 a b c d) = findASN l [a, b, c, d] := by
  induction l with
  | nil => rfl
  | cons r l ih => simp only [findASN, Contains_v4InV6, ih]

/-- C17, as amended: an IPv4-mapped address `::ffff:a.b.c.d` is matched as the
IPv4 address `a.b.c.d`.  A network contains the 16-byte address exactly when it
contains the 4-byte one, so `findASN` returns the same record for both and a data
line towards the mapped address gets the owner of `a.b.c.d`; in particular an IPv4
range containing `a.b.c.d` does match the mapped address. -/
theorem findASN_mapped_as_ipv4 (l : List asnRecord) (a b c d : Nat) :
    (∀ n : IPNet, n.Contains (v4InV6 a b c d) = n.Contains [a, b, c, d]) ∧
    findASN l (v4InV6 a b c d) = findASN l [a, b, c, d] ∧
    ownerOf l (v4InV6 a b c d) = ownerOf l [a, b, c, d] ∧
    (∀ r ∈ l, r.IPNet.Contains [a, b, c, d] = true →
      ∃ r', findASN l (v4InV6 a b c d) = some r') ∧
    (∀ line u state, lineRecord line = some (v4InV6 a b c d, u) →
      socketStates.get? u = some state →
      lineCell l line = some (ownerOf l [a, b, c, d], state)) := by
  have hf := findASN_v4InV6 l a b c d
  refine ⟨fun n => Contains_v4InV6 n a b c d, hf, ?_, ?_, ?_⟩
  · simp only [ownerOf, hf]
  · intro r hr hc
    rw [hf]
    cases h : findASN l [a, b, c, d] with
    | some r' => exact ⟨r', rfl⟩
    | none =>
      have := (findASN_eq_none_iff l [a, b, c, d]).mp h r hr
      rw [hc] at this
      exact absurd this (by decide)
  · intro line u state hrec hst
    simp only [lineCell, hrec, hst, ownerOf, hf]

/-- C17 as stated fails: the IPv4 range 127.0.0.0/8 contains 127.0.0.1 and also
matches the mapped address `::ffff:127.0.0.1`, which is what the field
`0000000000000000FFFF00000100007F` decodes to, so the line towards it is counted
under the owner of the IPv4 range and not under `_other`. -/
theorem findASN_mapped_counterexample :
    parseAddr "0000000000000000FFFF00000100007F:0050".toList = .ok (v4InV6 127 0 0 1, 80) ∧
    loopbackAsn.IPNet.Contains [127, 0, 0, 1] = true ∧
    findASN [loopbackAsn] (v4InV6 127 0 0 1) = some loopbackAsn ∧
    lineCell [loopbackAsn] mappedLine = some ("loopback".toList, "ESTABLISHED".toList) ∧
    ¬ (∀ (a b c d : Nat) (n : IPNet), n.IP.length = 4 → n.Mask.length = 4 →
        n.Contains [a, b, c, d] = true → n.Contains (v4InV6 a b c d) = false) := by
  refine ⟨by decide, by decide, by decide, by decide, ?_⟩
  intro h
  have := h 127 0 0 1 loopbackAsn.IPNet rfl rfl (by decide)
  exact absurd this (by decide)

/-! ## The ASN table loader -/

theorem rowRecord_eq_some {p6 : GoString → Option IP} {row : List GoString} {rec : asnRecord}
    (h : rowRecord p6 row = some rec) :
    ¬ row.length < 5 ∧ rec.Name = row.getD 4 [] ∧
      ∃ ip, ParseCIDR p6 (row.getD 2 []) = .ok (ip, rec.IPNet) := by
  unfold rowRecord at h
  by_cases hlen : row.length < 5
  · rw [if_pos hlen] at h
    exact Option.noConfusion h
  · rw [if_neg hlen] at h
    cases hp : ParseCIDR p6 (row.getD 2 []) with
    | error e =>
      rw [hp] at h
      exact Option.noConfusion h
    | ok v =>
      obtain ⟨ip, ipnet⟩ := v
      rw [hp] at h
      simp only [Option.some.injEq] at h
      subst h
      exact ⟨hlen, rfl, ip, rfl⟩

theorem get?_eq_getD_of_lt (row : List GoString) (i : Nat) (h : i < row.length) :
    row.get? i = some (row.getD i []) := by
  rw [List.get?_eq_get h, List.getD_eq_getElem _ _ h]
  rfl

theorem asnLoop_cons_of_rowRecord (p6 : GoString → Option IP) (row : List GoString)
    (rest : List (List GoString)) (l : List asnRecord) (rec : asnRecord)
    (h : rowRecord p6 row = some rec) :
    parseAsnRecordsLoop p6 (row :: rest) l = parseAsnRecordsLoop p6 rest (l ++ [rec]) := by
  obtain ⟨hlen, hname, ip, hp⟩ := rowRecord_eq_some h
  have h2 := get?_eq_getD_of_lt row 2 (by omega)
  have h4 := get?_eq_getD_of_lt row 4 (by omega)
  obtain ⟨ipnet, name⟩ := rec
  simp only at hname hp
  subst hname
  simp only [parseAsnRecordsLoop, h2, hp, h4]

theorem validRow_rowRecord {p6 : GoString → Option IP} {row : List GoString}
    (h : validRow p6 row) : ∃ rec, rowRecord p6 row = some rec :=
  Option.isSome_iff_exists.mp h

theorem asnLoop_append_valid (p6 : GoString → Option IP) (pre rest : List (List GoString))
    (l : List asnRecord) (hpre : ∀ row ∈ pre, validRow p6 row) :
    parseAsnRecordsLoop p6 (pre ++ rest) l =
      parseAsnRecordsLoop p6 rest (l ++ pre.filterMap (rowRecord p6)) := by
  induction pre generalizing l with
  | nil => simp
  | cons row pre ih =>
    obtain ⟨rec, hrec⟩ := validRow_rowRecord (hpre row (by simp))
    rw [List.cons_append, asnLoop_cons_of_rowRecord p6 row _ l rec hrec,
      ih _ (fun x hx => hpre x (by simp [hx]))]
    simp [List.filterMap_cons, hrec]

theorem filterMap_rowRecord_valid (p6 : GoString → Option IP) (rows : List (List GoString))
    (h : ∀ row ∈ rows, validRow p6 row) :
    (rows.filterMap (rowRecord p6)).map some = rows.map (rowRecord p6) := by
  induction rows with
  | nil => rfl
  | cons row rows ih =>
    obtain ⟨rec, hrec⟩ := validRow_rowRecord (h row (by simp))
    simp [List.filterMap_cons, hrec, ih (fun x hx => h x (by simp [hx]))]

/-- C15: when field 2 of some row is not a valid CIDR text, `parseAsnRecords`
never returns a record list, whatever the other rows are; when the rows before it
are well-formed, it returns a nil list together with the error
`can not parse ip value: <field 2>: ...` wrapping the error of `net.ParseCIDR`,
however many well-formed rows precede and whatever follows. -/
theorem parseAsnRecords_bad_cidr (p6 : GoString → Option IP) (r : CsvReader)
    (pre : List (List GoString)) (bad : List GoString) (post : List (List GoString))
    (cidr : GoString) (err : GoError)
    (hrows : r.records = pre ++ bad :: post) (hfield : bad.get? 2 = some cidr)
    (hbad : ParseCIDR p6 cidr = .error err) :
    (∀ l e, parseAsnRecords p6 r ≠ .returns (some l, e)) ∧
    ((∀ row ∈ pre, validRow p6 row) →
      parseAsnRecords p6 r = .returns (none, some (.wrapError
        ("can not parse ip value: ".toList ++ cidr ++ ": ".toList) err))) := by
  have hstep : ∀ l, parseAsnRecordsLoop p6 (bad :: post) l = .returns (none, some (.wrapError
      ("can not parse ip value: ".toList ++ cidr ++ ": ".toList) err)) := by
    intro l
    simp only [parseAsnRecordsLoop, hfield, hbad]
  refine ⟨?_, ?_⟩
  · have key : ∀ (rows : List (List GoString)) (l₀ : List asnRecord) l e,
        parseAsnRecordsLoop p6 (rows ++ bad :: post) l₀ ≠ .returns (some l, e) := by
      intro rows
      induction rows with
      | nil =>
        intro l₀ l e h
        rw [List.nil_append, hstep] at h
        injection h with h
        injection h with h1 _
        exact Option.noConfusion h1
      | cons row rows ih =>
        intro l₀ l e h
        rw [List.cons_append] at h
        unfold parseAsnRecordsLoop at h
        split at h
        · exact Outcome.noConfusion h
        · split at h
          · injection h with h
            injection h with h1 _
            exact Option.noConfusion h1
          · split at h
            · exact Outcome.noConfusion h
            · exact ih _ l e h
    intro l e
    unfold parseAsnRecords
    rw [hrows]
    exact key pre [] l e
  · intro hpre
    unfold parseAsnRecords
    rw [hrows, asnLoop_append_valid p6 pre _ _ hpre, hstep]

theorem parseAsnRecords_bad_cidr_witness :
    (∀ l e, parseAsnRecords noIPv6 ⟨sampleRows ++ badCidrRow :: sampleRows, none⟩ ≠
      .returns (some l, e)) ∧
    parseAsnRecords noIPv6 ⟨sampleRows ++ badCidrRow :: sampleRows, none⟩ =
      .returns (none, some (.wrapError
        ("can not parse ip value: ".toList ++ "10.1.2.3".toList ++ ": ".toList)
        (.parseError "CIDR address" "10.1.2.3".toList))) :=
  ⟨(parseAsnRecords_bad_cidr noIPv6 ⟨sampleRows ++ badCidrRow :: sampleRows, none⟩ sampleRows
      badCidrRow sampleRows "10.1.2.3".toList (.parseError "CIDR address" "10.1.2.3".toList)
      rfl (by decide) (by decide)).1,
   (parseAsnRecords_bad_cidr noIPv6 ⟨sampleRows ++ badCidrRow :: sampleRows, none⟩ sampleRows
      badCidrRow sampleRows "10.1.2.3".toList (.parseError "CIDR address" "10.1.2.3".toList)
      rfl (by decide) (by decide)).2 (by decide)⟩

/-! ## `net.ParseCIDR` on IPv4 text -/

set_option maxRecDepth 100000 in
theorem uitoa_byte_table :
    ∀ v, v < 256 →
      (uitoa v ≠ [] ∧ (∀ c ∈ uitoa v, isDecDigit c) ∧ decValue (uitoa v) = v ∧
        ¬ ((uitoa v).length > 1 ∧ (uitoa v).head? = some '0')) := by
  decide

set_option maxRecDepth 100000 in
theorem cidrMask_table :
    ∀ n, n < 33 →
      ((CIDRMask n 32).length = 4 ∧ simpleMaskLength (CIDRMask n 32) = some n) := by
  decide

theorem foldl_dec_ge (s : GoString) (n : Nat) :
    n ≤ s.foldl (fun v c => v * 10 + (c.toNat - '0'.toNat)) n := by
  induction s generalizing n with
  | nil => simp
  | cons c cs ih =>
    simp only [List.foldl_cons]
    exact le_trans (by omega) (ih _)

theorem dtoiLoop_digits (ds rest : GoString) (n i : Nat) (hds : ∀ c ∈ ds, isDecDigit c)
    (hrest : ∀ c, rest.head? = some c → ¬ isDecDigit c)
    (hv : ds.foldl (fun v c => v * 10 + (c.toNat - '0'.toNat)) n < 0xFFFFFF) :
    dtoiLoop (ds ++ rest) n i =
      (ds.foldl (fun v c => v * 10 + (c.toNat - '0'.toNat)) n, i + ds.length, true) := by
  induction ds generalizing n i with
  | nil =>
    cases rest with
    | nil => simp [dtoiLoop]
    | cons c cs =>
      have hc := hrest c rfl
      unfold isDecDigit at hc
      simp only [List.nil_append, dtoiLoop, if_neg hc, List.foldl_nil, List.length_nil,
        Nat.add_zero]
  | cons c cs ih =>
    have hc : isDecDigit c := hds c (by simp)
    unfold isDecDigit at hc
    simp only [List.foldl_cons] at hv
    have hlt : ¬ (n * 10 + (c.toNat - '0'.toNat) ≥ 0xFFFFFF) := by
      have := foldl_dec_ge cs (n * 10 + (c.toNat - '0'.toNat))
      omega
    have := ih (n * 10 + (c.toNat - '0'.toNat)) (i + 1)
      (fun d hd => hds d (by simp [hd])) hv
    have hi : i + 1 + cs.length = i + (cs.length + 1) := by omega
    simp only [List.cons_append, dtoiLoop, if_pos hc, if_neg hlt, List.foldl_cons,
      List.length_cons]
    rw [← hi]
    exact this

theorem dtoi_uitoa (v : Nat) (hv : v < 256) (rest : GoString)
    (hrest : ∀ c, rest.head? = some c → ¬ isDecDigit c) :
    dtoi (uitoa v ++ rest) = (v, (uitoa v).length, true) := by
  obtain ⟨hne, hds, hval, _⟩ := uitoa_byte_table v hv
  have hl := dtoiLoop_digits (uitoa v) rest 0 0 hds hrest
    (by unfold decValue at hval; rw [hval]; omega)
  unfold decValue at hval
  have hpos : (uitoa v).length ≠ 0 := fun h => hne (List.eq_nil_of_length_eq_zero h)
  simp only [dtoi, hl, hval, Nat.zero_add, hpos, if_false]
theorem head_dot_not_digit (t : GoString) :
    ∀ c, ('.' :: t).head? = some c → ¬ isDecDigit c := by
  intro c h
  simp only [List.head?_cons, Option.some.injEq] at h
  subst h
  decide

theorem head_nil_not_digit : ∀ c, ([] : GoString).head? = some c → ¬ isDecDigit c := by
  intro c h
  simp at h

theorem netParseIPv4Loop_octet (k : Nat) (v : Nat) (hv : v < 256) (rest : GoString)
    (p : List Nat) (hrest : ∀ c, rest.head? = some c → ¬ isDecDigit c) :
    netParseIPv4Loop (k + 1) true (uitoa v ++ rest) p =
      netParseIPv4Loop k false rest (p ++ [v]) ∧
    netParseIPv4Loop (k + 1) false ('.' :: (uitoa v ++ rest)) p =
      netParseIPv4Loop k false rest (p ++ [v]) := by
  obtain ⟨hne, _, _, hlead⟩ := uitoa_byte_table v hv
  have hd := dtoi_uitoa v hv rest hrest
  have hlen1 : ¬ (len (uitoa v ++ rest) = 0) := by
    rw [len_eq_zero_iff]
    intro h
    exact hne (List.append_eq_nil.mp h).1
  have hlen2 : ¬ (len ('.' :: (uitoa v ++ rest)) = 0) := by
    rw [len_eq_zero_iff]
    intro h
    exact List.noConfusion h
  have hhead : (uitoa v ++ rest).head? = (uitoa v).head? := by
    cases h : uitoa v with
    | nil => exact absurd h hne
    | cons c cs => rfl
  have hbig : ¬ (v > 0xFF) := by omega
  have hlead' : ¬ ((uitoa v).length > 1 ∧ (uitoa v ++ rest).head? = some '0') := by
    rw [hhead]
    exact hlead
  have hdrop : (uitoa v ++ rest).drop (uitoa v).length = rest := List.drop_left' rfl
  constructor
  · simp only [netParseIPv4Loop, hlen1, if_false, if_true, hd, Bool.not_true, Bool.false_eq_true,
      hbig, or_self, hlead', hdrop]
  · simp only [netParseIPv4Loop, hlen2, if_false, hd, Bool.not_true, Bool.false_eq_true,
      hbig, or_self, hlead', hdrop]

theorem netParseIPv4_dotted (a b c d : Nat) (ha : a < 256) (hb : b < 256) (hc : c < 256)
    (hd : d < 256) : netParseIPv4 (dotted a b c d) = some (v4InV6 a b c d) := by
  have h1 := (netParseIPv4Loop_octet 3 a ha
    ('.' :: (uitoa b ++ '.' :: (uitoa c ++ '.' :: uitoa d))) [] (head_dot_not_digit _)).1
  have h2 := (netParseIPv4Loop_octet 2 b hb ('.' :: (uitoa c ++ '.' :: uitoa d)) ([] ++ [a])
    (head_dot_not_digit _)).2
  have h3 := (netParseIPv4Loop_octet 1 c hc ('.' :: uitoa d) ([] ++ [a] ++ [b])
    (head_dot_not_digit _)).2
  have h4 := (netParseIPv4Loop_octet 0 d hd [] ([] ++ [a] ++ [b] ++ [c]) head_nil_not_digit).2
  rw [List.append_nil] at h4
  unfold netParseIPv4 dotted
  rw [h1, h2, h3, h4]
  simp [netParseIPv4Loop, len]
theorem indexOf_append_sep (a b : GoString) (sep : Char) (h : sep ∉ a) :
    (a ++ sep :: b).indexOf sep = a.length := by
  induction a with
  | nil => simp [List.indexOf_cons]
  | cons c cs ih =>
    have hc : c ≠ sep := fun e => h (by simp [e])
    simp [List.indexOf_cons, hc, ih (fun hm => h (List.mem_cons_of_mem _ hm))]

theorem Index_append_sep (a b : GoString) (sep : Char) (h : sep ∉ a) :
    Index (a ++ sep :: b) sep = (a.length : Int) := by
  have hm : sep ∈ a ++ sep :: b := by simp
  simp only [Index, hm, if_true, indexOf_append_sep a b sep h]

theorem slash_not_mem_uitoa (v : Nat) (hv : v < 256) : '/' ∉ uitoa v := by
  intro h
  have := (uitoa_byte_table v hv).2.1 '/' h
  exact absurd this (by decide)

theorem slash_not_mem_dotted (a b c d : Nat) (ha : a < 256) (hb : b < 256) (hc : c < 256)
    (hd : d < 256) : '/' ∉ dotted a b c d := by
  have h1 := slash_not_mem_uitoa a ha
  have h2 := slash_not_mem_uitoa b hb
  have h3 := slash_not_mem_uitoa c hc
  have h4 := slash_not_mem_uitoa d hd
  simp only [dotted, List.mem_append, List.mem_cons, not_or]
  exact ⟨h1, by decide, h2, by decide, h3, by decide, h4⟩

theorem len_uitoa (v : Nat) (hv : v < 256) : len (uitoa v) = (uitoa v).length := by
  have key : ∀ s : GoString, (∀ c ∈ s, isDecDigit c) → len s = s.length := by
    intro s
    induction s with
    | nil => intro _; rfl
    | cons c cs ih =>
      intro h
      have hc := h c (by simp)
      have hcs := ih (fun x hx => h x (by simp [hx]))
      have h1 : c.utf8Size = 1 := by
        unfold isDecDigit at hc
        have h57 : '9'.toNat = 57 := rfl
        have : c.val ≤ 127 := by
          have : c.toNat ≤ 57 := by omega
          have e : c.toNat = c.val.toNat := rfl
          rw [e] at this
          exact UInt32.le_def.mpr (by simpa using (by omega : c.val.toNat ≤ 127))
        simp [Char.utf8Size, this]
      simp only [len, List.map_cons, List.sum_cons, List.length_cons] at hcs ⊢
      omega
  exact key _ (uitoa_byte_table v hv).2.1

theorem Mask_v4InV6 (a b c d : Nat) (m : List Nat) (hm : m.length = 4) :
    Mask (v4InV6 a b c d) m = List.zipWith (fun x y => x &&& y) [a, b, c, d] m := by
  match m, hm with
  | [m0, m1, m2, m3], _ => simp [Mask, v4InV6]

/-- `net.ParseCIDR` on the IPv4 text `a.b.c.d/n`: the address, and the network
made of the address masked to `n` bits and the mask of `n` ones. -/
theorem ParseCIDR_cidrText (p6 : GoString → Option IP) (a b c d n : Nat) (ha : a < 256)
    (hb : b < 256) (hc : c < 256) (hd : d < 256) (hn : n ≤ 32) :
    ParseCIDR p6 (cidrText a b c d n) =
      .ok (v4InV6 a b c d, ⟨maskedBytes a b c d n, CIDRMask n 32⟩) := by
  have hno := slash_not_mem_dotted a b c d ha hb hc hd
  have hidx := Index_append_sep (dotted a b c d) (uitoa n) '/' hno
  have hnn : ¬ (((dotted a b c d).length : Int) < 0) := by omega
  have htake : (dotted a b c d ++ '/' :: uitoa n).take (dotted a b c d).length =
      dotted a b c d := List.take_left' rfl
  have hdrop : (dotted a b c d ++ '/' :: uitoa n).drop ((dotted a b c d).length + 1) =
      uitoa n := by
    rw [← List.drop_drop, List.drop_left' rfl]
    rfl
  have hdt := dtoi_uitoa n (by omega) [] head_nil_not_digit
  rw [List.append_nil] at hdt
  have hlen := len_uitoa n (by omega)
  have hbig : ¬ (n > 8 * 4) := by omega
  have hml := (cidrMask_table n (by omega)).1
  unfold ParseCIDR cidrText
  simp only [hidx, hnn, if_false, Int.toNat_ofNat, htake, hdrop,
    netParseIPv4_dotted a b c d ha hb hc hd, hdt, hlen, Bool.not_true, Bool.false_eq_true,
    ne_eq, not_true_eq_false, hbig, or_self, Mask_v4InV6 a b c d _ hml, maskedBytes]

/-- `IPNet.String` on an IPv4 network with a mask of `n` ones. -/
theorem IPNetString_ipv4 (fmt6 : IP → GoString) (a b c d n : Nat) (hn : n ≤ 32) :
    IPNetString fmt6 ⟨[a, b, c, d], CIDRMask n 32⟩ = cidrText a b c d n := by
  obtain ⟨hml, hsl⟩ := cidrMask_table n (by omega)
  have hne : CIDRMask n 32 ≠ [] := by
    intro h
    rw [h] at hml
    simp at hml
  have hnm : networkNumberAndMask ⟨[a, b, c, d], CIDRMask n 32⟩ =
      ([a, b, c, d], CIDRMask n 32) := by
    simp [networkNumberAndMask, To4, hml]
  simp [IPNetString, hnm, hne, hsl, IPString, To4, cidrText, dotted]

theorem parseAsnRecords_valid (p6 : GoString → Option IP) (r : CsvReader)
    (h : ∀ row ∈ r.records, validRow p6 row) :
    parseAsnRecords p6 r = .returns (some (r.records.filterMap (rowRecord p6)), none) := by
  have := asnLoop_append_valid p6 r.records [] [] h
  rw [List.append_nil, List.nil_append] at this
  rw [parseAsnRecords, this]
  rfl

theorem rowRecord_cidrText (p6 : GoString → Option IP) (row : List GoString)
    (a b c d n : Nat) (ha : a < 256) (hb : b < 256) (hc : c < 256) (hd : d < 256)
    (hn : n ≤ 32) (hlen : 5 ≤ row.length) (hfield : row.getD 2 [] = cidrText a b c d n) :
    rowRecord p6 row = some ⟨⟨maskedBytes a b c d n, CIDRMask n 32⟩, row.getD 4 []⟩ := by
  have hl : ¬ row.length < 5 := by omega
  unfold rowRecord
  rw [if_neg hl, hfield, ParseCIDR_cidrText p6 a b c d n ha hb hc hd hn]

theorem sampleRows_records (p6 : GoString → Option IP) :
    sampleRows.map (rowRecord p6) =
      [some ⟨⟨[2, 63, 144, 0], [255, 255, 240, 0]⟩, "Miranda-Media Ltd".toList⟩,
       some ⟨⟨[3, 0, 0, 0], [255, 254, 0, 0]⟩, "Amazon.com Inc.".toList⟩,
       some ⟨⟨[4, 18, 66, 0], [255, 255, 254, 0]⟩, "Level 3 Parent LLC".toList⟩,
       some ⟨⟨[8, 8, 8, 0], [255, 255, 255, 0]⟩, "Google LLC".toList⟩] := by
  have h0 := rowRecord_cidrText p6 (sampleRows.getD 0 []) 2 63 144 0 20 (by decide) (by decide)
    (by decide) (by decide) (by decide) (by decide) (by decide)
  have h1 := rowRecord_cidrText p6 (sampleRows.getD 1 []) 3 0 0 0 15 (by decide) (by decide)
    (by decide) (by decide) (by decide) (by decide) (by decide)
  have h2 := rowRecord_cidrText p6 (sampleRows.getD 2 []) 4 18 66 0 23 (by decide) (by decide)
    (by decide) (by decide) (by decide) (by decide) (by decide)
  have h3 := rowRecord_cidrText p6 (sampleRows.getD 3 []) 8 8 8 0 24 (by decide) (by decide)
    (by decide) (by decide) (by decide) (by decide) (by decide)
  have hs : sampleRows = [sampleRows.getD 0 [], sampleRows.getD 1 [], sampleRows.getD 2 [],
      sampleRows.getD 3 []] := by decide
  rw [hs]
  simp only [List.map_cons, List.map_nil, h0, h1, h2, h3]
  decide

theorem sampleRows_valid (p6 : GoString → Option IP) :
    ∀ row ∈ sampleRows, validRow p6 row := by
  intro row hrow
  have hm : rowRecord p6 row ∈ sampleRows.map (rowRecord p6) := List.mem_map_of_mem _ hrow
  rw [sampleRows_records] at hm
  unfold validRow
  simp only [List.mem_cons, List.mem_singleton, List.mem_nil_iff, or_false] at hm
  rcases hm with h | h | h | h <;> rw [h] <;> rfl

theorem parseAsnRecords_sampleRows (p6 : GoString → Option IP) :
    parseAsnRecords p6 ⟨sampleRows, none⟩ = .returns (some
      [⟨⟨[2, 63, 144, 0], [255, 255, 240, 0]⟩, "Miranda-Media Ltd".toList⟩,
       ⟨⟨[3, 0, 0, 0], [255, 254, 0, 0]⟩, "Amazon.com Inc.".toList⟩,
       ⟨⟨[4, 18, 66, 0], [255, 255, 254, 0]⟩, "Level 3 Parent LLC".toList⟩,
       ⟨⟨[8, 8, 8, 0], [255, 255, 255, 0]⟩, "Google LLC".toList⟩], none) := by
  rw [parseAsnRecords_valid p6 ⟨sampleRows, none⟩ (sampleRows_valid p6)]
  have h := filterMap_rowRecord_valid p6 sampleRows (sampleRows_valid p6)
  rw [sampleRows_records] at h
  have e : sampleRows.filterMap (rowRecord p6) =
      [⟨⟨[2, 63, 144, 0], [255, 255, 240, 0]⟩, "Miranda-Media Ltd".toList⟩,
       ⟨⟨[3, 0, 0, 0], [255, 254, 0, 0]⟩, "Amazon.com Inc.".toList⟩,
       ⟨⟨[4, 18, 66, 0], [255, 255, 254, 0]⟩, "Level 3 Parent LLC".toList⟩,
       ⟨⟨[8, 8, 8, 0], [255, 255, 255, 0]⟩, "Google LLC".toList⟩] := by
    apply List.map_injective_iff.mpr (Option.some_injective _)
    rw [h]
    rfl
  simp only [e]
/-- C16: a failed `Read` does not reach the caller.  Whatever error ends the
reading, the result of `parseAsnRecords` is the one for the same records followed
by the end of input; on the first row of the sample table followed by a row with a
wrong number of fields it returns the one record read so far and a nil error. -/
theorem parseAsnRecords_swallows_read_error (p6 : GoString → Option IP) :
    (∀ rows e, parseAsnRecords p6 ⟨rows, some e⟩ = parseAsnRecords p6 ⟨rows, none⟩) ∧
    parseAsnRecords p6 ⟨sampleRows.take 1, some csvFieldCountError⟩ =
      .returns (some [⟨⟨[2, 63, 144, 0], [255, 255, 240, 0]⟩, "Miranda-Media Ltd".toList⟩],
        none) := by
  refine ⟨fun _ _ => rfl, ?_⟩
  have hrec := rowRecord_cidrText p6 (sampleRows.getD 0 []) 2 63 144 0 20 (by decide)
    (by decide) (by decide) (by decide) (by decide) (by decide) (by decide)
  have hs : sampleRows.take 1 = [sampleRows.getD 0 []] := by decide
  unfold parseAsnRecords
  simp only [hs]
  rw [asnLoop_cons_of_rowRecord p6 _ [] [] _ hrec]
  have hm : maskedBytes 2 63 144 0 20 = [2, 63, 144, 0] := by decide
  have hc : CIDRMask 20 32 = [255, 255, 240, 0] := by decide
  have hn : (sampleRows.getD 0 []).getD 4 [] = "Miranda-Media Ltd".toList := by decide
  simp only [parseAsnRecordsLoop, hm, hc, hn, List.nil_append]

/-- C14, as amended: for a table of `n` well-formed rows read to its end,
`parseAsnRecords` returns without error exactly `n` records in row order; the name
of record `i` is field 4 of row `i`, and its network is the network
`net.ParseCIDR` derives from field 2, the address masked to the prefix length.
When field 2 is the canonical text `a.b.c.d/n` of an IPv4 range (decimal numbers
without leading zeros, bytes up to 255, `n` up to 32) the network renders as the
masked address over `n`, so the rendering is field 2 itself when the address has no
bit set beyond the prefix; the four sample rows give four records, the first being
2.63.144.0/20 owned by `Miranda-Media Ltd`. -/
theorem parseAsnRecords_rows (p6 : GoString → Option IP) (fmt6 : IP → GoString)
    (r : CsvReader) (heof : r.err = none) (hrows : ∀ row ∈ r.records, validRow p6 row) :
    (∃ l, parseAsnRecords p6 r = .returns (some l, r.err) ∧
      l.length = r.records.length ∧
      ∀ i (hi : i < r.records.length) (hl : i < l.length),
        (l.get ⟨i, hl⟩).Name = (r.records.get ⟨i, hi⟩).getD 4 [] ∧
        (∃ ip, ParseCIDR p6 ((r.records.get ⟨i, hi⟩).getD 2 []) =
          .ok (ip, (l.get ⟨i, hl⟩).IPNet)) ∧
        ∀ a b c d n, a < 256 → b < 256 → c < 256 → d < 256 → n ≤ 32 →
          (r.records.get ⟨i, hi⟩).getD 2 [] = cidrText a b c d n →
          (l.get ⟨i, hl⟩).IPNet = ⟨maskedBytes a b c d n, CIDRMask n 32⟩ ∧
          (∀ a' b' c' d', maskedBytes a b c d n = [a', b', c', d'] →
            IPNetString fmt6 (l.get ⟨i, hl⟩).IPNet = cidrText a' b' c' d' n) ∧
          (maskedBytes a b c d n = [a, b, c, d] →
            IPNetString fmt6 (l.get ⟨i, hl⟩).IPNet = (r.records.get ⟨i, hi⟩).getD 2 [])) ∧
    (∃ r₁ r₂ r₃ r₄, parseAsnRecords p6 ⟨sampleRows, none⟩ =
        .returns (some [r₁, r₂, r₃, r₄], none) ∧
      IPNetString fmt6 r₁.IPNet = "2.63.144.0/20".toList ∧
      r₁.Name = "Miranda-Media Ltd".toList) := by
  refine ⟨⟨r.records.filterMap (rowRecord p6), ?_, ?_, ?_⟩, ?_⟩
  · rw [heof]
    exact parseAsnRecords_valid p6 r hrows
  · have := congrArg List.length (filterMap_rowRecord_valid p6 r.records hrows)
    simpa using this
  · intro i hi hl
    have hmap := filterMap_rowRecord_valid p6 r.records hrows
    have hget : rowRecord p6 (r.records.get ⟨i, hi⟩) =
        some ((r.records.filterMap (rowRecord p6)).get ⟨i, hl⟩) := by
      have h1 : ((r.records.filterMap (rowRecord p6)).map some)[i]? =
          (r.records.map (rowRecord p6))[i]? := by rw [hmap]
      rw [List.getElem?_map, List.getElem?_map, List.getElem?_eq_getElem hl,
        List.getElem?_eq_getElem hi] at h1
      simpa using h1.symm
    obtain ⟨_, hname, ip, hp⟩ := rowRecord_eq_some hget
    refine ⟨hname, ⟨ip, hp⟩, ?_⟩
    intro a b c d n ha hb hc hd hn hfield
    rw [hfield, ParseCIDR_cidrText p6 a b c d n ha hb hc hd hn] at hp
    have hnet : ((r.records.filterMap (rowRecord p6)).get ⟨i, hl⟩).IPNet =
        ⟨maskedBytes a b c d n, CIDRMask n 32⟩ := by
      injection hp with hp
      injection hp with _ hp
      exact hp.symm
    have hrender : ∀ a' b' c' d', maskedBytes a b c d n = [a', b', c', d'] →
        IPNetString fmt6 ((r.records.filterMap (rowRecord p6)).get ⟨i, hl⟩).IPNet =
          cidrText a' b' c' d' n := by
      intro a' b' c' d' hm
      rw [hnet, hm]
      exact IPNetString_ipv4 fmt6 a' b' c' d' n hn
    refine ⟨hnet, hrender, ?_⟩
    intro hm
    rw [hrender a b c d hm, hfield]
  · refine ⟨_, _, _, _, parseAsnRecords_sampleRows p6, ?_, rfl⟩
    have h := IPNetString_ipv4 fmt6 2 63 144 0 20 (by decide)
    have hm : CIDRMask 20 32 = [255, 255, 240, 0] := by decide
    have ht : cidrText 2 63 144 0 20 = "2.63.144.0/20".toList := by decide
    rw [hm, ht] at h
    exact h

theorem parseAsnRecords_rows_witness :
    (∃ l, parseAsnRecords noIPv6 ⟨sampleRows, none⟩ = .returns (some l, none) ∧
      l.length = sampleRows.length ∧
      ∀ i (hi : i < sampleRows.length) (hl : i < l.length),
        (l.get ⟨i, hl⟩).Name = (sampleRows.get ⟨i, hi⟩).getD 4 [] ∧
        (∃ ip, ParseCIDR noIPv6 ((sampleRows.get ⟨i, hi⟩).getD 2 []) =
          .ok (ip, (l.get ⟨i, hl⟩).IPNet)) ∧
        ∀ a b c d n, a < 256 → b < 256 → c < 256 → d < 256 → n ≤ 32 →
          (sampleRows.get ⟨i, hi⟩).getD 2 [] = cidrText a b c d n →
          (l.get ⟨i, hl⟩).IPNet = ⟨maskedBytes a b c d n, CIDRMask n 32⟩ ∧
          (∀ a' b' c' d', maskedBytes a b c d n = [a', b', c', d'] →
            IPNetString noIPv6Text (l.get ⟨i, hl⟩).IPNet = cidrText a' b' c' d' n) ∧
          (maskedBytes a b c d n = [a, b, c, d] →
            IPNetString noIPv6Text (l.get ⟨i, hl⟩).IPNet =
              (sampleRows.get ⟨i, hi⟩).getD 2 [])) ∧
    (∃ r₁ r₂ r₃ r₄, parseAsnRecords noIPv6 ⟨sampleRows, none⟩ =
        .returns (some [r₁, r₂, r₃, r₄], none) ∧
      IPNetString noIPv6Text r₁.IPNet = "2.63.144.0/20".toList ∧
      r₁.Name = "Miranda-Media Ltd".toList) :=
  parseAsnRecords_rows noIPv6 noIPv6Text ⟨sampleRows, none⟩ rfl (by decide)

/-- C14 as stated fails.  The row with CIDR field `10.1.2.3/8` is well-formed, and
the network of its record renders as `10.0.0.0/8`, not as the field: the bits
beyond the prefix are masked away.  The row with CIDR field `10.0.0.0/08` is
well-formed too and has no bit beyond the prefix, and the network of its record
renders as `10.0.0.0/8`: the prefix length is kept as a number, not as text. -/
theorem parseAsnRecords_literal_counterexample :
    validRow noIPv6 hostBitsRow ∧
    parseAsnRecords noIPv6 ⟨[hostBitsRow], none⟩ =
      .returns (some [⟨⟨[10, 0, 0, 0], [255, 0, 0, 0]⟩, "Example Net".toList⟩], none) ∧
    validRow noIPv6 leadingZeroRow ∧
    parseAsnRecords noIPv6 ⟨[leadingZeroRow], none⟩ =
      .returns (some [⟨⟨[10, 0, 0, 0], [255, 0, 0, 0]⟩, "Example Net".toList⟩], none) ∧
    IPNetString noIPv6Text ⟨[10, 0, 0, 0], [255, 0, 0, 0]⟩ = "10.0.0.0/8".toList ∧
    (¬ ∀ (p6 : GoString → Option IP) (fmt6 : IP → GoString) (r : CsvReader),
      r.err = none → (∀ row ∈ r.records, validRow p6 row) →
      ∃ l, parseAsnRecords p6 r = .returns (some l, none) ∧
        l.length = r.records.length ∧
        ∀ i (hi : i < r.records.length) (hl : i < l.length),
          (l.get ⟨i, hl⟩).Name = (r.records.get ⟨i, hi⟩).getD 4 [] ∧
          IPNetString fmt6 (l.get ⟨i, hl⟩).IPNet = (r.records.get ⟨i, hi⟩).getD 2 []) ∧
    (¬ ∀ (p6 : GoString → Option IP) (fmt6 : IP → GoString) (r : CsvReader),
      r.err = none → (∀ row ∈ r.records, validRow p6 row) →
      (∀ row ∈ r.records, ∀ ip net, ParseCIDR p6 (row.getD 2 []) = .ok (ip, net) →
        To4 ip = some net.IP) →
      ∃ l, parseAsnRecords p6 r = .returns (some l, none) ∧
        ∀ i (hi : i < r.records.length) (hl : i < l.length),
          IPNetString fmt6 (l.get ⟨i, hl⟩).IPNet = (r.records.get ⟨i, hi⟩).getD 2 []) := by
  have hv : validRow noIPv6 hostBitsRow := by decide
  have hz : validRow noIPv6 leadingZeroRow := by decide
  have hrec : [hostBitsRow].filterMap (rowRecord noIPv6) =
      [⟨⟨[10, 0, 0, 0], [255, 0, 0, 0]⟩, "Example Net".toList⟩] := by decide
  have hrecz : [leadingZeroRow].filterMap (rowRecord noIPv6) =
      [⟨⟨[10, 0, 0, 0], [255, 0, 0, 0]⟩, "Example Net".toList⟩] := by decide
  have hp : parseAsnRecords noIPv6 ⟨[hostBitsRow], none⟩ =
      .returns (some [⟨⟨[10, 0, 0, 0], [255, 0, 0, 0]⟩, "Example Net".toList⟩], none) := by
    rw [parseAsnRecords_valid noIPv6 ⟨[hostBitsRow], none⟩ (by simpa using hv), hrec]
  have hpz : parseAsnRecords noIPv6 ⟨[leadingZeroRow], none⟩ =
      .returns (some [⟨⟨[10, 0, 0, 0], [255, 0, 0, 0]⟩, "Example Net".toList⟩], none) := by
    rw [parseAsnRecords_valid noIPv6 ⟨[leadingZeroRow], none⟩ (by simpa using hz), hrecz]
  refine ⟨hv, hp, hz, hpz, by decide, ?_, ?_⟩
  · intro h
    obtain ⟨l, hl, hlen, hall⟩ := h noIPv6 noIPv6Text ⟨[hostBitsRow], none⟩ rfl
      (by simpa using hv)
    rw [hp] at hl
    injection hl with hl
    injection hl with hl _
    injection hl with hl
    subst hl
    have := (hall 0 (by decide) (by decide)).2
    exact absurd this (by decide)
  · intro h
    obtain ⟨l, hl, hall⟩ := h noIPv6 noIPv6Text ⟨[leadingZeroRow], none⟩ rfl
      (by simpa using hz)
      (by
        intro row hrow ip net hparse
        simp only [List.mem_singleton] at hrow
        subst hrow
        have hparse' : ParseCIDR noIPv6 (leadingZeroRow.getD 2 []) =
            .ok (v4InV6 10 0 0 0, ⟨[10, 0, 0, 0], [255, 0, 0, 0]⟩) := by decide
        rw [hparse'] at hparse
        injection hparse with hparse
        injection hparse with h1 h2
        subst h1
        subst h2
        decide)
    rw [hpz] at hl
    injection hl with hl
    injection hl with hl _
    injection hl with hl
    subst hl
    have := hall 0 (by decide) (by decide)
    exact absurd this (by decide)

/-! ## Lines longer than the buffer of the scanner -/

theorem maxScanTokenSize_pos : 0 < MaxScanTokenSize := by decide

theorem scanLoop_unlines_overlong (flag : Bool) (pre : List GoString) (long : GoString)
    (post : List GoString) (hpre : ∀ l ∈ pre, '\n' ∉ l ∧ len l < MaxScanTokenSize)
    (hlong : '\n' ∉ long) (hlen : MaxScanTokenSize ≤ len long) :
    ∃ buf, scanLoop flag (unlines (pre ++ long :: post)) [] 0 = (pre.map dropCR, some buf) := by
  induction pre with
  | nil =>
    obtain ⟨buf, hb⟩ := scanLoop_tooLong flag long (unlines post) [] 0 hlong
      maxScanTokenSize_pos (by omega)
    exact ⟨buf, hb⟩
  | cons l pre ih =>
    obtain ⟨buf, hb⟩ := ih (fun x hx => hpre x (by simp [hx]))
    obtain ⟨h1, h2⟩ := hpre l (by simp)
    refine ⟨buf, ?_⟩
    have := scanLoop_line flag l (unlines (pre ++ long :: post)) [] 0 h1 (by omega)
    rw [List.nil_append] at this
    have e : unlines ((l :: pre) ++ long :: post) =
        l ++ '\n' :: unlines (pre ++ long :: post) := rfl
    rw [e, List.map_cons, this, hb]

/-- A line that does not fit the scanner's buffer ends the scan: when the lines
before it fit, `parseSocketStats` returns what the loop makes of the data lines
before it, with `ErrTooLong` as the scanner's error. -/
theorem parseSocketStats_overlong (hdr : GoString) (pre : List GoString) (long : GoString)
    (post : List GoString) (err : Option GoError) (flag : Bool) (asns : List asnRecord)
    (hpre : ∀ l ∈ hdr :: pre, '\n' ∉ l ∧ len l < MaxScanTokenSize)
    (hlong : '\n' ∉ long) (hlen : MaxScanTokenSize ≤ len long) :
    parseSocketStats ⟨unlines (hdr :: pre ++ long :: post), err, flag⟩ asns =
      parseSocketStatsLoop asns (some ErrTooLong) (pre.map dropCR) GoMap.empty := by
  obtain ⟨buf, hb⟩ := scanLoop_unlines_overlong flag (hdr :: pre) long post hpre hlong hlen
  have hs : Scan ⟨unlines (hdr :: pre ++ long :: post), err, flag⟩ =
      (dropCR hdr :: pre.map dropCR, some buf) := hb
  unfold parseSocketStats
  rw [hs]

theorem rawLinesAux_char (c : Char) (cs cur : GoString) (hc : c ≠ '\n') :
    rawLinesAux (c :: cs) cur = rawLinesAux cs (cur ++ [c]) := by
  simp only [rawLinesAux, hc, if_false]

theorem rawLinesAux_newline (cs cur : GoString) :
    rawLinesAux ('\n' :: cs) cur = cur :: rawLinesAux cs [] := by
  simp only [rawLinesAux, if_true]

theorem rawLinesAux_advance (p rest cur : GoString) (hp : '\n' ∉ p) :
    rawLinesAux (p ++ rest) cur = rawLinesAux rest (cur ++ p) := by
  induction p generalizing cur with
  | nil => simp
  | cons c p ih =>
    have hc : c ≠ '\n' := fun h => hp (by simp [h])
    have hp' : '\n' ∉ p := fun h => hp (by simp [h])
    rw [List.cons_append, rawLinesAux_char c _ cur hc, ih _ hp']
    simp

theorem rawLines_unlines (ls : List GoString) (h : ∀ l ∈ ls, '\n' ∉ l) :
    rawLines (unlines ls) = ls := by
  induction ls with
  | nil => rfl
  | cons l ls ih =>
    have := rawLinesAux_advance l ('\n' :: unlines ls) [] (h l (by simp))
    unfold rawLines at ih ⊢
    have e : unlines (l :: ls) = l ++ '\n' :: unlines ls := rfl
    rw [e, this, rawLinesAux_newline, List.nil_append, ih (fun x hx => h x (by simp [hx]))]

theorem dropCR_of_getLast (s : GoString) (h : s.getLast? ≠ some '\r') : dropCR s = s := by
  simp only [dropCR, h, if_false]

theorem len_overlongLine : MaxScanTokenSize ≤ len overlongLine := by
  unfold overlongLine overlongHeader
  rw [len_append, len_cons, len_replicate_ascii _ 'x' (by decide)]
  omega

theorem newline_not_mem_overlongLine : '\n' ∉ overlongLine := by
  unfold overlongLine overlongHeader
  simp only [List.mem_append, List.mem_cons, List.mem_replicate, not_or]
  exact ⟨by decide, by decide, fun h => absurd h.2 (by decide)⟩

theorem dropCR_overlongLine : dropCR overlongLine = overlongLine := by
  apply dropCR_of_getLast
  unfold overlongLine overlongHeader
  have e : MaxScanTokenSize = (MaxScanTokenSize - 1) + 1 := by decide
  rw [e, List.replicate_succ']
  have e2 : listenLine ++ '#' :: (List.replicate (MaxScanTokenSize - 1) 'x' ++ ['x']) =
      (listenLine ++ '#' :: List.replicate (MaxScanTokenSize - 1) 'x') ++ ['x'] := by simp
  rw [e2, List.getLast?_append]
  simp

theorem lineFields_overlongLine : lineFields overlongLine = lineFields listenLine := by
  unfold overlongLine
  rw [lineFields_eq, before_append_sep listenLine _ '#' (by decide), lineFields_eq,
    before_of_not_mem listenLine '#' (by decide)]

theorem lineRecord_congr {a b : GoString} (h : lineFields a = lineFields b) :
    lineRecord a = lineRecord b := by
  unfold lineRecord
  rw [h]

theorem lineCell_congr (asns : List asnRecord) {a b : GoString}
    (h : lineFields a = lineFields b) : lineCell asns a = lineCell asns b := by
  unfold lineCell
  rw [lineRecord_congr h]

theorem lineRecord_overlongLine : lineRecord overlongLine = some ([127, 0, 0, 1], 10) := by
  have h : lineRecord listenLine = some ([127, 0, 0, 1], 10) := by decide
  exact (lineRecord_congr lineFields_overlongLine).trans h

theorem wellFormed_of_eq_overlongLine (l : GoString) (h : l = overlongLine) : wellFormed l := by
  have h10 : (10 : Nat) < 12 := by decide
  have hr : lineRecord l = some ([127, 0, 0, 1], 10) := by rw [h]; exact lineRecord_overlongLine
  exact wellFormed_of_lineRecord hr h10

theorem textLines_unlines (ls : List GoString) (h : ∀ l ∈ ls, '\n' ∉ l) :
    textLines (unlines ls) = ls.map dropCR := by
  unfold textLines
  rw [rawLines_unlines ls h]

theorem overlong_table (pre post : List GoString) (asns : List asnRecord)
    (hpre : ∀ l ∈ pre, '\n' ∉ l ∧ len l < MaxScanTokenSize ∧ dropCR l = l ∧ wellFormed l)
    (hpost : ∀ l ∈ post, '\n' ∉ l ∧ dropCR l = l) :
    parseSocketStats (NewReader (unlines (tableHeader :: pre ++ overlongLine :: post))) asns =
      .returns (some (countLines asns GoMap.empty pre), some ErrTooLong) ∧
    textLines (NewReader (unlines (tableHeader :: pre ++ overlongLine :: post))).data =
      tableHeader :: (pre ++ overlongLine :: post) := by
  have hmap : ∀ ls : List GoString, (∀ l ∈ ls, dropCR l = l) → ls.map dropCR = ls := by
    intro ls h
    induction ls with
    | nil => rfl
    | cons a ls ih =>
      rw [List.map_cons, h a (by simp), ih (fun x hx => h x (by simp [hx]))]
  have hpremap : pre.map dropCR = pre := hmap pre (fun l hl => (hpre l hl).2.2.1)
  refine ⟨?_, ?_⟩
  · have h := parseSocketStats_overlong tableHeader pre overlongLine post none false asns
      (by
        intro l hl
        rcases List.mem_cons.mp hl with e | hl'
        · rw [e]
          exact ⟨by decide, by decide⟩
        · exact ⟨(hpre l hl').1, (hpre l hl').2.1⟩)
      newline_not_mem_overlongLine len_overlongLine
    rw [hpremap, loop_wellFormed asns _ pre _ (fun l hl => (hpre l hl).2.2.2)] at h
    exact h
  · have hall : ∀ l ∈ tableHeader :: pre ++ overlongLine :: post, '\n' ∉ l := by
      intro l hl
      simp only [List.cons_append, List.mem_cons, List.mem_append] at hl
      rcases hl with e | hl | e | hl
      · rw [e]; decide
      · exact (hpre l hl).1
      · rw [e]; exact newline_not_mem_overlongLine
      · exact (hpost l hl).1
    have hdrop : ∀ l ∈ tableHeader :: pre ++ overlongLine :: post, dropCR l = l := by
      intro l hl
      simp only [List.cons_append, List.mem_cons, List.mem_append] at hl
      rcases hl with e | hl | e | hl
      · rw [e]; decide
      · exact (hpre l hl).2.2.1
      · rw [e]; exact dropCR_overlongLine
      · exact (hpost l hl).2
    have h := textLines_unlines _ hall
    rw [hmap _ hdrop] at h
    exact h

theorem cell_empty (o s : GoString) : cell GoMap.empty o s = none := rfl

/-- C6 as stated fails: on the header line followed by one well-formed data line of
more than 65536 bytes the scanner stops with `ErrTooLong`, and `parseSocketStats`
returns an empty table with that error, although the line resolves to the pair
(`_other`, LISTEN). -/
theorem parseSocketStats_counts_overlong_counterexample :
    parseSocketStats (NewReader (unlines [tableHeader, overlongLine])) [] =
      .returns (some GoMap.empty, some ErrTooLong) ∧
    lineCell [] overlongLine = some ("_other".toList, "LISTEN".toList) ∧
    ¬ ∀ (r : Reader) (asns : List asnRecord) (hdr : GoString) (ls : List GoString),
      textLines r.data = hdr :: ls → (∀ l ∈ ls, wellFormed l) → ls.length < 2 ^ 64 →
      ∃ t e, parseSocketStats r asns = .returns (some t, e) ∧
        ∀ o s, (cell t o s).isSome ↔ ∃ l ∈ ls, lineCell asns l = some (o, s) := by
  obtain ⟨hres, hlines⟩ := overlong_table [] [] [] (by simp) (by simp)
  have hcell : lineCell [] overlongLine = some ("_other".toList, "LISTEN".toList) := by
    have h : lineCell [] listenLine = some ("_other".toList, "LISTEN".toList) := by decide
    exact (lineCell_congr [] lineFields_overlongLine).trans h
  refine ⟨hres, hcell, ?_⟩
  intro h
  obtain ⟨t, e, ht, hcells⟩ := h _ [] tableHeader [overlongLine] hlines
    (fun l hl => wellFormed_of_eq_overlongLine l (by simpa using hl)) (by simp)
  rw [hres] at ht
  injection ht with ht
  injection ht with ht _
  injection ht with ht
  subst ht
  have := (hcells "_other".toList "LISTEN".toList).mpr ⟨overlongLine, by simp, hcell⟩
  have h0 : cell (countLines [] GoMap.empty []) "_other".toList "LISTEN".toList = none := rfl
  rw [h0] at this
  exact absurd this (by simp)

theorem returns_table_inj {t t' : CountTable} {e e' : Option GoError}
    (h : (Outcome.returns (some t, e) : Outcome SocketStats) = .returns (some t', e')) :
    t = t' ∧ e = e' := by
  injection h with h
  injection h with h1 h2
  injection h1 with h1
  exact ⟨h1, h2⟩

set_option maxRecDepth 100000 in
theorem listenLine_fits :
    ∀ l ∈ [listenLine],
      '\n' ∉ l ∧ len l < MaxScanTokenSize ∧ dropCR l = l ∧ wellFormed l := by decide

/-- C7 as stated fails: the well-formed data line `overlongLine` decodes to
127.0.0.1, which an empty ASN list does not contain, but it has more than 65536
bytes: the scanner stops at it with `ErrTooLong`, and `parseSocketStats` returns an
empty table with that error, so the line is counted under no owner and an error is
returned. -/
theorem parseSocketStats_unmatched_overlong_counterexample :
    parseSocketStats (NewReader (unlines [tableHeader, overlongLine, establishedLine])) [] =
      .returns (some GoMap.empty, some ErrTooLong) ∧
    lineRecord overlongLine = some ([127, 0, 0, 1], 10) ∧
    ¬ ∀ (r : Reader) (asns : List asnRecord) (hdr : GoString) (pre : List GoString)
        (line : GoString) (post : List GoString) (ip : IP) (u : Nat),
      textLines r.data = hdr :: (pre ++ line :: post) →
      (∀ l ∈ pre ++ line :: post, wellFormed l) →
      lineRecord line = some (ip, u) →
      (∀ a ∈ asns, a.IPNet.Contains ip = false) →
      ∃ t e state, socketStates.get? u = some state ∧
        parseSocketStats r asns = .returns (some t, e) ∧
        (cell t "_other".toList state).isSome := by
  obtain ⟨hres, hlines⟩ := overlong_table [] [establishedLine] []
    (by simp) (by decide)
  refine ⟨hres, lineRecord_overlongLine, ?_⟩
  intro h
  obtain ⟨t, e, state, _, ht, hc⟩ := h _ [] tableHeader [] overlongLine [establishedLine]
    [127, 0, 0, 1] 10 hlines
    (by
      intro l hl
      simp only [List.nil_append, List.mem_cons, List.mem_singleton, List.not_mem_nil,
        or_false] at hl
      rcases hl with hl | hl
      · exact wellFormed_of_eq_overlongLine l hl
      · rw [hl]; decide)
    lineRecord_overlongLine (by simp)
  rw [hres] at ht
  obtain ⟨ht, _⟩ := returns_table_inj ht
  subst ht
  have h0 : cell (countLines [] GoMap.empty []) "_other".toList state = none := rfl
  rw [h0] at hc
  exact absurd hc (by simp)

theorem cell_one_line (asns : List asnRecord) (line o s : GoString) (hwf : wellFormed line)
    (hc : lineCell asns line = some (o, s)) :
    cell (countLines asns GoMap.empty [line]) o s = some 1 := by
  rw [cell_countLines_empty asns [line] (by simpa using hwf) (by simp) o s]
  simp [hc]

/-- C8 as stated fails: with the well-formed data line `overlongLine` of more than
65536 bytes, the lines `listenLine`, `overlongLine` give a table with the cell
(`_other`, LISTEN) at 1 and the same lines in the other order give an empty table,
because the scanner stops at the overlong line with `ErrTooLong`. -/
theorem parseSocketStats_perm_overlong_counterexample :
    (∃ t, parseSocketStats (NewReader (unlines [tableHeader, listenLine, overlongLine])) [] =
        .returns (some t, some ErrTooLong) ∧
      cell t "_other".toList "LISTEN".toList = some 1) ∧
    parseSocketStats (NewReader (unlines [tableHeader, overlongLine, listenLine])) [] =
      .returns (some GoMap.empty, some ErrTooLong) ∧
    ¬ ∀ (r r' : Reader) (asns : List asnRecord) (hdr : GoString) (ls ls' : List GoString),
      textLines r.data = hdr :: ls → textLines r'.data = hdr :: ls' → ls.Perm ls' →
      (∀ l ∈ ls, wellFormed l) →
      ∃ t e e', parseSocketStats r asns = .returns (some t, e) ∧
        parseSocketStats r' asns = .returns (some t, e') := by
  obtain ⟨hres, hlines⟩ := overlong_table [listenLine] [] [] listenLine_fits (by simp)
  obtain ⟨hres', hlines'⟩ := overlong_table [] [listenLine] [] (by simp) (by decide)
  have hone : cell (countLines [] GoMap.empty [listenLine]) "_other".toList "LISTEN".toList =
      some 1 := cell_one_line [] listenLine _ _ (by decide) (by decide)
  refine ⟨⟨_, hres, hone⟩, hres', ?_⟩
  intro h
  obtain ⟨t, e, e', ht, ht'⟩ := h _ _ [] tableHeader [listenLine, overlongLine]
    [overlongLine, listenLine] hlines hlines' (List.Perm.swap _ _ _)
    (by
      intro l hl
      simp only [List.mem_cons, List.mem_singleton, List.not_mem_nil, or_false] at hl
      rcases hl with hl | hl
      · rw [hl]; decide
      · exact wellFormed_of_eq_overlongLine l hl)
  rw [hres] at ht
  rw [hres'] at ht'
  obtain ⟨h1, _⟩ := returns_table_inj ht
  obtain ⟨h2, _⟩ := returns_table_inj ht'
  rw [← h1] at h2
  have h0 : cell (countLines [] GoMap.empty []) "_other".toList "LISTEN".toList = none := rfl
  rw [h2, hone] at h0
  exact absurd h0 (by simp)

/-- C10 as stated fails: when the well-formed data line `overlongLine` of more than
65536 bytes stands before the malformed line `shortLine`, the scanner stops at the
overlong line and `parseSocketStats` returns `ErrTooLong` together with the table of
the lines counted so far, which is not nil. -/
theorem parseSocketStats_fail_fast_overlong_counterexample :
    (∃ t, parseSocketStats
        (NewReader (unlines [tableHeader, listenLine, overlongLine, shortLine])) [] =
        .returns (some t, some ErrTooLong) ∧
      cell t "_other".toList "LISTEN".toList = some 1) ∧
    lineRecord shortLine = none ∧
    ¬ ∀ (r : Reader) (asns : List asnRecord) (hdr : GoString) (pre : List GoString)
        (bad : GoString) (post : List GoString),
      textLines r.data = hdr :: (pre ++ bad :: post) → lineRecord bad = none →
      (∀ l ∈ pre, wellFormed l) →
      ∃ err, parseSocketStats r asns = .returns (none, some err) := by
  obtain ⟨hres, hlines⟩ := overlong_table [listenLine] [shortLine] [] listenLine_fits (by decide)
  have hone : cell (countLines [] GoMap.empty [listenLine]) "_other".toList "LISTEN".toList =
      some 1 := cell_one_line [] listenLine _ _ (by decide) (by decide)
  refine ⟨⟨_, hres, hone⟩, by decide, ?_⟩
  intro h
  obtain ⟨err, herr⟩ := h _ [] tableHeader [listenLine, overlongLine] shortLine [] hlines
    (by decide)
    (by
      intro l hl
      simp only [List.mem_cons, List.mem_singleton, List.not_mem_nil, or_false] at hl
      rcases hl with hl | hl
      · rw [hl]; decide
      · exact wellFormed_of_eq_overlongLine l hl)
  rw [hres] at herr
  injection herr with herr
  injection herr with herr _
  exact Option.noConfusion herr

/-- C13 as stated fails: the well-formed data line `overlongLine` has the state
field `0A`, but it has more than 65536 bytes: the scanner stops at it with
`ErrTooLong` and the line is not counted under LISTEN, the table is the one of the
input without the line. -/
theorem parseSocketStats_state_name_overlong_counterexample :
    (∃ t, parseSocketStats (NewReader (unlines [tableHeader, listenLine, overlongLine]))
        [loopbackAsn] = .returns (some t, some ErrTooLong) ∧
      cell t "loopback".toList "LISTEN".toList = some 1) ∧
    (∃ t₀, parseSocketStats (NewReader (unlines [tableHeader, listenLine])) [loopbackAsn] =
        .returns (some t₀, none) ∧
      cell t₀ "loopback".toList "LISTEN".toList = some 1) ∧
    lineRecord overlongLine = some ([127, 0, 0, 1], 10) ∧
    ¬ ∀ (r r₀ : Reader) (asns : List asnRecord) (hdr : GoString) (pre : List GoString)
        (line : GoString) (post : List GoString) (ip : IP) (k : Nat),
      textLines r.data = hdr :: (pre ++ line :: post) →
      textLines r₀.data = hdr :: (pre ++ post) →
      (∀ l ∈ pre ++ post, wellFormed l) →
      lineRecord line = some (ip, k) → k ≤ 11 →
      ∃ t t₀ e e₀ name, socketStates.get? k = some name ∧
        parseSocketStats r₀ asns = .returns (some t₀, e₀) ∧
        parseSocketStats r asns = .returns (some t, e) ∧
        cell t (ownerOf asns ip) name = some ((cell t₀ (ownerOf asns ip) name).getD 0 + 1) := by
  obtain ⟨hres, hlines⟩ := overlong_table [listenLine] [] [loopbackAsn] listenLine_fits (by simp)
  have hone : cell (countLines [loopbackAsn] GoMap.empty [listenLine]) "loopback".toList
      "LISTEN".toList = some 1 := cell_one_line _ listenLine _ _ (by decide) (by decide)
  have hwf : ∀ l ∈ [listenLine], wellFormed l := by decide
  have hres₀ : parseSocketStats (NewReader (unlines [tableHeader, listenLine])) [loopbackAsn] =
      .returns (some (countLines [loopbackAsn] GoMap.empty [listenLine]), none) := by
    rw [parseSocketStats_of_lines _ _ tableHeader [listenLine] (by decide) (by decide),
      loop_wellFormed _ _ _ _ hwf]
    rfl
  refine ⟨⟨_, hres, hone⟩, ⟨_, hres₀, hone⟩, lineRecord_overlongLine, ?_⟩
  intro h
  obtain ⟨t, t₀, e, e₀, name, hname, ht₀, ht, hc⟩ := h _
    (NewReader (unlines [tableHeader, listenLine])) [loopbackAsn] tableHeader
    [listenLine] overlongLine [] [127, 0, 0, 1] 10 hlines (by decide) (by decide)
    lineRecord_overlongLine (by decide)
  rw [hres] at ht
  rw [hres₀] at ht₀
  obtain ⟨h1, _⟩ := returns_table_inj ht
  obtain ⟨h2, _⟩ := returns_table_inj ht₀
  subst h1
  subst h2
  have hn : name = "LISTEN".toList := by
    have : socketStates.get? 10 = some "LISTEN".toList := by decide
    rw [this] at hname
    exact (Option.some.inj hname).symm
  have ho : ownerOf [loopbackAsn] [127, 0, 0, 1] = "loopback".toList := by decide
  rw [hn, ho, hone] at hc
  exact absurd hc (by decide)

set_option maxRecDepth 100000 in
theorem addr_error_without_three :
    ¬ (Nat.toDigits 10 3 <:+:
      "can not parse remote ip and port ddress in the file: ".toList ++
        "netstat: bad formatted string: 100007F".toList) := by
  decide

/-- C9 as stated fails.  First, a data line rejected for another reason before the
short line is the one reported: with `sevenDigitLine` before the 3-field line
`shortLine` the error is the address error, whose message does not contain the
field count 3.  Second, a well-formed data line of more than 65536 bytes before the
short line stops the scanner: the call returns `ErrTooLong` with a table, and the
short line is never reached. -/
theorem parseSocketStats_too_few_fields_counterexample :
    parseSocketStats (NewReader (unlines [tableHeader, sevenDigitLine, shortLine])) [] =
      .returns (none, some (.wrapError
        "can not parse remote ip and port ddress in the file: ".toList
        (.errorString "netstat: bad formatted string: 100007F".toList))) ∧
    (lineFields shortLine).length = 3 ∧
    (¬ ∀ (quote : GoString → GoString) (r : Reader) (asns : List asnRecord) (hdr : GoString)
        (pre : List GoString) (bad : GoString) (post : List GoString),
      textLines r.data = hdr :: (pre ++ bad :: post) → fitsScanner r.data →
      (lineFields bad).length < 12 → (∀ l ∈ pre, ¬ (lineFields l).length < 12) →
      ∃ err, parseSocketStats r asns = .returns (none, some err) ∧
        Nat.toDigits 10 (lineFields bad).length <:+: err.Error quote) ∧
    parseSocketStats (NewReader (unlines [tableHeader, overlongLine, shortLine])) [] =
      .returns (some GoMap.empty, some ErrTooLong) ∧
    (¬ ∀ (r : Reader) (asns : List asnRecord) (hdr : GoString)
        (pre : List GoString) (bad : GoString) (post : List GoString),
      textLines r.data = hdr :: (pre ++ bad :: post) →
      (lineFields bad).length < 12 → (∀ l ∈ pre, wellFormed l) →
      ∃ err, parseSocketStats r asns = .returns (none, some err)) := by
  have hlines : textLines (NewReader (unlines [tableHeader, sevenDigitLine, shortLine])).data =
      tableHeader :: ([sevenDigitLine] ++ shortLine :: []) := by decide
  have hfit : fitsScanner (NewReader (unlines [tableHeader, sevenDigitLine, shortLine])).data := by
    decide
  have hlen : ¬ (lineFields sevenDigitLine).length < 12 := by decide
  have haddr : parseAddr ((lineFields sevenDigitLine).getD 2 []) =
      .error (.errorString "netstat: bad formatted string: 100007F".toList) := by decide
  have hres : parseSocketStats (NewReader (unlines [tableHeader, sevenDigitLine, shortLine])) [] =
      .returns (none, some (.wrapError
        "can not parse remote ip and port ddress in the file: ".toList
        (.errorString "netstat: bad formatted string: 100007F".toList))) := by
    rw [parseSocketStats_of_lines _ _ tableHeader _ hlines hfit]
    simp only [List.singleton_append, loop_cons, hlen, if_false, haddr]
  obtain ⟨hres', hlines'⟩ := overlong_table [] [shortLine] [] (by simp) (by decide)
  refine ⟨hres, by decide, ?_, hres', ?_⟩
  · intro h
    obtain ⟨err, herr, hinfix⟩ := h id _ [] tableHeader [sevenDigitLine] shortLine [] hlines hfit
      (by decide) (by decide)
    rw [hres] at herr
    injection herr with herr
    injection herr with _ herr
    injection herr with herr
    subst herr
    have h3 : (lineFields shortLine).length = 3 := by decide
    rw [h3] at hinfix
    exact addr_error_without_three hinfix
  · intro h
    obtain ⟨err, herr⟩ := h _ [] tableHeader [overlongLine] shortLine [] hlines' (by decide)
      (fun l hl => wellFormed_of_eq_overlongLine l (by simpa using hl))
    rw [hres'] at herr
    injection herr with herr
    injection herr with herr _
    exact Option.noConfusion herr

theorem fieldsAux_replicate (k : Nat) (x : Char) (hx : isSpace x = false) (cur : GoString) :
    fieldsAux (List.replicate k x) cur =
      if cur ++ List.replicate k x = [] then [] else [cur ++ List.replicate k x] := by
  induction k generalizing cur with
  | zero => simp [fieldsAux]
  | succ k ih =>
    rw [List.replicate_succ]
    simp only [fieldsAux, hx, Bool.false_eq_true, if_false]
    rw [ih]
    simp

theorem lineFields_overlongHeader : lineFields overlongHeader = [overlongHeader] := by
  have hmem : '#' ∉ overlongHeader := by
    unfold overlongHeader
    simp only [List.mem_replicate, not_and]
    intro _ h
    exact absurd h (by decide)
  have hne : overlongHeader ≠ [] := by
    unfold overlongHeader
    have e : MaxScanTokenSize = (MaxScanTokenSize - 1) + 1 := by decide
    rw [e, List.replicate_succ]
    simp
  rw [lineFields_eq, before_of_not_mem _ '#' hmem]
  have := fieldsAux_replicate MaxScanTokenSize 'x' (by decide) []
  rw [List.nil_append] at this
  unfold Fields
  unfold overlongHeader at hne ⊢
  rw [this]
  simp only [hne, if_false]

theorem dropCR_overlongHeader : dropCR overlongHeader = overlongHeader := by
  apply dropCR_of_getLast
  unfold overlongHeader
  have e : MaxScanTokenSize = (MaxScanTokenSize - 1) + 1 := by decide
  rw [e, List.replicate_succ', List.getLast?_append]
  simp

theorem Scan_overlongHeader (rest : GoString) (err : Option GoError) (flag : Bool) :
    Scan ⟨overlongHeader ++ '\n' :: rest, err, flag⟩ = ([], some overlongHeader) := by
  have := scanLoop_tooLong_replicate flag MaxScanTokenSize 'x' (by decide) (by decide) rest [] 0
    maxScanTokenSize_pos (by omega)
  rw [List.nil_append, Nat.sub_zero] at this
  exact this

theorem parseSocketStats_of_first_tooLong (r : Reader) (asns : List asnRecord) (buf : GoString)
    (h : Scan r = ([], some buf)) :
    parseSocketStats r asns =
      parseSocketStatsLoop asns (some ErrTooLong) [dropCR buf] GoMap.empty := by
  unfold parseSocketStats
  rw [h]

/-- C18 as stated fails: a first line of 65536 bytes does not fit the scanner's
buffer.  The first call of `Scan` fails with `ErrTooLong`, the next one yields the
buffered 65536 bytes as a data line, and `parseSocketStats` rejects it as a line of
one field; with the kernel's header line in its place the same following line gives
a table and no error. -/
theorem parseSocketStats_header_overlong_counterexample :
    parseSocketStats ⟨overlongHeader ++ '\n' :: unlines [listenLine], none, false⟩ [] =
      .returns (none, some (.errorString
        ("netstat: not enough fields: ".toList ++ Nat.toDigits 10 1 ++ ", ".toList ++
          fmtStrings [overlongHeader]))) ∧
    (∃ t, parseSocketStats ⟨tableHeader ++ '\n' :: unlines [listenLine], none, false⟩ [] =
        .returns (some t, none) ∧
      cell t "_other".toList "LISTEN".toList = some 1) ∧
    ¬ ∀ (h h' rest : GoString) (err : Option GoError) (flag : Bool) (asns : List asnRecord),
      '\n' ∉ h → '\n' ∉ h' →
      parseSocketStats ⟨h ++ '\n' :: rest, err, flag⟩ asns =
        parseSocketStats ⟨h' ++ '\n' :: rest, err, flag⟩ asns := by
  have hres : parseSocketStats ⟨overlongHeader ++ '\n' :: unlines [listenLine], none, false⟩ [] =
      .returns (none, some (.errorString
        ("netstat: not enough fields: ".toList ++ Nat.toDigits 10 1 ++ ", ".toList ++
          fmtStrings [overlongHeader]))) := by
    have hl : [overlongHeader].length = 1 := rfl
    rw [parseSocketStats_of_first_tooLong _ [] overlongHeader (Scan_overlongHeader _ none false),
      dropCR_overlongHeader, loop_cons, lineFields_overlongHeader, hl, if_pos (by decide)]
  have hwf : ∀ l ∈ [listenLine], wellFormed l := by decide
  have hone : cell (countLines [] GoMap.empty [listenLine]) "_other".toList "LISTEN".toList =
      some 1 := cell_one_line [] listenLine _ _ (by decide) (by decide)
  have hres' : parseSocketStats ⟨tableHeader ++ '\n' :: unlines [listenLine], none, false⟩ [] =
      .returns (some (countLines [] GoMap.empty [listenLine]), none) := by
    rw [parseSocketStats_of_lines _ _ tableHeader [listenLine] (by decide) (by decide),
      loop_wellFormed _ _ _ _ hwf]
  refine ⟨hres, ⟨_, hres', hone⟩, ?_⟩
  intro h
  have heq := h overlongHeader tableHeader (unlines [listenLine]) none false []
    (by
      unfold overlongHeader
      simp only [List.mem_replicate, not_and]
      intro _ h
      exact absurd h (by decide))
    (by decide)
  rw [hres, hres'] at heq
  injection heq with heq
  injection heq with heq _
  exact Option.noConfusion heq

/-- C19 as stated fails: with a comment of 65536 characters after `listenLine` the
line does not fit the scanner's buffer any more.  The input with `listenLine` gives
a table with the cell (`_other`, LISTEN) at 1 and no error, the input with the
commented line gives an empty table and `ErrTooLong`. -/
theorem parseSocketStats_comment_overlong_counterexample :
    (∃ t, parseSocketStats ⟨tableHeader ++ '\n' :: (listenLine ++ '\n' :: []), none, false⟩ [] =
        .returns (some t, none) ∧
      cell t "_other".toList "LISTEN".toList = some 1) ∧
    parseSocketStats
        ⟨tableHeader ++ '\n' :: ((listenLine ++ '#' :: overlongHeader) ++ '\n' :: []),
          none, false⟩ [] =
      .returns (some GoMap.empty, some ErrTooLong) ∧
    ¬ ∀ (L c a b : GoString) (err : Option GoError) (flag : Bool) (asns : List asnRecord),
      '#' ∉ L → '\n' ∉ L → '\n' ∉ c →
      parseSocketStats ⟨a ++ '\n' :: (L ++ '\n' :: b), err, flag⟩ asns =
        parseSocketStats ⟨a ++ '\n' :: ((L ++ '#' :: c) ++ '\n' :: b), err, flag⟩ asns := by
  have hwf : ∀ l ∈ [listenLine], wellFormed l := by decide
  have hone : cell (countLines [] GoMap.empty [listenLine]) "_other".toList "LISTEN".toList =
      some 1 := cell_one_line [] listenLine _ _ (by decide) (by decide)
  have hres : parseSocketStats ⟨tableHeader ++ '\n' :: (listenLine ++ '\n' :: []), none, false⟩
      [] = .returns (some (countLines [] GoMap.empty [listenLine]), none) := by
    rw [parseSocketStats_of_lines _ _ tableHeader [listenLine] (by decide) (by decide),
      loop_wellFormed _ _ _ _ hwf]
  have hres' : parseSocketStats
      ⟨tableHeader ++ '\n' :: ((listenLine ++ '#' :: overlongHeader) ++ '\n' :: []),
        none, false⟩ [] = .returns (some GoMap.empty, some ErrTooLong) :=
    (overlong_table [] [] [] (by simp) (by simp)).1
  refine ⟨⟨_, hres, hone⟩, hres', ?_⟩
  intro h
  have heq := h listenLine overlongHeader tableHeader [] none false [] (by decide) (by decide)
    (by
      unfold overlongHeader
      simp only [List.mem_replicate, not_and]
      intro _ h
      exact absurd h (by decide))
  rw [hres, hres'] at heq
  obtain ⟨_, he⟩ := returns_table_inj heq
  exact Option.noConfusion he

end NetExporter
